import Mathlib

/-!
# Caribou: corotational tetrahedral FEM force field

A shallow embedding of `src/src/Forcefield/FEMForcefield.cpp`
(`computeStiffnessMatrix`, `computeRotation`, `addForce`, `addDForce`,
`addKToMatrix`) over an arbitrary linearly ordered field `K` standing for the
C++ `Real`.  Arrays (`sofa::helper::vector`) are lists, indexed with a default
value outside their range; the abstract `BaseMatrix` is a function from
row and column to its entry.  Loops are left folds over the index range.
-/

namespace Caribou

/-! ## Vectors and small matrices -/

abbrev Vec3 (K : Type) := Fin 3 → K
abbrev Mat33 (K : Type) := Matrix (Fin 3) (Fin 3) K
abbrev Mat66 (K : Type) := Matrix (Fin 6) (Fin 6) K
abbrev Mat612 (K : Type) := Matrix (Fin 6) (Fin 12) K
abbrev Mat1212 (K : Type) := Matrix (Fin 12) (Fin 12) K

/-- A tetrahedron is the ordered 4-tuple of its node indices. -/
abbrev Tetrahedron := Fin 4 → Nat

/-- The option group `d_corotational`, in the order of `setNames`. -/
inductive Corotational
  | NONE
  | LARGE
  | POLAR
  | SVD
  | DEFORMATION_GRADIENT
  deriving DecidableEq, Repr

section Defs

variable {K : Type} [LinearOrderedField K]

/-- SOFA `dot` of two 3-vectors. -/
def dot (a b : Vec3 K) : K := a 0 * b 0 + a 1 * b 1 + a 2 * b 2

/-- SOFA `cross` of two 3-vectors. -/
def cross (a b : Vec3 K) : Vec3 K :=
  ![a 1 * b 2 - a 2 * b 1, a 2 * b 0 - a 0 * b 2, a 0 * b 1 - a 1 * b 0]

/-- Modelled from the spec: `operator^` on two vectors comes from
`Helper/LinearAlgebra.h`, which is not among the sources; the spec writes the
displacement gradient as the sum of `u_i ⊗ g_i`, the outer product. -/
def outer (u g : Vec3 K) : Mat33 K := Matrix.of fun i j => u i * g j

/-- SOFA `trace` of a 3x3 matrix. -/
def trace (M : Mat33 K) : K := M 0 0 + M 1 1 + M 2 2

/-- SOFA `Mat33(r0, r1, r2)`: the matrix whose lines (rows) are the three vectors. -/
def matFromRows (r0 r1 r2 : Vec3 K) : Mat33 K := Matrix.of ![r0, r1, r2]

/-- SOFA `Mat::inverted`: the inverse by cofactors over the determinant. -/
def inverted (A : Mat33 K) : Mat33 K := (A.det)⁻¹ • A.adjugate

/-- Array read `v[i]`. -/
def vget (v : List (Vec3 K)) (i : Nat) : Vec3 K := v.getD i 0

/-- Array update `v[i] -= w`. -/
def vsubAt (v : List (Vec3 K)) (i : Nat) (w : Vec3 K) : List (Vec3 K) :=
  v.set i (vget v i - w)

/-- The call `vector::resize(n, value)`: keeps the first `n` entries and pads with `value`. -/
def resize {α : Type} (l : List α) (n : Nat) (value : α) : List α :=
  l.take n ++ List.replicate (n - l.length) value

/-- The abstract `BaseMatrix`, seen through its entries. -/
abbrev BaseMatrix (K : Type) := Nat → Nat → K

/-- The call `matrix->add(i, j, v)`. -/
def BaseMatrix.add (M : BaseMatrix K) (i j : Nat) (v : K) : BaseMatrix K :=
  fun r c => if r = i ∧ c = j then M r c + v else M r c

/-- The numerical routines the force field calls but does not define: the
square root of the C library and the two decompositions of
`Helper/LinearAlgebra.h` (not among the sources), taken as parameters. -/
structure Helper (K : Type) where
  sqrt : K → K
  extractRotationPolar : Mat33 K → Mat33 K
  extractRotationSVD : Mat33 K → Mat33 K → Mat33 K → Mat33 K

/-- SOFA `Vec::normalized`, with the square root of the helper. -/
def normalized (h : Helper K) (v : Vec3 K) : Vec3 K := (h.sqrt (dot v v))⁻¹ • v

/-- Modelled from the spec: `extractRotationLarge` is declared in a header that
is not among the sources.  The spec describes a Gram-Schmidt orthogonalisation
that aligns the local x-axis along edge `b - a` (line 0 of the edge matrix) and
puts edge `c - a` (line 1) in the local xy-plane; the lines of the result are
the three axes. -/
def extractRotationLarge (h : Helper K) (A : Mat33 K) : Mat33 K :=
  let edgex := normalized h (A 0)
  let edgez := normalized h (cross edgex (A 1))
  let edgey := cross edgez edgex
  matFromRows edgex edgey edgez

/-- Modelled from the spec: `getShapeDerivatives` is declared in
`FEMForcefield.h`, which is not among the sources.  The spec asks for the
constant gradients of the four barycentric shape functions of the tetrahedron
`a b c d`, so that the gradient of a nodal field `u` is the sum of `u_i ⊗ g_i`. -/
def getShapeDerivatives (a b c d : Vec3 K) : Fin 4 → Vec3 K :=
  let det := dot (b - a) (cross (c - a) (d - a))
  let g1 := det⁻¹ • cross (c - a) (d - a)
  let g2 := det⁻¹ • cross (d - a) (b - a)
  let g3 := det⁻¹ • cross (b - a) (c - a)
  ![-(g1 + g2 + g3), g1, g2, g3]

/-- The 6x3 block of the strain-displacement matrix of one node, Voigt order
xx, yy, zz, xy, yz, xz. -/
def strainBlock (g : Vec3 K) : Matrix (Fin 6) (Fin 3) K :=
  !![g 0, 0, 0;
     0, g 1, 0;
     0, 0, g 2;
     g 1, g 0, 0;
     0, g 2, g 1;
     g 2, 0, g 0]

/-- Modelled from the spec: `getStrainDisplacement` is declared in
`FEMForcefield.h`, which is not among the sources.  The spec asks for the
standard symmetric strain-displacement matrix, mapping the 12 nodal
displacements to the 6 strains in Voigt order (xx, yy, zz, xy, yz, xz);
columns `3 j .. 3 j + 2` belong to node `j`. -/
def getStrainDisplacement (shape_derivatives : Fin 4 → Vec3 K) : Mat612 K :=
  Matrix.of fun r c =>
    strainBlock (shape_derivatives ⟨c.val / 3, by omega⟩) r ⟨c.val % 3, by omega⟩

/-- The call `stiffness.getsub(j*3, k*3, K)`: the 3x3 block at line `3 j`, column `3 k`. -/
def getsub (M : Mat1212 K) (j k : Fin 4) : Mat33 K :=
  Matrix.of fun l m => M ⟨3 * j.val + l.val, by omega⟩ ⟨3 * k.val + m.val, by omega⟩

/-! ## The force field -/

/-- The data members of `FEMForcefield` that the five functions read or write. -/
structure FEMForcefield (K : Type) where
  d_youngModulus : K
  d_poissonRatio : K
  d_initial_positions : List (Vec3 K)
  d_tetrahedrons : List Tetrahedron
  d_corotational : Corotational
  d_incremental_rotation : Bool
  d_element_stiffness_matrices : List (Mat1212 K)
  d_element_shape_derivatives : List (Fin 4 → Vec3 K)
  m_element_rotations : List (Mat33 K)
  m_element_initial_rotations : List (Mat33 K)
  m_element_initial_inverted_transformations : List (Mat33 K)

/-- How `computeStiffnessMatrix` ended: the silent return on empty input, the
return after `msg_error`, or the end of the function. -/
inductive Outcome
  | skipped
  | configurationError
  | computed
  deriving DecidableEq, Repr

/-- The material matrix `C` of `computeStiffnessMatrix` (lines 112-122). -/
def materialMatrix (youngModulus poissonRatio : K) : Mat66 K :=
  let l := youngModulus * poissonRatio / ((1 + poissonRatio) * (1 - 2 * poissonRatio))
  let m := youngModulus / (2 * (1 + poissonRatio))
  let a := l + 2 * m
  !![a, l, l, 0, 0, 0;
     l, a, l, 0, 0, 0;
     l, l, a, 0, 0, 0;
     0, 0, 0, m, 0, 0;
     0, 0, 0, 0, m, 0;
     0, 0, 0, 0, 0, m]

/-- The test of lines 98-106: some node id of some tetrahedron exceeds `X.size() - 1`. -/
def idOutOfRange (X : List (Vec3 K)) (tetrahedrons : List Tetrahedron) : Bool :=
  tetrahedrons.any fun tetrahedron =>
    (List.finRange 4).any fun j => decide (tetrahedron j > X.length - 1)

/-- One pass of the loop of lines 132-179 of `computeStiffnessMatrix`. -/
def computeStiffnessElement (h : Helper K) (s : FEMForcefield K) (tId : Nat) :
    FEMForcefield K :=
  let X := s.d_initial_positions
  let tetrahedron := s.d_tetrahedrons.getD tId (fun _ => 0)
  let a := vget X (tetrahedron 0)
  let b := vget X (tetrahedron 1)
  let c := vget X (tetrahedron 2)
  let d := vget X (tetrahedron 3)
  let mode := s.d_corotational
  let A := matFromRows (b - a) (c - a) (d - a)
  let A0inv :=
    if mode = Corotational.SVD then inverted A
    else s.m_element_initial_inverted_transformations.getD tId 0
  let R0 :=
    if mode = Corotational.NONE ∨ mode = Corotational.DEFORMATION_GRADIENT then
      s.m_element_initial_rotations.getD tId 0
    else if mode = Corotational.LARGE then extractRotationLarge h A
    else h.extractRotationPolar A
  let shape_derivatives :=
    if mode = Corotational.NONE ∨ mode = Corotational.DEFORMATION_GRADIENT then
      getShapeDerivatives a b c d
    else if mode = Corotational.LARGE then
      getShapeDerivatives 0 (R0.mulVec (b - a)) (R0.mulVec (c - a)) (R0.mulVec (d - a))
    else
      getShapeDerivatives (R0.mulVec a) (R0.mulVec b) (R0.mulVec c) (R0.mulVec d)
  let B := getStrainDisplacement shape_derivatives
  let C := materialMatrix s.d_youngModulus s.d_poissonRatio
  let volume := |dot (cross (b - a) (c - a)) (d - a)| / 6
  { s with
    d_element_stiffness_matrices :=
      s.d_element_stiffness_matrices.set tId (volume • B.transpose * C * B)
    d_element_shape_derivatives := s.d_element_shape_derivatives.set tId shape_derivatives
    m_element_initial_rotations := s.m_element_initial_rotations.set tId R0
    m_element_initial_inverted_transformations :=
      s.m_element_initial_inverted_transformations.set tId A0inv }

/-- The five `resize` calls of lines 125-129. -/
def resizeStore (s : FEMForcefield K) : FEMForcefield K :=
  let n := s.d_tetrahedrons.length
  { s with
    d_element_stiffness_matrices := resize s.d_element_stiffness_matrices n 0
    d_element_shape_derivatives := resize s.d_element_shape_derivatives n (fun _ => 0)
    m_element_rotations := resize s.m_element_rotations n 1
    m_element_initial_rotations := resize s.m_element_initial_rotations n 1
    m_element_initial_inverted_transformations :=
      resize s.m_element_initial_inverted_transformations n 1 }

/-- `FEMForcefield::computeStiffnessMatrix` (lines 85-180). -/
def computeStiffnessMatrix (h : Helper K) (s : FEMForcefield K) :
    FEMForcefield K × Outcome :=
  if s.d_initial_positions.isEmpty || s.d_tetrahedrons.isEmpty then
    (s, Outcome.skipped)
  else if idOutOfRange s.d_initial_positions s.d_tetrahedrons then
    (s, Outcome.configurationError)
  else
    ((List.range s.d_tetrahedrons.length).foldl (computeStiffnessElement h) (resizeStore s),
      Outcome.computed)

/-- The loop of lines 213-216, 339-342 and 424-427: `GradU`, zero-initialised,
gains `u[j] ^ shape_derivatives[j]` for `j = 0..3`. -/
def gradient (u shape_derivatives : Fin 4 → Vec3 K) : Mat33 K :=
  (List.finRange 4).foldl (fun G j => G + outer (u j) (shape_derivatives j)) 0

/-- `FEMForcefield::computeRotation` (lines 182-240). -/
def computeRotation (h : Helper K) (s : FEMForcefield K)
    (node_position node_rest_position : Fin 4 → Vec3 K) (tId : Nat) : Mat33 K :=
  let x0_a := node_rest_position 0
  let x0_b := node_rest_position 1
  let x0_c := node_rest_position 2
  let x0_d := node_rest_position 3
  let x_a := node_position 0
  let x_b := node_position 1
  let x_c := node_position 2
  let x_d := node_position 3
  if s.d_corotational = Corotational.DEFORMATION_GRADIENT then
    let u : Fin 4 → Vec3 K := ![x_a - x0_a, x_b - x0_b, x_c - x0_c, x_d - x0_d]
    let shape_derivatives := getShapeDerivatives x0_a x0_b x0_c x0_d
    let GradU := gradient u shape_derivatives
    let F := GradU + 1
    h.extractRotationPolar F
  else
    let A := matFromRows (x_b - x_a) (x_c - x_a) (x_d - x_a)
    if s.d_corotational = Corotational.SVD then
      h.extractRotationSVD A (s.m_element_initial_inverted_transformations.getD tId 0)
        (s.m_element_initial_rotations.getD tId 0)
    else if s.d_corotational = Corotational.LARGE then extractRotationLarge h A
    else h.extractRotationPolar A

/-- The stress tensor of lines 344-346 (and 429-431): with `E2 = GradU + GradUt`,
`S = mu*E2 + 0.5*(lambda*trace(E2)*I)`. -/
def stressTensor (youngModulus poissonRatio : K) (GradU : Mat33 K) : Mat33 K :=
  let lambda := youngModulus * poissonRatio / ((1 + poissonRatio) * (1 - 2 * poissonRatio))
  let mu := youngModulus / (2 * (1 + poissonRatio))
  let E2 := GradU + GradU.transpose
  mu • E2 + (1 / 2 : K) • ((lambda * trace E2) • (1 : Mat33 K))

/-- The stress of lines 339-346 (and 424-431), from the nodal vectors `u` and
the shape derivatives. -/
def stress (youngModulus poissonRatio : K) (u shape_derivatives : Fin 4 → Vec3 K) :
    Mat33 K :=
  stressTensor youngModulus poissonRatio (gradient u shape_derivatives)

/-- The vector that the loops of lines 349-358 and 434-443 subtract at local node `j`. -/
def nodalForce (mode : Corotational) (volume : K) (R Rt S : Mat33 K) (g : Vec3 K) : Vec3 K :=
  if mode = Corotational.NONE then (volume • S).mulVec g
  else if mode = Corotational.DEFORMATION_GRADIENT then (volume • R * S).mulVec g
  else (volume • Rt * S).mulVec g

/-- The scatter loops of lines 349-358 and 434-443: `f[tetrahedron[j]] -= w j` for `j = 0..3`. -/
def scatter (f : List (Vec3 K)) (tetrahedron : Tetrahedron) (w : Fin 4 → Vec3 K) :
    List (Vec3 K) :=
  (List.finRange 4).foldl (fun f j => vsubAt f (tetrahedron j) (w j)) f

/-- Lines 263-335 of `addForce` for element `tId`: the rotation held by
`m_element_rotations[tId]` when the displacements have been computed, and the
four nodal displacements `u`. -/
def elementDisplacement (h : Helper K) (s : FEMForcefield K) (x : List (Vec3 K)) (tId : Nat) :
    Mat33 K × (Fin 4 → Vec3 K) :=
  let X := s.d_initial_positions
  let tetrahedron := s.d_tetrahedrons.getD tId (fun _ => 0)
  let mode := s.d_corotational
  let R := s.m_element_rotations.getD tId 0
  let Rt := R.transpose
  let x0_a := vget X (tetrahedron 0)
  let x0_b := vget X (tetrahedron 1)
  let x0_c := vget X (tetrahedron 2)
  let x0_d := vget X (tetrahedron 3)
  let x_a := vget x (tetrahedron 0)
  let x_b := vget x (tetrahedron 1)
  let x_c := vget x (tetrahedron 2)
  let x_d := vget x (tetrahedron 3)
  if mode = Corotational.NONE then
    (R, ![x_a - x0_a, x_b - x0_b, x_c - x0_c, x_d - x0_d])
  else
    let Rnew :=
      if s.d_incremental_rotation then
        let Rtemp :=
          if mode = Corotational.DEFORMATION_GRADIENT then
            computeRotation h s
              ![Rt.mulVec x_a, Rt.mulVec x_b, Rt.mulVec x_c, Rt.mulVec x_d]
              ![x0_a, x0_b, x0_c, x0_d] tId
          else
            computeRotation h s
              ![R.mulVec x_a, R.mulVec x_b, R.mulVec x_c, R.mulVec x_d]
              ![x0_a, x0_b, x0_c, x0_d] tId
        Rtemp * R
      else
        computeRotation h s ![x_a, x_b, x_c, x_d] ![x0_a, x0_b, x0_c, x0_d] tId
    if mode = Corotational.DEFORMATION_GRADIENT then
      (Rnew, ![Rt.mulVec x_a - x0_a, Rt.mulVec x_b - x0_b, Rt.mulVec x_c - x0_c,
               Rt.mulVec x_d - x0_d])
    else
      let R0 := s.m_element_initial_rotations.getD tId 0
      if mode = Corotational.LARGE then
        (Rnew,
          ![0,
            Function.update (Function.update
              (Rnew.mulVec (x_b - x_a) - R0.mulVec (x0_b - x0_a)) 1 0) 2 0,
            Function.update (Rnew.mulVec (x_c - x_a) - R0.mulVec (x0_c - x0_a)) 2 0,
            Rnew.mulVec (x_d - x_a) - R0.mulVec (x0_d - x0_a)])
      else
        (Rnew,
          ![Rnew.mulVec x_a - R0.mulVec x0_a, Rnew.mulVec x_b - R0.mulVec x0_b,
            Rnew.mulVec x_c - R0.mulVec x0_c, Rnew.mulVec x_d - R0.mulVec x0_d])

/-- The body of the element loop of `addForce` (lines 261-347) up to the
scatter: the rotation left in `m_element_rotations[tId]` and the four vectors
to subtract. -/
def addForceElement (h : Helper K) (s : FEMForcefield K) (x : List (Vec3 K)) (tId : Nat) :
    Mat33 K × (Fin 4 → Vec3 K) :=
  let X := s.d_initial_positions
  let tetrahedron := s.d_tetrahedrons.getD tId (fun _ => 0)
  let x0_a := vget X (tetrahedron 0)
  let x0_b := vget X (tetrahedron 1)
  let x0_c := vget X (tetrahedron 2)
  let x0_d := vget X (tetrahedron 3)
  let Ru := elementDisplacement h s x tId
  let R := Ru.1
  let Rt := R.transpose
  let u := Ru.2
  let shape_derivatives := s.d_element_shape_derivatives.getD tId (fun _ => 0)
  let S := stress s.d_youngModulus s.d_poissonRatio u shape_derivatives
  let volume := |dot (cross (x0_b - x0_a) (x0_c - x0_a)) (x0_d - x0_a)| / 6
  (R, fun j => nodalForce s.d_corotational volume R Rt S (shape_derivatives j))

/-- The force field with `m_element_rotations` replaced. -/
def withRotations (s : FEMForcefield K) (rots : List (Mat33 K)) : FEMForcefield K :=
  { s with m_element_rotations := rots }

/-- One pass of the element loop of `addForce`: the rotation is written back
(in a corotational mode) and the four nodal vectors are subtracted from `f`. -/
def addForceStep (h : Helper K) (x : List (Vec3 K))
    (st : FEMForcefield K × List (Vec3 K)) (tId : Nat) : FEMForcefield K × List (Vec3 K) :=
  let r := addForceElement h st.1 x tId
  let tetrahedron := st.1.d_tetrahedrons.getD tId (fun _ => 0)
  (if st.1.d_corotational = Corotational.NONE then st.1
   else withRotations st.1 (st.1.m_element_rotations.set tId r.1),
   scatter st.2 tetrahedron r.2)

/-- `FEMForcefield::addForce` (lines 242-361): the force field after the call
and the force array `f`. -/
def addForce (h : Helper K) (s : FEMForcefield K) (f x : List (Vec3 K)) :
    FEMForcefield K × List (Vec3 K) :=
  (List.range s.d_tetrahedrons.length).foldl (addForceStep h x) (s, f)

/-- The body of the element loop of `addDForce` (lines 380-432): the four
vectors to subtract from `df`. -/
def addDForceElement (s : FEMForcefield K) (dx : List (Vec3 K)) (tId : Nat) :
    Fin 4 → Vec3 K :=
  let X := s.d_initial_positions
  let tetrahedron := s.d_tetrahedrons.getD tId (fun _ => 0)
  let mode := s.d_corotational
  let x0_a := vget X (tetrahedron 0)
  let x0_b := vget X (tetrahedron 1)
  let x0_c := vget X (tetrahedron 2)
  let x0_d := vget X (tetrahedron 3)
  let R := s.m_element_rotations.getD tId 0
  let Rt := R.transpose
  let u : Fin 4 → Vec3 K :=
    match mode with
    | Corotational.DEFORMATION_GRADIENT =>
      ![Rt.mulVec (vget dx (tetrahedron 0)), Rt.mulVec (vget dx (tetrahedron 1)),
        Rt.mulVec (vget dx (tetrahedron 2)), Rt.mulVec (vget dx (tetrahedron 3))]
    | Corotational.LARGE | Corotational.SVD | Corotational.POLAR =>
      ![R.mulVec (vget dx (tetrahedron 0)), R.mulVec (vget dx (tetrahedron 1)),
        R.mulVec (vget dx (tetrahedron 2)), R.mulVec (vget dx (tetrahedron 3))]
    | Corotational.NONE =>
      ![vget dx (tetrahedron 0), vget dx (tetrahedron 1),
        vget dx (tetrahedron 2), vget dx (tetrahedron 3)]
  let shape_derivatives := s.d_element_shape_derivatives.getD tId (fun _ => 0)
  let S := stress s.d_youngModulus s.d_poissonRatio u shape_derivatives
  let volume := |dot (cross (x0_b - x0_a) (x0_c - x0_a)) (x0_d - x0_a)| / 6
  fun j => nodalForce mode volume R Rt S (shape_derivatives j)

/-- `FEMForcefield::addDForce` (lines 363-445): the force field after the call
(the function writes to none of its members) and the array `df`. -/
def addDForce (s : FEMForcefield K) (df dx : List (Vec3 K)) :
    FEMForcefield K × List (Vec3 K) :=
  (s, (List.range s.d_tetrahedrons.length).foldl
    (fun df tId =>
      scatter df (s.d_tetrahedrons.getD tId (fun _ => 0)) (addDForceElement s dx tId)) df)

/-- The 3x3 block that `addKToMatrix` adds for the local node pair `(j, k)` of
element `i` (lines 463-476). -/
def tangentBlock (s : FEMForcefield K) (kFact : K) (i : Nat) (j k : Fin 4) : Mat33 K :=
  let stiffness := s.d_element_stiffness_matrices.getD i 0
  let Kjk := getsub stiffness j k
  if s.d_corotational = Corotational.NONE then (-kFact) • Kjk
  else
    let R := s.m_element_rotations.getD i 0
    let Rt := R.transpose
    if s.d_corotational = Corotational.DEFORMATION_GRADIENT then (-kFact) • R * Kjk * Rt
    else (-kFact) • Rt * Kjk * R

/-- The loops of lines 458-484 of `addKToMatrix` for element `i`. -/
def addKElement (s : FEMForcefield K) (kFact : K) (matrix : BaseMatrix K) (i : Nat) :
    BaseMatrix K :=
  let indices := s.d_tetrahedrons.getD i (fun _ => 0)
  (List.finRange 4).foldl (fun matrix j =>
    (List.finRange 4).foldl (fun matrix k =>
      let Kb := tangentBlock s kFact i j k
      (List.finRange 3).foldl (fun matrix l =>
        (List.finRange 3).foldl (fun matrix m =>
          matrix.add (indices j * 3 + l.val) (indices k * 3 + m.val) (Kb l m)) matrix)
        matrix) matrix) matrix

/-- `FEMForcefield::addKToMatrix` (lines 447-486): the force field after the
call (the function writes to none of its members) and the matrix.  The
last argument is the `offset` of the source, which marks it `SOFA_UNUSED` and
does not read it. -/
def addKToMatrix (s : FEMForcefield K) (matrix : BaseMatrix K) (kFact : K) (_offset : Nat) :
    FEMForcefield K × BaseMatrix K :=
  (s, (List.range s.d_tetrahedrons.length).foldl (addKElement s kFact) matrix)

/-! ## The store after precomputation, element by element -/

/-- The rest position of local node `j` of element `tId`. -/
def restNode (s : FEMForcefield K) (tId : Nat) (j : Fin 4) : Vec3 K :=
  vget s.d_initial_positions (s.d_tetrahedrons.getD tId (fun _ => 0) j)

/-- The edge matrix `A` of lines 149-152 for element `tId`. -/
def restEdges (s : FEMForcefield K) (tId : Nat) : Mat33 K :=
  matFromRows (restNode s tId 1 - restNode s tId 0) (restNode s tId 2 - restNode s tId 0)
    (restNode s tId 3 - restNode s tId 0)

/-- The volume of lines 175, 347 and 432 for element `tId`. -/
def restVolume (s : FEMForcefield K) (tId : Nat) : K :=
  |dot (cross (restNode s tId 1 - restNode s tId 0) (restNode s tId 2 - restNode s tId 0))
    (restNode s tId 3 - restNode s tId 0)| / 6

/-- The value `computeStiffnessMatrix` leaves in `m_element_initial_rotations[tId]`,
given the value `old` found there. -/
def storedInitialRotation (h : Helper K) (s : FEMForcefield K) (tId : Nat) (old : Mat33 K) :
    Mat33 K :=
  if s.d_corotational = Corotational.NONE ∨
      s.d_corotational = Corotational.DEFORMATION_GRADIENT then old
  else if s.d_corotational = Corotational.LARGE then extractRotationLarge h (restEdges s tId)
  else h.extractRotationPolar (restEdges s tId)

/-- The value `computeStiffnessMatrix` leaves in
`m_element_initial_inverted_transformations[tId]`, given the value `old` found there. -/
def storedInverse (s : FEMForcefield K) (tId : Nat) (old : Mat33 K) : Mat33 K :=
  if s.d_corotational = Corotational.SVD then inverted (restEdges s tId) else old

/-- The value `computeStiffnessMatrix` leaves in `d_element_shape_derivatives[tId]`. -/
def storedShape (h : Helper K) (s : FEMForcefield K) (tId : Nat) : Fin 4 → Vec3 K :=
  let a := restNode s tId 0
  let b := restNode s tId 1
  let c := restNode s tId 2
  let d := restNode s tId 3
  let R0 := storedInitialRotation h s tId 0
  if s.d_corotational = Corotational.NONE ∨
      s.d_corotational = Corotational.DEFORMATION_GRADIENT then
    getShapeDerivatives a b c d
  else if s.d_corotational = Corotational.LARGE then
    getShapeDerivatives 0 (R0.mulVec (b - a)) (R0.mulVec (c - a)) (R0.mulVec (d - a))
  else
    getShapeDerivatives (R0.mulVec a) (R0.mulVec b) (R0.mulVec c) (R0.mulVec d)

/-- The value `computeStiffnessMatrix` leaves in `d_element_stiffness_matrices[tId]`:
`volume * Bt * C * B`. -/
def storedStiffness (h : Helper K) (s : FEMForcefield K) (tId : Nat) : Mat1212 K :=
  let B := getStrainDisplacement (storedShape h s tId)
  restVolume s tId • B.transpose * materialMatrix s.d_youngModulus s.d_poissonRatio * B

/-- The force field as constructed: the data set, the five per-element arrays empty. -/
def fresh (youngModulus poissonRatio : K) (initial_positions : List (Vec3 K))
    (tetrahedrons : List Tetrahedron) (corotational : Corotational)
    (incremental_rotation : Bool) : FEMForcefield K :=
  { d_youngModulus := youngModulus
    d_poissonRatio := poissonRatio
    d_initial_positions := initial_positions
    d_tetrahedrons := tetrahedrons
    d_corotational := corotational
    d_incremental_rotation := incremental_rotation
    d_element_stiffness_matrices := []
    d_element_shape_derivatives := []
    m_element_rotations := []
    m_element_initial_rotations := []
    m_element_initial_inverted_transformations := [] }

/-- The product of a global matrix with a nodal array: row `r` of the matrix
against the array, the column of component `m` of node `k` being `3 k + m`. -/
def matVec (M : BaseMatrix K) (d : List (Vec3 K)) (r : Nat) : K :=
  ∑ k in Finset.range d.length, ∑ m : Fin 3, M r (k * 3 + m.val) * vget d k m

/-- The array `x + d`, entry by entry. -/
def vadd (x d : List (Vec3 K)) : List (Vec3 K) := List.zipWith (fun a b => a + b) x d

/-- The array `eps * d`, entry by entry. -/
def vscale (eps : K) (d : List (Vec3 K)) : List (Vec3 K) := d.map (fun a => eps • a)

/-- The topology check passes: rest positions and tetrahedra are present and
every node id is below the number of rest positions. -/
def ValidTopology (s : FEMForcefield K) : Prop :=
  s.d_initial_positions ≠ [] ∧ s.d_tetrahedrons ≠ [] ∧
    ∀ tetrahedron ∈ s.d_tetrahedrons, ∀ j : Fin 4, tetrahedron j < s.d_initial_positions.length

end Defs

/-! ## Example data -/

/-- A square root on the rationals, exact on the squares of rationals. -/
def ratSqrt (q : ℚ) : ℚ := (Nat.sqrt q.num.toNat : ℚ) / (Nat.sqrt q.den : ℚ)

/-- The helper of the examples.  Its polar rotation returns its argument, which
is the polar rotation of a matrix that is already a rotation (the only inputs
it gets in the examples), and its SVD variant agrees with the polar one. -/
def exampleHelper : Helper ℚ :=
  { sqrt := ratSqrt
    extractRotationPolar := fun A => A
    extractRotationSVD := fun A _ _ => A }

/-- The rest positions of the unit tetrahedron. -/
def unitPositions : List (Vec3 ℚ) := [![0, 0, 0], ![1, 0, 0], ![0, 1, 0], ![0, 0, 1]]

/-- The unit tetrahedron on the nodes 0, 1, 2, 3. -/
def unitTetrahedron : Tetrahedron := ![0, 1, 2, 3]

/-- The rotation by a quarter turn about the z-axis. -/
def quarterTurn : Mat33 ℚ := !![0, -1, 0; 1, 0, 0; 0, 0, 1]

/-- The force field of the unit tetrahedron with `E = 1000`, `nu = 0.3`, as constructed. -/
def unitField (mode : Corotational) (incremental : Bool) : FEMForcefield ℚ :=
  fresh 1000 (3 / 10) unitPositions [unitTetrahedron] mode incremental

end Caribou

namespace Caribou

section MoreDefs

variable {K : Type} [LinearOrderedField K]

/-! ## Rest volume with its sign, proper rotations -/

/-- The signed rest volume of element `tId`, `((b-a) x (c-a)) . (d-a) / 6`: the
quantity of which lines 175, 347 and 432 take the absolute value. -/
def signedVolume (s : FEMForcefield K) (tId : Nat) : K :=
  dot (cross (restNode s tId 1 - restNode s tId 0) (restNode s tId 2 - restNode s tId 0))
    (restNode s tId 3 - restNode s tId 0) / 6

/-- A proper rotation: `Rt * R = I` and `det R = +1`. -/
def ProperRotation (R : Mat33 K) : Prop := R.transpose * R = 1 ∧ R.det = 1

/-- The square root of the helper is exact on the two squared lengths that
`extractRotationLarge` normalises for the edges `e0`, `e1`, and neither length
is zero (the two edges are linearly independent). -/
def LargeFrameExact (h : Helper K) (e0 e1 : Vec3 K) : Prop :=
  h.sqrt (dot e0 e0) * h.sqrt (dot e0 e0) = dot e0 e0 ∧ dot e0 e0 ≠ 0 ∧
  h.sqrt (dot (cross (normalized h e0) e1) (cross (normalized h e0) e1)) *
      h.sqrt (dot (cross (normalized h e0) e1) (cross (normalized h e0) e1)) =
    dot (cross (normalized h e0) e1) (cross (normalized h e0) e1) ∧
  dot (cross (normalized h e0) e1) (cross (normalized h e0) e1) ≠ 0

/-- The current position of local node `j` of element `tId`. -/
def currentNode (s : FEMForcefield K) (x : List (Vec3 K)) (tId : Nat) (j : Fin 4) : Vec3 K :=
  vget x (s.d_tetrahedrons.getD tId (fun _ => 0) j)

/-- The matrix that `computeRotation` returns in lines 295-304 of `addForce`
for element `tId`: the `Rtemp` of the incremental branch (extracted from the
positions multiplied by `Rt` in mode DEFORMATION_GRADIENT, by `R` otherwise),
or the rotation of the other branch. -/
def extractedRotation (h : Helper K) (s : FEMForcefield K) (x : List (Vec3 K)) (tId : Nat) :
    Mat33 K :=
  let X := s.d_initial_positions
  let tetrahedron := s.d_tetrahedrons.getD tId (fun _ => 0)
  let mode := s.d_corotational
  let R := s.m_element_rotations.getD tId 0
  let Rt := R.transpose
  let x0_a := vget X (tetrahedron 0)
  let x0_b := vget X (tetrahedron 1)
  let x0_c := vget X (tetrahedron 2)
  let x0_d := vget X (tetrahedron 3)
  let x_a := vget x (tetrahedron 0)
  let x_b := vget x (tetrahedron 1)
  let x_c := vget x (tetrahedron 2)
  let x_d := vget x (tetrahedron 3)
  if s.d_incremental_rotation then
    if mode = Corotational.DEFORMATION_GRADIENT then
      computeRotation h s
        ![Rt.mulVec x_a, Rt.mulVec x_b, Rt.mulVec x_c, Rt.mulVec x_d]
        ![x0_a, x0_b, x0_c, x0_d] tId
    else
      computeRotation h s
        ![R.mulVec x_a, R.mulVec x_b, R.mulVec x_c, R.mulVec x_d]
        ![x0_a, x0_b, x0_c, x0_d] tId
  else
    computeRotation h s ![x_a, x_b, x_c, x_d] ![x0_a, x0_b, x0_c, x0_d] tId

/-! ## Sequences of calls -/

/-- A call of one of the three operations that follow precomputation, with
its arguments. -/
inductive Operation (K : Type) where
  | force (f x : List (Vec3 K))
  | derivative (df dx : List (Vec3 K))
  | matrix (M : BaseMatrix K) (kFact : K) (offset : Nat)

/-- The force field after one call. -/
def applyOperation (h : Helper K) (s : FEMForcefield K) : Operation K → FEMForcefield K
  | Operation.force f x => (addForce h s f x).1
  | Operation.derivative df dx => (addDForce s df dx).1
  | Operation.matrix M kFact offset => (addKToMatrix s M kFact offset).1

/-- The force field after a sequence of calls, first to last. -/
def run (h : Helper K) (s : FEMForcefield K) (ops : List (Operation K)) : FEMForcefield K :=
  ops.foldl (applyOperation h) s

/-- Along a sequence of calls from the force field `s`, every matrix that
`computeRotation` returns inside an `addForce` call (in a corotational mode,
for an element of the mesh) is a proper rotation. -/
def ExtractionsProper (h : Helper K) : FEMForcefield K → List (Operation K) → Prop
  | _, [] => True
  | s, op :: rest =>
    (match op with
      | Operation.force _ x =>
        s.d_corotational ≠ Corotational.NONE →
          ∀ t, t < s.d_tetrahedrons.length → ProperRotation (extractedRotation h s x t)
      | _ => True) ∧
    ExtractionsProper h (applyOperation h s op) rest

/-! ## The material law in the words of the specification -/

/-- The first Lame parameter as the specification gives it:
`lambda = E nu / ((1 + nu)(1 - 2 nu))`. -/
def lameLambda (E nu : K) : K := E * nu / ((1 + nu) * (1 - 2 * nu))

/-- The second Lame parameter as the specification gives it: `mu = E / (2 (1 + nu))`. -/
def lameMu (E nu : K) : K := E / (2 * (1 + nu))

/-- The elasticity tensor as the specification describes it: `lambda + 2 mu` on
the three normal diagonal entries, `lambda` on the normal cross terms, `mu` on
the three shear diagonal entries, zero elsewhere. -/
def buildElasticityTensor (lambda mu : K) : Mat66 K :=
  Matrix.of fun i j =>
    if i.val < 3 ∧ j.val < 3 then (if i = j then lambda + 2 * mu else lambda)
    else if i = j then mu else 0

/-- The stress as the specification gives it, from `E2 = 2 eps`:
`S = mu E2 + 0.5 lambda trace(E2) I`. -/
def stressSpec (E2 : Mat33 K) (lambda mu : K) : Mat33 K :=
  mu • E2 + ((1 / 2 : K) * lambda * trace E2) • (1 : Mat33 K)

/-- The index pairs of the three shear entries, in the order xy, yz, xz of the
strain-displacement matrix. -/
def shearPairs : Fin 3 → Fin 3 × Fin 3 := ![(0, 1), (1, 2), (0, 2)]

/-- The Voigt vector of a strain: the three normal entries, then twice the
three shear entries named by `shear`. -/
def voigtStrain (shear : Fin 3 → Fin 3 × Fin 3) (eps : Mat33 K) : Fin 6 → K :=
  ![eps 0 0, eps 1 1, eps 2 2, 2 * eps (shear 0).1 (shear 0).2,
    2 * eps (shear 1).1 (shear 1).2, 2 * eps (shear 2).1 (shear 2).2]

/-- The six independent components of a stress, in the same order. -/
def voigtStress (shear : Fin 3 → Fin 3 × Fin 3) (S : Mat33 K) : Fin 6 → K :=
  ![S 0 0, S 1 1, S 2 2, S (shear 0).1 (shear 0).2,
    S (shear 1).1 (shear 1).2, S (shear 2).1 (shear 2).2]

/-! ## The tangent matrix assembly in the words of the specification -/

/-- The element loops of the assembly as the specification describes them:
the entry `(l, m)` of the block of the local node pair `(j, k)` is added at row
`offset + 3 node_j + l` and column `offset + 3 node_k + m`. -/
def assembleElementOffset (s : FEMForcefield K) (kFact : K) (offset : Nat)
    (matrix : BaseMatrix K) (i : Nat) : BaseMatrix K :=
  let indices := s.d_tetrahedrons.getD i (fun _ => 0)
  (List.finRange 4).foldl (fun matrix j =>
    (List.finRange 4).foldl (fun matrix k =>
      let Kb := tangentBlock s kFact i j k
      (List.finRange 3).foldl (fun matrix l =>
        (List.finRange 3).foldl (fun matrix m =>
          matrix.add (offset + indices j * 3 + l.val) (offset + indices k * 3 + m.val)
            (Kb l m)) matrix)
        matrix) matrix) matrix

/-- The tangent matrix assembly as the specification describes it, with the
offset of the caller honoured. -/
def assembleTangentMatrix (s : FEMForcefield K) (matrix : BaseMatrix K) (kFact : K)
    (offset : Nat) : FEMForcefield K × BaseMatrix K :=
  (s, (List.range s.d_tetrahedrons.length).foldl (assembleElementOffset s kFact offset) matrix)

/-! ## The material-frame displacement in the words of the specification -/

/-- The displacement of mode DEFORMATION_GRADIENT as the specification gives
it, with the rotation `Rnew` that the call stores: `u_i = Rnewt x_i - X_i`. -/
def materialFrameDisplacement (Rnew : Mat33 K) (s : FEMForcefield K) (x : List (Vec3 K))
    (tId : Nat) : Fin 4 → Vec3 K :=
  fun i => Rnew.transpose.mulVec (currentNode s x tId i) - restNode s tId i

end MoreDefs

/-! ## More example data -/

/-- The unit tetrahedron with two nodes exchanged: its signed rest volume is negative. -/
def invertedTetrahedron : Tetrahedron := ![0, 2, 1, 3]

/-- The force field of the inverted unit tetrahedron with `E = 1000`, `nu = 0.3`,
mode NONE, as constructed. -/
def invertedField : FEMForcefield ℚ :=
  fresh 1000 (3 / 10) unitPositions [invertedTetrahedron] Corotational.NONE false

/-- The unit tetrahedron with node 1 moved by `(0.1, 0, 0)`. -/
def stretchedPositions : List (Vec3 ℚ) := [![0, 0, 0], ![11 / 10, 0, 0], ![0, 1, 0], ![0, 0, 1]]

end Caribou

namespace Caribou

section EnergyDefs

variable {K : Type} [LinearOrderedField K]

/-! ## Totals, work and strain energy -/

/-- The sum of the entries of a nodal array. -/
def arraySum (f : List (Vec3 K)) : Vec3 K := ∑ p in Finset.range f.length, vget f p

/-- The positions `x` all moved by the vector `c`. -/
def translate (x : List (Vec3 K)) (c : Vec3 K) : List (Vec3 K) := x.map fun a => a + c

/-- The sum over the nodes of `d_i . df_i`. -/
def work (d df : List (Vec3 K)) : K :=
  ∑ i in Finset.range d.length, dot (vget d i) (vget df i)

/-- The double contraction `A : B` of two 3x3 matrices. -/
def doubleContraction (A B : Mat33 K) : K := ∑ i : Fin 3, ∑ j : Fin 3, A i j * B i j

/-- The four vectors `u` of lines 397-420 of `addDForce` for element `tId`: the
directions of its nodes multiplied by `Rt` in mode DEFORMATION_GRADIENT, by
`R` in modes LARGE, SVD and POLAR, and as they are in mode NONE. -/
def derotatedDirection (s : FEMForcefield K) (dx : List (Vec3 K)) (tId : Nat) :
    Fin 4 → Vec3 K :=
  fun k =>
    if s.d_corotational = Corotational.NONE then
      vget dx (s.d_tetrahedrons.getD tId (fun _ => 0) k)
    else if s.d_corotational = Corotational.DEFORMATION_GRADIENT then
      (s.m_element_rotations.getD tId 0).transpose.mulVec
        (vget dx (s.d_tetrahedrons.getD tId (fun _ => 0) k))
    else
      (s.m_element_rotations.getD tId 0).mulVec
        (vget dx (s.d_tetrahedrons.getD tId (fun _ => 0) k))

/-- The symmetric gradient `eps` of the nodal vectors `u`: half of
`GradU + GradUt` with `GradU` the sum of `u_j ⊗ g_j`. -/
def symmetricGradient (u g : Fin 4 → Vec3 K) : Mat33 K :=
  (1 / 2 : K) • (gradient u g + (gradient u g).transpose)

/-- The quadratic form `2 mu eps:eps + lambda trace(eps)^2`. -/
def strainEnergy (lambda mu : K) (eps : Mat33 K) : K :=
  2 * mu * doubleContraction eps eps + lambda * (trace eps * trace eps)

end EnergyDefs

end Caribou


namespace Caribou

section Lists

variable {K : Type} [LinearOrderedField K]

/-! ## Arrays -/

theorem foldl_finRange_four {β : Type} (f : β → Fin 4 → β) (a : β) :
    (List.finRange 4).foldl f a = f (f (f (f a 0) 1) 2) 3 := rfl

theorem foldl_finRange_three {β : Type} (f : β → Fin 3 → β) (a : β) :
    (List.finRange 3).foldl f a = f (f (f a 0) 1) 2 := rfl

theorem length_vsubAt (v : List (Vec3 K)) (i : Nat) (w : Vec3 K) :
    (vsubAt v i w).length = v.length := by
  simp [vsubAt]

theorem vget_vsubAt (v : List (Vec3 K)) (i j : Nat) (w : Vec3 K) :
    vget (vsubAt v i w) j = if i = j ∧ j < v.length then vget v j - w else vget v j := by
  unfold vsubAt vget
  by_cases hij : i = j
  · subst hij
    by_cases hl : i < v.length
    · simp [List.getD_eq_getElem?_getD, List.getElem?_set, hl]
    · simp [List.getD_eq_getElem?_getD, List.getElem?_set, hl,
        List.getElem?_eq_none (not_lt.mp hl)]
  · simp [List.getD_eq_getElem?_getD, List.getElem?_set, hij]

theorem vget_vsubAt_sub (v : List (Vec3 K)) (i j : Nat) (w : Vec3 K) :
    vget (vsubAt v i w) j = vget v j - (if i = j ∧ j < v.length then w else 0) := by
  rw [vget_vsubAt]
  split_ifs <;> simp

theorem vget_of_length_le (v : List (Vec3 K)) (i : Nat) (hi : v.length ≤ i) : vget v i = 0 := by
  unfold vget
  simp [List.getD_eq_getElem?_getD, List.getElem?_eq_none hi]

theorem vsubAt_zero (v : List (Vec3 K)) (i : Nat) : vsubAt v i 0 = v := by
  apply List.ext_getElem?
  intro j
  unfold vsubAt vget
  rw [List.getElem?_set]
  by_cases hij : i = j
  · subst hij
    by_cases hl : i < v.length
    · simp [hl, List.getD_eq_getElem?_getD, List.getElem?_eq_getElem hl]
    · simp [hl, List.getElem?_eq_none (not_lt.mp hl)]
  · simp [hij]

theorem scatter_zero (f : List (Vec3 K)) (tetrahedron : Tetrahedron) :
    scatter f tetrahedron (fun _ => 0) = f := by
  simp [scatter, foldl_finRange_four, vsubAt_zero]

theorem length_scatter (f : List (Vec3 K)) (tetrahedron : Tetrahedron) (w : Fin 4 → Vec3 K) :
    (scatter f tetrahedron w).length = f.length := by
  simp [scatter, foldl_finRange_four, length_vsubAt]

/-- The scatter loop in closed form: node `p` loses the vectors of the local
nodes that are `p`. -/
theorem vget_scatter (f : List (Vec3 K)) (tetrahedron : Tetrahedron) (w : Fin 4 → Vec3 K)
    (p : Nat) :
    vget (scatter f tetrahedron w) p =
      vget f p - ∑ j : Fin 4, if tetrahedron j = p ∧ p < f.length then w j else 0 := by
  simp only [scatter, foldl_finRange_four, vget_vsubAt_sub, length_vsubAt, Fin.sum_univ_four]
  abel

theorem getD_resize_nil {α : Type} (n t : Nat) (value d : α) (ht : t < n) :
    (resize ([] : List α) n value).getD t d = value := by
  simp [resize, List.getD_eq_getElem?_getD, List.getElem?_replicate, ht]

theorem length_resize {α : Type} (l : List α) (n : Nat) (value : α) :
    (resize l n value).length = n := by
  simp [resize]
  omega

end Lists

end Caribou


namespace Caribou

section Precompute

variable {K : Type} [LinearOrderedField K]

/-! ## Precomputation in closed form -/

theorem getD_set_self {α : Type} (l : List α) (i : Nat) (a d : α) (hi : i < l.length) :
    (l.set i a).getD i d = a := by
  simp [List.getD_eq_getElem?_getD, List.getElem?_set, hi]

theorem getD_set_ne {α : Type} (l : List α) (i j : Nat) (a d : α) (hij : i ≠ j) :
    (l.set i a).getD j d = l.getD j d := by
  simp [List.getD_eq_getElem?_getD, List.getElem?_set, hij]

/-- A loop that writes `g i (l[i])` at each index of a duplicate-free list. -/
theorem foldl_set_getD {α : Type} (g : Nat → α → α) (d : α) (L : List Nat) (hL : L.Nodup)
    (l0 : List α) (t : Nat) :
    (L.foldl (fun l i => l.set i (g i (l.getD i d))) l0).getD t d =
      if t ∈ L ∧ t < l0.length then g t (l0.getD t d) else l0.getD t d := by
  induction L generalizing l0 with
  | nil => simp
  | cons i L ih =>
    rw [List.nodup_cons] at hL
    rw [List.foldl_cons, ih hL.2, List.length_set]
    by_cases hti : t = i
    · subst hti
      by_cases hl : t < l0.length
      · rw [if_neg (fun hh => hL.1 hh.1), getD_set_self _ _ _ _ hl, if_pos ⟨List.mem_cons_self _ _, hl⟩]
      · have hset : l0.set t (g t (l0.getD t d)) = l0 := by
          apply List.ext_getElem?
          intro j
          rw [List.getElem?_set]
          by_cases hj : t = j
          · subst hj
            simp [hl, List.getElem?_eq_none (not_lt.mp hl)]
          · simp [hj]
        rw [hset, if_neg (fun hh => hl hh.2), if_neg (fun hh => hl hh.2)]
    · have hne : i ≠ t := fun e => hti e.symm
      rw [getD_set_ne _ _ _ _ _ hne]
      by_cases hm : t ∈ L ∧ t < l0.length
      · rw [if_pos hm, if_pos ⟨List.mem_cons_of_mem _ hm.1, hm.2⟩]
      · rw [if_neg hm, if_neg]
        rintro ⟨hmem, hlt⟩
        rcases List.mem_cons.mp hmem with e | e
        · exact hti e
        · exact hm ⟨e, hlt⟩

theorem foldl_set_length {α : Type} (g : Nat → List α → α) (L : List Nat) (l0 : List α) :
    (L.foldl (fun l i => l.set i (g i l)) l0).length = l0.length := by
  induction L generalizing l0 with
  | nil => simp
  | cons i L ih => rw [List.foldl_cons, ih]; simp

theorem computeStiffnessElement_eq (h : Helper K) (s : FEMForcefield K) (tId : Nat) :
    computeStiffnessElement h s tId =
      { s with
        d_element_stiffness_matrices :=
          s.d_element_stiffness_matrices.set tId (storedStiffness h s tId)
        d_element_shape_derivatives :=
          s.d_element_shape_derivatives.set tId (storedShape h s tId)
        m_element_initial_rotations :=
          s.m_element_initial_rotations.set tId
            (storedInitialRotation h s tId (s.m_element_initial_rotations.getD tId 0))
        m_element_initial_inverted_transformations :=
          s.m_element_initial_inverted_transformations.set tId
            (storedInverse s tId (s.m_element_initial_inverted_transformations.getD tId 0)) } := by
  unfold computeStiffnessElement storedStiffness storedShape storedInitialRotation storedInverse
    restVolume restEdges restNode
  by_cases h1 : s.d_corotational = Corotational.NONE ∨
      s.d_corotational = Corotational.DEFORMATION_GRADIENT
  · simp only [h1, if_true]
  · simp only [h1, if_false]

/-- The element loop of `computeStiffnessMatrix` writes each array on its own. -/
theorem foldl_computeStiffnessElement (h : Helper K) (L : List Nat) (s : FEMForcefield K) :
    L.foldl (computeStiffnessElement h) s =
      { s with
        d_element_stiffness_matrices :=
          L.foldl (fun l i => l.set i ((fun i _ => storedStiffness h s i) i (l.getD i 0)))
            s.d_element_stiffness_matrices
        d_element_shape_derivatives :=
          L.foldl (fun l i => l.set i ((fun i _ => storedShape h s i) i (l.getD i (fun _ => 0))))
            s.d_element_shape_derivatives
        m_element_initial_rotations :=
          L.foldl (fun l i => l.set i (storedInitialRotation h s i (l.getD i 0)))
            s.m_element_initial_rotations
        m_element_initial_inverted_transformations :=
          L.foldl (fun l i => l.set i (storedInverse s i (l.getD i 0)))
            s.m_element_initial_inverted_transformations } := by
  induction L generalizing s with
  | nil => rfl
  | cons i L ih =>
    rw [List.foldl_cons, ih, computeStiffnessElement_eq]
    rfl

omit [LinearOrderedField K] in
theorem idOutOfRange_eq_false_iff (X : List (Vec3 K)) (tetrahedrons : List Tetrahedron)
    (hX : X ≠ []) :
    idOutOfRange X tetrahedrons = false ↔
      ∀ tetrahedron ∈ tetrahedrons, ∀ j : Fin 4, tetrahedron j < X.length := by
  have hpos : 0 < X.length := List.length_pos.mpr hX
  unfold idOutOfRange
  rw [Bool.eq_false_iff]
  simp only [ne_eq, List.any_eq_true, List.mem_finRange, true_and, decide_eq_true_eq, not_exists,
    not_and, not_lt]
  constructor
  · intro hh t ht j
    have := hh t ht j
    omega
  · intro hh t ht j
    have := hh t ht j
    omega

theorem computeStiffnessMatrix_of_valid (h : Helper K) (s : FEMForcefield K)
    (hv : ValidTopology s) :
    computeStiffnessMatrix h s =
      ((List.range s.d_tetrahedrons.length).foldl (computeStiffnessElement h) (resizeStore s),
        Outcome.computed) := by
  obtain ⟨hX, hT, hid⟩ := hv
  have h1 : s.d_initial_positions.isEmpty = false := by
    cases hx : s.d_initial_positions with
    | nil => exact absurd hx hX
    | cons a l => rfl
  have h2 : s.d_tetrahedrons.isEmpty = false := by
    cases ht : s.d_tetrahedrons with
    | nil => exact absurd ht hT
    | cons a l => rfl
  have h3 : idOutOfRange s.d_initial_positions s.d_tetrahedrons = false :=
    (idOutOfRange_eq_false_iff _ _ hX).mpr hid
  unfold computeStiffnessMatrix
  simp [h1, h2, h3]

/-- What `computeStiffnessMatrix` leaves in the force field when the topology is valid. -/
theorem precomputed_store (h : Helper K) (s : FEMForcefield K) (hv : ValidTopology s) :
    (computeStiffnessMatrix h s).1 =
      { s with
        d_element_stiffness_matrices :=
          (List.range s.d_tetrahedrons.length).foldl
            (fun l i => l.set i ((fun i _ => storedStiffness h s i) i (l.getD i 0)))
            (resize s.d_element_stiffness_matrices s.d_tetrahedrons.length 0)
        d_element_shape_derivatives :=
          (List.range s.d_tetrahedrons.length).foldl
            (fun l i => l.set i ((fun i _ => storedShape h s i) i (l.getD i (fun _ => 0))))
            (resize s.d_element_shape_derivatives s.d_tetrahedrons.length (fun _ => 0))
        m_element_rotations := resize s.m_element_rotations s.d_tetrahedrons.length 1
        m_element_initial_rotations :=
          (List.range s.d_tetrahedrons.length).foldl
            (fun l i => l.set i (storedInitialRotation h s i (l.getD i 0)))
            (resize s.m_element_initial_rotations s.d_tetrahedrons.length 1)
        m_element_initial_inverted_transformations :=
          (List.range s.d_tetrahedrons.length).foldl
            (fun l i => l.set i (storedInverse s i (l.getD i 0)))
            (resize s.m_element_initial_inverted_transformations s.d_tetrahedrons.length 1) } := by
  rw [computeStiffnessMatrix_of_valid h s hv]
  show (List.range (resizeStore s).d_tetrahedrons.length).foldl (computeStiffnessElement h)
    (resizeStore s) = _
  rw [foldl_computeStiffnessElement]
  rfl

theorem precomputed_stiffness (h : Helper K) (s : FEMForcefield K) (hv : ValidTopology s)
    (t : Nat) (ht : t < s.d_tetrahedrons.length) :
    (computeStiffnessMatrix h s).1.d_element_stiffness_matrices.getD t 0 =
      storedStiffness h s t := by
  rw [precomputed_store h s hv]
  show List.getD (List.foldl _ _ (List.range s.d_tetrahedrons.length)) t 0 = _
  rw [foldl_set_getD (fun i _ => storedStiffness h s i) 0 _ (List.nodup_range _), length_resize,
    if_pos ⟨List.mem_range.mpr ht, ht⟩]

theorem precomputed_shape (h : Helper K) (s : FEMForcefield K) (hv : ValidTopology s)
    (t : Nat) (ht : t < s.d_tetrahedrons.length) :
    (computeStiffnessMatrix h s).1.d_element_shape_derivatives.getD t (fun _ => 0) =
      storedShape h s t := by
  rw [precomputed_store h s hv]
  show List.getD (List.foldl _ _ (List.range s.d_tetrahedrons.length)) t (fun _ => 0) = _
  rw [foldl_set_getD (fun i _ => storedShape h s i) (fun _ => 0) _ (List.nodup_range _), length_resize,
    if_pos ⟨List.mem_range.mpr ht, ht⟩]

theorem precomputed_initial_rotation (h : Helper K) (s : FEMForcefield K)
    (hv : ValidTopology s) (t : Nat) (ht : t < s.d_tetrahedrons.length) :
    (computeStiffnessMatrix h s).1.m_element_initial_rotations.getD t 0 =
      storedInitialRotation h s t
        ((resize s.m_element_initial_rotations s.d_tetrahedrons.length 1).getD t 0) := by
  rw [precomputed_store h s hv]
  show List.getD (List.foldl _ _ (List.range s.d_tetrahedrons.length)) t 0 = _
  rw [foldl_set_getD (storedInitialRotation h s) 0 _ (List.nodup_range _), length_resize,
    if_pos ⟨List.mem_range.mpr ht, ht⟩]

theorem precomputed_inverse (h : Helper K) (s : FEMForcefield K)
    (hv : ValidTopology s) (t : Nat) (ht : t < s.d_tetrahedrons.length) :
    (computeStiffnessMatrix h s).1.m_element_initial_inverted_transformations.getD t 0 =
      storedInverse s t
        ((resize s.m_element_initial_inverted_transformations
          s.d_tetrahedrons.length 1).getD t 0) := by
  rw [precomputed_store h s hv]
  show List.getD (List.foldl _ _ (List.range s.d_tetrahedrons.length)) t 0 = _
  rw [foldl_set_getD (storedInverse s) 0 _ (List.nodup_range _), length_resize,
    if_pos ⟨List.mem_range.mpr ht, ht⟩]

theorem precomputed_rotations (h : Helper K) (s : FEMForcefield K) (hv : ValidTopology s) :
    (computeStiffnessMatrix h s).1.m_element_rotations =
      resize s.m_element_rotations s.d_tetrahedrons.length 1 := by
  rw [precomputed_store h s hv]

/-- `computeStiffnessMatrix` writes to none of the six data members. -/
theorem computeStiffnessMatrix_config (h : Helper K) (s : FEMForcefield K) :
    (computeStiffnessMatrix h s).1.d_youngModulus = s.d_youngModulus ∧
    (computeStiffnessMatrix h s).1.d_poissonRatio = s.d_poissonRatio ∧
    (computeStiffnessMatrix h s).1.d_initial_positions = s.d_initial_positions ∧
    (computeStiffnessMatrix h s).1.d_tetrahedrons = s.d_tetrahedrons ∧
    (computeStiffnessMatrix h s).1.d_corotational = s.d_corotational ∧
    (computeStiffnessMatrix h s).1.d_incremental_rotation = s.d_incremental_rotation := by
  unfold computeStiffnessMatrix
  split_ifs
  · exact ⟨rfl, rfl, rfl, rfl, rfl, rfl⟩
  · exact ⟨rfl, rfl, rfl, rfl, rfl, rfl⟩
  · simp only [foldl_computeStiffnessElement]
    exact ⟨rfl, rfl, rfl, rfl, rfl, rfl⟩

theorem restNode_congr (s1 s2 : FEMForcefield K) (t : Nat)
    (hX : s1.d_initial_positions = s2.d_initial_positions)
    (hT : s1.d_tetrahedrons = s2.d_tetrahedrons) : restNode s1 t = restNode s2 t := by
  unfold restNode
  rw [hX, hT]

theorem restEdges_congr (s1 s2 : FEMForcefield K) (t : Nat)
    (hX : s1.d_initial_positions = s2.d_initial_positions)
    (hT : s1.d_tetrahedrons = s2.d_tetrahedrons) : restEdges s1 t = restEdges s2 t := by
  unfold restEdges
  rw [restNode_congr s1 s2 t hX hT]

theorem restVolume_congr (s1 s2 : FEMForcefield K) (t : Nat)
    (hX : s1.d_initial_positions = s2.d_initial_positions)
    (hT : s1.d_tetrahedrons = s2.d_tetrahedrons) : restVolume s1 t = restVolume s2 t := by
  unfold restVolume
  rw [restNode_congr s1 s2 t hX hT]

end Precompute

end Caribou


namespace Caribou

section Force

variable {K : Type} [LinearOrderedField K]

/-! ## The element loop of `addForce` -/

theorem gradient_eq_sum (u g : Fin 4 → Vec3 K) :
    gradient u g = ∑ j : Fin 4, outer (u j) (g j) := by
  unfold gradient
  rw [foldl_finRange_four, Fin.sum_univ_four, zero_add]

theorem outer_zero_left (g : Vec3 K) : outer (0 : Vec3 K) g = 0 := by
  ext i j
  simp [outer]

theorem trace_zero : trace (0 : Mat33 K) = 0 := by
  simp [trace]

theorem stress_zero_u (youngModulus poissonRatio : K) (u shape_derivatives : Fin 4 → Vec3 K)
    (hu : ∀ j, u j = 0) : stress youngModulus poissonRatio u shape_derivatives = 0 := by
  unfold stress stressTensor
  simp only [gradient_eq_sum]
  simp only [hu, outer_zero_left, Finset.sum_const_zero, Matrix.transpose_zero,
    add_zero, trace_zero, mul_zero, zero_smul, smul_zero]

theorem nodalForce_zero (mode : Corotational) (volume : K) (R Rt : Mat33 K) (g : Vec3 K) :
    nodalForce mode volume R Rt 0 g = 0 := by
  unfold nodalForce
  split_ifs <;> simp

theorem addForceElement_snd (h : Helper K) (s : FEMForcefield K) (x : List (Vec3 K))
    (t : Nat) :
    (addForceElement h s x t).2 = fun j =>
      nodalForce s.d_corotational (restVolume s t) (elementDisplacement h s x t).1
        (elementDisplacement h s x t).1.transpose
        (stress s.d_youngModulus s.d_poissonRatio (elementDisplacement h s x t).2
          (s.d_element_shape_derivatives.getD t (fun _ => 0)))
        (s.d_element_shape_derivatives.getD t (fun _ => 0) j) := rfl

theorem addForceElement_fst (h : Helper K) (s : FEMForcefield K) (x : List (Vec3 K))
    (t : Nat) : (addForceElement h s x t).1 = (elementDisplacement h s x t).1 := rfl

theorem addForceElement_snd_zero (h : Helper K) (s : FEMForcefield K) (x : List (Vec3 K))
    (t : Nat) (hu : ∀ j, (elementDisplacement h s x t).2 j = 0) :
    (addForceElement h s x t).2 = fun _ => 0 := by
  rw [addForceElement_snd, stress_zero_u _ _ _ _ hu]
  funext j
  exact nodalForce_zero _ _ _ _ _

/-- If every element of the list, whatever the rotations of the other elements
have become, computes four zero vectors, the loop leaves the force array as it was. -/
theorem addForce_fold_unchanged (h : Helper K) (x : List (Vec3 K)) (L : List Nat)
    (hL : L.Nodup) (st : FEMForcefield K × List (Vec3 K))
    (hzero : ∀ t ∈ L, ∀ rots : List (Mat33 K),
      rots.getD t 0 = st.1.m_element_rotations.getD t 0 →
      (addForceElement h (withRotations st.1 rots) x t).2 = fun _ => 0) :
    (L.foldl (addForceStep h x) st).2 = st.2 := by
  induction L generalizing st with
  | nil => rfl
  | cons i L ih =>
    rw [List.nodup_cons] at hL
    rw [List.foldl_cons]
    have hi : (addForceElement h st.1 x i).2 = fun _ => 0 :=
      hzero i (List.mem_cons_self _ _) st.1.m_element_rotations rfl
    have hf : (addForceStep h x st i).2 = st.2 := by
      show scatter st.2 _ (addForceElement h st.1 x i).2 = st.2
      rw [hi, scatter_zero]
    rw [ih hL.2, hf]
    intro t ht rots hr
    have hti : i ≠ t := fun e => hL.1 (e ▸ ht)
    have hrot : (addForceStep h x st i).1.m_element_rotations.getD t 0 =
        st.1.m_element_rotations.getD t 0 := by
      unfold addForceStep
      by_cases hm : st.1.d_corotational = Corotational.NONE
      · simp only [hm, if_true]
      · simp only [hm, if_false]
        exact getD_set_ne _ _ _ _ _ hti
    have hcfg : withRotations (addForceStep h x st i).1 rots = withRotations st.1 rots := by
      unfold addForceStep
      by_cases hm : st.1.d_corotational = Corotational.NONE
      · simp only [hm, if_true]
      · simp only [hm, if_false]
        rfl
    rw [hcfg]
    exact hzero t (List.mem_cons_of_mem _ ht) rots (hr.trans hrot)

end Force

end Caribou


namespace Caribou

section ClosedForms

variable {K : Type} [LinearOrderedField K]

/-! ## The three loops in closed form -/

/-- A loop of scatters over the elements `0 .. n-1`, none depending on the array. -/
theorem foldl_scatter_range (tets : Nat → Tetrahedron) (w : Nat → Fin 4 → Vec3 K)
    (f0 : List (Vec3 K)) (n : Nat) :
    ((List.range n).foldl (fun f t => scatter f (tets t) (w t)) f0).length = f0.length ∧
    ∀ p, vget ((List.range n).foldl (fun f t => scatter f (tets t) (w t)) f0) p =
      vget f0 p - ∑ t in Finset.range n, ∑ j : Fin 4,
        if tets t j = p ∧ p < f0.length then w t j else 0 := by
  induction n with
  | zero => simp
  | succ n ih =>
    rw [List.range_succ, List.foldl_append]
    simp only [List.foldl_cons, List.foldl_nil]
    refine ⟨by rw [length_scatter, ih.1], fun p => ?_⟩
    rw [vget_scatter, ih.2, ih.1, Finset.sum_range_succ]
    abel

theorem addForceElement_congr (h : Helper K) (s : FEMForcefield K) (rots : List (Mat33 K))
    (x : List (Vec3 K)) (t : Nat) (hr : rots.getD t 0 = s.m_element_rotations.getD t 0) :
    addForceElement h (withRotations s rots) x t = addForceElement h s x t := by
  unfold addForceElement elementDisplacement computeRotation withRotations
  simp only [hr]

theorem addForceStep_fst (h : Helper K) (x : List (Vec3 K))
    (st : FEMForcefield K × List (Vec3 K)) (t : Nat) :
    (addForceStep h x st t).1 =
      withRotations st.1
        (if st.1.d_corotational = Corotational.NONE then st.1.m_element_rotations
         else st.1.m_element_rotations.set t (addForceElement h st.1 x t).1) := by
  show (if st.1.d_corotational = Corotational.NONE then st.1
    else withRotations st.1 (st.1.m_element_rotations.set t (addForceElement h st.1 x t).1)) = _
  by_cases hm : st.1.d_corotational = Corotational.NONE
  · rw [if_pos hm, if_pos hm]
    rfl
  · rw [if_neg hm, if_neg hm]

omit [LinearOrderedField K] in
theorem withRotations_withRotations (s : FEMForcefield K) (r1 r2 : List (Mat33 K)) :
    withRotations (withRotations s r1) r2 = withRotations s r2 := rfl

omit [LinearOrderedField K] in
theorem withRotations_self (s : FEMForcefield K) :
    withRotations s s.m_element_rotations = s := rfl

/-- The element loop of `addForce` subtracts, for each element, the vectors
computed from the rotation that the element had before the call. -/
theorem addForce_fold_eq (h : Helper K) (x : List (Vec3 K)) (s : FEMForcefield K)
    (L : List Nat) (hL : L.Nodup) (rots : List (Mat33 K)) (f : List (Vec3 K))
    (hr : ∀ t ∈ L, rots.getD t 0 = s.m_element_rotations.getD t 0) :
    (L.foldl (addForceStep h x) (withRotations s rots, f)).2 =
      L.foldl (fun f t =>
        scatter f (s.d_tetrahedrons.getD t (fun _ => 0)) (addForceElement h s x t).2) f := by
  induction L generalizing rots f with
  | nil => rfl
  | cons i L ih =>
    rw [List.nodup_cons] at hL
    rw [List.foldl_cons, List.foldl_cons]
    have hi : addForceElement h (withRotations s rots) x i = addForceElement h s x i :=
      addForceElement_congr h s rots x i (hr i (List.mem_cons_self _ _))
    have hstep : addForceStep h x (withRotations s rots, f) i =
        (withRotations s
          (if s.d_corotational = Corotational.NONE then rots
           else rots.set i (addForceElement h s x i).1),
          scatter f (s.d_tetrahedrons.getD i (fun _ => 0)) (addForceElement h s x i).2) := by
      apply Prod.ext
      · rw [addForceStep_fst]
        show withRotations (withRotations s rots) _ = _
        rw [withRotations_withRotations, hi]
        rfl
      · show scatter f _ (addForceElement h (withRotations s rots) x i).2 = _
        rw [hi]
        rfl
    rw [hstep]
    apply ih hL.2
    intro t ht
    have hti : i ≠ t := fun e => hL.1 (e ▸ ht)
    by_cases hm : s.d_corotational = Corotational.NONE
    · simp only [hm, if_true]
      exact hr t (List.mem_cons_of_mem _ ht)
    · simp only [hm, if_false]
      rw [getD_set_ne _ _ _ _ _ hti]
      exact hr t (List.mem_cons_of_mem _ ht)

/-- `addForce` in closed form: the length of the force array is kept, and node
`p` loses the vectors of every local node of every element that is `p`. -/
theorem addForce_closed (h : Helper K) (s : FEMForcefield K) (f x : List (Vec3 K)) :
    (addForce h s f x).2.length = f.length ∧
    ∀ p, vget (addForce h s f x).2 p =
      vget f p - ∑ t in Finset.range s.d_tetrahedrons.length, ∑ j : Fin 4,
        if s.d_tetrahedrons.getD t (fun _ => 0) j = p ∧ p < f.length then
          (addForceElement h s x t).2 j else 0 := by
  have e : (addForce h s f x).2 = (List.range s.d_tetrahedrons.length).foldl (fun f t =>
      scatter f (s.d_tetrahedrons.getD t (fun _ => 0)) (addForceElement h s x t).2) f := by
    unfold addForce
    exact addForce_fold_eq h x s _ (List.nodup_range _) s.m_element_rotations f (fun _ _ => rfl)
  rw [e]
  exact foldl_scatter_range (fun t => s.d_tetrahedrons.getD t (fun _ => 0))
    (fun t => (addForceElement h s x t).2) f _

/-- `addDForce` in closed form. -/
theorem addDForce_closed (s : FEMForcefield K) (df dx : List (Vec3 K)) :
    (addDForce s df dx).2.length = df.length ∧
    ∀ p, vget (addDForce s df dx).2 p =
      vget df p - ∑ t in Finset.range s.d_tetrahedrons.length, ∑ j : Fin 4,
        if s.d_tetrahedrons.getD t (fun _ => 0) j = p ∧ p < df.length then
          addDForceElement s dx t j else 0 :=
  foldl_scatter_range (fun t => s.d_tetrahedrons.getD t (fun _ => 0))
    (fun t => addDForceElement s dx t) df _

/-- The force field that `addForce` leaves does not depend on the force array. -/
theorem addForce_fold_fst (h : Helper K) (x : List (Vec3 K)) (L : List Nat)
    (s : FEMForcefield K) (f g : List (Vec3 K)) :
    (L.foldl (addForceStep h x) (s, f)).1 = (L.foldl (addForceStep h x) (s, g)).1 := by
  induction L generalizing s f g with
  | nil => rfl
  | cons i L ih =>
    rw [List.foldl_cons, List.foldl_cons]
    have e1 : addForceStep h x (s, f) i = ((addForceStep h x (s, f) i).1,
        (addForceStep h x (s, f) i).2) := rfl
    have e2 : addForceStep h x (s, g) i = ((addForceStep h x (s, f) i).1,
        (addForceStep h x (s, g) i).2) := rfl
    rw [e1, e2]
    exact ih _ _ _

/-- `addForce` changes no member of the force field but `m_element_rotations`. -/
theorem addForce_fold_frame (h : Helper K) (x : List (Vec3 K)) (L : List Nat)
    (st : FEMForcefield K × List (Vec3 K)) :
    (L.foldl (addForceStep h x) st).1 =
      withRotations st.1 (L.foldl (addForceStep h x) st).1.m_element_rotations ∧
    (st.1.d_corotational = Corotational.NONE → (L.foldl (addForceStep h x) st).1 = st.1) := by
  induction L generalizing st with
  | nil => exact ⟨rfl, fun _ => rfl⟩
  | cons i L ih =>
    rw [List.foldl_cons]
    obtain ⟨h1, h2⟩ := ih (addForceStep h x st i)
    have hs := addForceStep_fst h x st i
    refine ⟨?_, fun hm => ?_⟩
    · rw [hs] at h1
      rw [withRotations_withRotations] at h1
      exact h1
    · have hst : (addForceStep h x st i).1 = st.1 := by
        rw [hs]
        simp only [hm, if_true]
        rfl
      rw [h2 (by rw [hst]; exact hm), hst]

end ClosedForms

end Caribou


namespace Caribou

section MatrixLoop

variable {K : Type} [LinearOrderedField K]

/-! ## The loop of `addKToMatrix` in closed form -/

theorem BaseMatrix.add_apply (M : BaseMatrix K) (i j : Nat) (v : K) (r c : Nat) :
    BaseMatrix.add M i j v r c = M r c + if r = i ∧ c = j then v else 0 := by
  unfold BaseMatrix.add
  split_ifs <;> simp

/-- A loop whose passes each add a fixed amount to every entry adds the sum of the amounts. -/
theorem foldl_additive {ι : Type} (L : List ι) (F : BaseMatrix K → ι → BaseMatrix K)
    (δ : ι → Nat → Nat → K) (hF : ∀ a M r c, F M a r c = M r c + δ a r c)
    (M : BaseMatrix K) (r c : Nat) :
    (L.foldl F M) r c = M r c + (L.map (fun a => δ a r c)).sum := by
  induction L generalizing M with
  | nil => simp
  | cons a L ih =>
    rw [List.foldl_cons, ih, hF, List.map_cons, List.sum_cons, add_assoc]

theorem foldl_additive_fin {n : Nat} (F : BaseMatrix K → Fin n → BaseMatrix K)
    (δ : Fin n → Nat → Nat → K) (hF : ∀ a M r c, F M a r c = M r c + δ a r c)
    (M : BaseMatrix K) (r c : Nat) :
    ((List.finRange n).foldl F M) r c = M r c + ∑ a : Fin n, δ a r c := by
  rw [foldl_additive _ F δ hF, Fin.sum_univ_def]

theorem sum_map_range (n : Nat) (f : Nat → K) :
    ((List.range n).map f).sum = ∑ i in Finset.range n, f i := by
  induction n with
  | zero => simp
  | succ n ih => rw [List.range_succ, List.map_append, List.sum_append, ih,
      Finset.sum_range_succ]; simp

theorem foldl_additive_range (n : Nat) (F : BaseMatrix K → Nat → BaseMatrix K)
    (δ : Nat → Nat → Nat → K) (hF : ∀ a M r c, F M a r c = M r c + δ a r c)
    (M : BaseMatrix K) (r c : Nat) :
    ((List.range n).foldl F M) r c = M r c + ∑ a in Finset.range n, δ a r c := by
  rw [foldl_additive _ F δ hF, sum_map_range]

theorem foldl_add_columns (rowIndex colBase : Nat) (v : Fin 3 → K) (M : BaseMatrix K)
    (r c : Nat) :
    ((List.finRange 3).foldl (fun matrix m => matrix.add rowIndex (colBase + m.val) (v m)) M) r c =
      M r c + ∑ m : Fin 3, if r = rowIndex ∧ c = colBase + m.val then v m else 0 :=
  foldl_additive_fin _
    (fun m r c => if r = rowIndex ∧ c = colBase + m.val then v m else 0)
    (fun _ _ _ _ => BaseMatrix.add_apply _ _ _ _ _ _) M r c

theorem foldl_add_block (rowBase colBase : Nat) (B : Mat33 K) (M : BaseMatrix K) (r c : Nat) :
    ((List.finRange 3).foldl (fun matrix l =>
      (List.finRange 3).foldl (fun matrix m =>
        matrix.add (rowBase + l.val) (colBase + m.val) (B l m)) matrix) M) r c =
      M r c + ∑ l : Fin 3, ∑ m : Fin 3,
        if r = rowBase + l.val ∧ c = colBase + m.val then B l m else 0 :=
  foldl_additive_fin _
    (fun l r c => ∑ m : Fin 3, if r = rowBase + l.val ∧ c = colBase + m.val then B l m else 0)
    (fun l M r c => foldl_add_columns (rowBase + l.val) colBase (B l) M r c) M r c

theorem foldl_add_blocks (rowBase : Nat) (colBase : Fin 4 → Nat) (B : Fin 4 → Mat33 K)
    (M : BaseMatrix K) (r c : Nat) :
    ((List.finRange 4).foldl (fun matrix k =>
      (List.finRange 3).foldl (fun matrix l =>
        (List.finRange 3).foldl (fun matrix m =>
          matrix.add (rowBase + l.val) (colBase k + m.val) (B k l m)) matrix) matrix) M) r c =
      M r c + ∑ k : Fin 4, ∑ l : Fin 3, ∑ m : Fin 3,
        if r = rowBase + l.val ∧ c = colBase k + m.val then B k l m else 0 :=
  foldl_additive_fin _
    (fun k r c => ∑ l : Fin 3, ∑ m : Fin 3,
        if r = rowBase + l.val ∧ c = colBase k + m.val then B k l m else 0)
    (fun k M r c => foldl_add_block rowBase (colBase k) (B k) M r c) M r c

theorem foldl_add_all (base : Fin 4 → Nat) (B : Fin 4 → Fin 4 → Mat33 K)
    (M : BaseMatrix K) (r c : Nat) :
    ((List.finRange 4).foldl (fun matrix j =>
      (List.finRange 4).foldl (fun matrix k =>
        (List.finRange 3).foldl (fun matrix l =>
          (List.finRange 3).foldl (fun matrix m =>
            matrix.add (base j + l.val) (base k + m.val) (B j k l m)) matrix) matrix) matrix)
      M) r c =
      M r c + ∑ j : Fin 4, ∑ k : Fin 4, ∑ l : Fin 3, ∑ m : Fin 3,
        if r = base j + l.val ∧ c = base k + m.val then B j k l m else 0 :=
  foldl_additive_fin _
    (fun j r c => ∑ k : Fin 4, ∑ l : Fin 3, ∑ m : Fin 3,
        if r = base j + l.val ∧ c = base k + m.val then B j k l m else 0)
    (fun j M r c => foldl_add_blocks (base j) base (B j) M r c) M r c

/-- What element `i` adds to the entry at row `r`, column `c`. -/
theorem addKElement_apply (s : FEMForcefield K) (kFact : K) (M : BaseMatrix K) (i r c : Nat) :
    addKElement s kFact M i r c = M r c +
      ∑ j : Fin 4, ∑ k : Fin 4, ∑ l : Fin 3, ∑ m : Fin 3,
        if r = s.d_tetrahedrons.getD i (fun _ => 0) j * 3 + l.val ∧
            c = s.d_tetrahedrons.getD i (fun _ => 0) k * 3 + m.val then
          tangentBlock s kFact i j k l m else 0 := by
  unfold addKElement
  dsimp only
  exact foldl_add_all (fun j => s.d_tetrahedrons.getD i (fun _ => 0) j * 3)
    (fun j k => tangentBlock s kFact i j k) M r c

/-- `addKToMatrix` in closed form: the entry at row `r`, column `c` gains, for
every element and every pair of its local nodes that lands there, the entry of
the scaled and rotated block. -/
theorem addKToMatrix_apply (s : FEMForcefield K) (M : BaseMatrix K) (kFact : K)
    (offset r c : Nat) :
    (addKToMatrix s M kFact offset).2 r c = M r c +
      ∑ i in Finset.range s.d_tetrahedrons.length,
        ∑ j : Fin 4, ∑ k : Fin 4, ∑ l : Fin 3, ∑ m : Fin 3,
          if r = s.d_tetrahedrons.getD i (fun _ => 0) j * 3 + l.val ∧
              c = s.d_tetrahedrons.getD i (fun _ => 0) k * 3 + m.val then
            tangentBlock s kFact i j k l m else 0 := by
  show ((List.range s.d_tetrahedrons.length).foldl (addKElement s kFact) M) r c = _
  exact foldl_additive_range _ (addKElement s kFact) _
    (fun i M r c => addKElement_apply s kFact M i r c) M r c

end MatrixLoop

end Caribou


namespace Caribou

section Stiffness

variable {K : Type} [LinearOrderedField K]

/-! ## The element stiffness matrix against the tensor form of the stress -/

theorem getStrainDisplacement_apply (sd : Fin 4 → Vec3 K) (a : Fin 6) (j : Fin 4) (l : Fin 3) :
    getStrainDisplacement sd a ⟨3 * j.val + l.val, by omega⟩ = strainBlock (sd j) a l := by
  unfold getStrainDisplacement
  have h1 : (⟨(3 * j.val + l.val) / 3, by omega⟩ : Fin 4) = j := Fin.ext (by simp; omega)
  have h2 : (⟨(3 * j.val + l.val) % 3, by omega⟩ : Fin 3) = l := Fin.ext (by simp; omega)
  simp only [Matrix.of_apply, h1, h2]

/-- The 3x3 block `(j, k)` of `volume * Bt * C * B`. -/
theorem getsub_stiffness (volume : K) (C : Mat66 K) (sd : Fin 4 → Vec3 K) (j k : Fin 4) :
    getsub (volume • (getStrainDisplacement sd).transpose * C * getStrainDisplacement sd) j k =
      volume • (strainBlock (sd j)).transpose * C * strainBlock (sd k) := by
  ext l m
  simp only [getsub, Matrix.of_apply, Matrix.mul_apply, Matrix.smul_apply,
    Matrix.transpose_apply, getStrainDisplacement_apply]

theorem stressTensor_add (youngModulus poissonRatio : K) (G H : Mat33 K) :
    stressTensor youngModulus poissonRatio (G + H) =
      stressTensor youngModulus poissonRatio G + stressTensor youngModulus poissonRatio H := by
  unfold stressTensor trace
  ext i j
  simp only [Matrix.add_apply, Matrix.smul_apply, Matrix.transpose_apply, smul_eq_mul]
  ring

theorem stressTensor_zero (youngModulus poissonRatio : K) :
    stressTensor youngModulus poissonRatio 0 = 0 := by
  unfold stressTensor trace
  ext i j
  simp

theorem stressTensor_sum (youngModulus poissonRatio : K) (G : Fin 4 → Mat33 K) :
    stressTensor youngModulus poissonRatio (∑ j, G j) =
      ∑ j, stressTensor youngModulus poissonRatio (G j) := by
  simp only [Fin.sum_univ_four, stressTensor_add]

/-- One block of `Bt * C * B` applied to a nodal vector is the stress of that
vector's share of the gradient, applied to the shape derivative of the line node. -/
theorem block_mulVec (youngModulus poissonRatio : K) (gj g u : Vec3 K) :
    ((strainBlock gj).transpose * materialMatrix youngModulus poissonRatio *
        strainBlock g).mulVec u =
      (stressTensor youngModulus poissonRatio (outer u g)).mulVec gj := by
  unfold materialMatrix stressTensor trace
  generalize youngModulus * poissonRatio / ((1 + poissonRatio) * (1 - 2 * poissonRatio)) = lam
  generalize youngModulus / (2 * (1 + poissonRatio)) = mu
  ext i
  fin_cases i <;>
  · simp [Matrix.mulVec, Matrix.dotProduct, Matrix.mul_apply, Fin.sum_univ_succ, strainBlock,
      outer, Matrix.one_apply]
    ring

/-- Line `j` of the element stiffness matrix against the twelve nodal values is
the volume times the stress applied to the shape derivative of node `j`. -/
theorem stiffness_sum (youngModulus poissonRatio volume : K) (sd u : Fin 4 → Vec3 K)
    (j : Fin 4) :
    ∑ k : Fin 4, (getsub (volume • (getStrainDisplacement sd).transpose *
        materialMatrix youngModulus poissonRatio * getStrainDisplacement sd) j k).mulVec (u k) =
      (volume • stress youngModulus poissonRatio u sd).mulVec (sd j) := by
  have hk : ∀ k : Fin 4, (getsub (volume • (getStrainDisplacement sd).transpose *
        materialMatrix youngModulus poissonRatio * getStrainDisplacement sd) j k).mulVec (u k) =
      volume • (stressTensor youngModulus poissonRatio (outer (u k) (sd k))).mulVec (sd j) := by
    intro k
    rw [getsub_stiffness, Matrix.smul_mul, Matrix.smul_mul, Matrix.smul_mulVec_assoc,
      block_mulVec]
  simp only [hk]
  unfold stress
  rw [gradient_eq_sum, stressTensor_sum, Matrix.smul_mulVec_assoc]
  simp only [Fin.sum_univ_four, Matrix.add_mulVec, smul_add]

omit [LinearOrderedField K] in
theorem vec4_eta {α : Type} (f : Fin 4 → α) : ![f 0, f 1, f 2, f 3] = f := by
  funext k
  fin_cases k <;> rfl

/-- The four vectors of `addDForce` for one element, mode by mode. -/
theorem addDForceElement_eq (s : FEMForcefield K) (dx : List (Vec3 K)) (t : Nat) :
    addDForceElement s dx t = fun j =>
      nodalForce s.d_corotational (restVolume s t) (s.m_element_rotations.getD t 0)
        (s.m_element_rotations.getD t 0).transpose
        (stress s.d_youngModulus s.d_poissonRatio
          (fun k =>
            if s.d_corotational = Corotational.NONE then
              vget dx (s.d_tetrahedrons.getD t (fun _ => 0) k)
            else if s.d_corotational = Corotational.DEFORMATION_GRADIENT then
              (s.m_element_rotations.getD t 0).transpose.mulVec
                (vget dx (s.d_tetrahedrons.getD t (fun _ => 0) k))
            else
              (s.m_element_rotations.getD t 0).mulVec
                (vget dx (s.d_tetrahedrons.getD t (fun _ => 0) k)))
          (s.d_element_shape_derivatives.getD t (fun _ => 0)))
        (s.d_element_shape_derivatives.getD t (fun _ => 0) j) := by
  unfold addDForceElement restVolume restNode
  rcases hmode : s.d_corotational with _ | _ | _ | _ | _
  · simp only [if_true, if_false, reduceCtorEq]
    rw [← vec4_eta (fun k => vget dx (s.d_tetrahedrons.getD t (fun _ => 0) k))]
  · simp only [if_true, if_false, reduceCtorEq]
    rw [← vec4_eta (fun k => (s.m_element_rotations.getD t 0).mulVec
      (vget dx (s.d_tetrahedrons.getD t (fun _ => 0) k)))]
  · simp only [if_true, if_false, reduceCtorEq]
    rw [← vec4_eta (fun k => (s.m_element_rotations.getD t 0).mulVec
      (vget dx (s.d_tetrahedrons.getD t (fun _ => 0) k)))]
  · simp only [if_true, if_false, reduceCtorEq]
    rw [← vec4_eta (fun k => (s.m_element_rotations.getD t 0).mulVec
      (vget dx (s.d_tetrahedrons.getD t (fun _ => 0) k)))]
  · simp only [if_true, if_false, reduceCtorEq]
    rw [← vec4_eta (fun k => (s.m_element_rotations.getD t 0).transpose.mulVec
      (vget dx (s.d_tetrahedrons.getD t (fun _ => 0) k)))]

theorem conj_mulVec (a : K) (A B C : Mat33 K) (v : Vec3 K) :
    (a • A * B * C).mulVec v = a • A.mulVec (B.mulVec (C.mulVec v)) := by
  rw [Matrix.smul_mul, Matrix.smul_mul, Matrix.smul_mulVec_assoc, ← Matrix.mulVec_mulVec,
    ← Matrix.mulVec_mulVec]

theorem rot_smul_mulVec (a : K) (A S : Mat33 K) (g : Vec3 K) :
    (a • A * S).mulVec g = A.mulVec ((a • S).mulVec g) := by
  rw [Matrix.smul_mul, ← Matrix.mul_smul, Matrix.mulVec_mulVec]

theorem mulVec_sum_four (A : Mat33 K) (v : Fin 4 → Vec3 K) :
    ∑ k : Fin 4, A.mulVec (v k) = A.mulVec (∑ k : Fin 4, v k) := by
  simp only [Fin.sum_univ_four, Matrix.mulVec_add]

/-- The element's blocks of the tangent matrix, applied to the direction at the
element's nodes, give the vectors that `addDForce` subtracts, scaled by `-kFact`. -/
theorem tangent_sum (s : FEMForcefield K) (kFact : K) (t : Nat) (dx : List (Vec3 K))
    (hK : s.d_element_stiffness_matrices.getD t 0 =
      restVolume s t •
        (getStrainDisplacement (s.d_element_shape_derivatives.getD t (fun _ => 0))).transpose *
        materialMatrix s.d_youngModulus s.d_poissonRatio *
        getStrainDisplacement (s.d_element_shape_derivatives.getD t (fun _ => 0)))
    (j : Fin 4) :
    ∑ k : Fin 4, (tangentBlock s kFact t j k).mulVec
        (vget dx (s.d_tetrahedrons.getD t (fun _ => 0) k)) =
      (-kFact) • addDForceElement s dx t j := by
  rw [addDForceElement_eq]
  unfold tangentBlock nodalForce
  rw [hK]
  by_cases h1 : s.d_corotational = Corotational.NONE
  · simp only [h1, if_true, Matrix.smul_mulVec_assoc, ← Finset.smul_sum]
    rw [stiffness_sum, Matrix.smul_mulVec_assoc]
  · by_cases h2 : s.d_corotational = Corotational.DEFORMATION_GRADIENT
    · simp only [h2, if_true, if_false, reduceCtorEq, conj_mulVec, ← Finset.smul_sum]
      rw [mulVec_sum_four, stiffness_sum, rot_smul_mulVec]
    · simp only [h1, h2, if_true, if_false, reduceCtorEq, conj_mulVec, ← Finset.smul_sum]
      rw [mulVec_sum_four, stiffness_sum, rot_smul_mulVec]

/-! ## The global matrix against a nodal array -/

theorem matVec_add (A B : BaseMatrix K) (d : List (Vec3 K)) (r : Nat) :
    matVec (fun r c => A r c + B r c) d r = matVec A d r + matVec B d r := by
  unfold matVec
  simp only [add_mul, Finset.sum_add_distrib]

theorem matVec_zero (d : List (Vec3 K)) (r : Nat) :
    matVec (fun _ _ => (0 : K)) d r = 0 := by
  unfold matVec
  simp

theorem matVec_sum {ι : Type} (S : Finset ι) (F : ι → BaseMatrix K) (d : List (Vec3 K))
    (r : Nat) :
    matVec (fun r c => ∑ a in S, F a r c) d r = ∑ a in S, matVec (F a) d r := by
  unfold matVec
  simp only [Finset.sum_mul]
  refine (Finset.sum_congr rfl (fun k _ => Finset.sum_comm)).trans ?_
  exact Finset.sum_comm

theorem index_eq_iff (a b : Nat) (l m : Fin 3) :
    a * 3 + l.val = b * 3 + m.val ↔ a = b ∧ l = m := by
  constructor
  · intro h
    have hl := l.isLt
    have hm := m.isLt
    refine ⟨by omega, Fin.ext (by omega)⟩
  · rintro ⟨rfl, rfl⟩
    rfl

/-- A matrix with one entry, against a nodal array. -/
theorem matVec_single (rowIndex a : Nat) (m : Fin 3) (v : K) (d : List (Vec3 K)) (r : Nat) :
    matVec (fun r c => if r = rowIndex ∧ c = a * 3 + m.val then v else 0) d r =
      if r = rowIndex then v * vget d a m else 0 := by
  unfold matVec
  by_cases hr : r = rowIndex
  · simp only [hr, true_and, if_true]
    have hcond : ∀ (k : Nat) (n : Fin 3),
        (if k * 3 + n.val = a * 3 + m.val then v else 0) * vget d k n =
          if k = a then (if n = m then v * vget d k n else 0) else 0 := by
      intro k n
      by_cases h1 : k = a
      · by_cases h2 : n = m
        · rw [if_pos (by rw [h1, h2]), if_pos h1, if_pos h2]
        · have : ¬(k * 3 + n.val = a * 3 + m.val) := fun e =>
            h2 ((index_eq_iff _ _ _ _).mp e).2
          rw [if_neg this, zero_mul, if_pos h1, if_neg h2]
      · have : ¬(k * 3 + n.val = a * 3 + m.val) := fun e =>
          h1 ((index_eq_iff _ _ _ _).mp e).1
        rw [if_neg this, zero_mul, if_neg h1]
    simp only [hcond]
    by_cases ha : a < d.length
    · simp [Finset.sum_ite_eq', ha]
    · have hz : vget d a = 0 := vget_of_length_le d a (not_lt.mp ha)
      simp [Finset.sum_ite_eq', ha, hz]
  · simp [hr]

end Stiffness

end Caribou


namespace Caribou

section Rotation

variable {K : Type} [LinearOrderedField K]

/-! ## Rotations, dot and cross products -/

theorem matFromRows_mulVec (r0 r1 r2 v : Vec3 K) :
    (matFromRows r0 r1 r2).mulVec v = ![dot r0 v, dot r1 v, dot r2 v] := by
  ext i
  fin_cases i <;> simp [matFromRows, Matrix.mulVec, Matrix.dotProduct, Fin.sum_univ_three, dot]

/-- An orthogonal matrix keeps the dot product. -/
theorem dot_mulVec (Q : Mat33 K) (hQ : Q.transpose * Q = 1) (a b : Vec3 K) :
    dot (Q.mulVec a) (Q.mulVec b) = dot a b := by
  have e : ∀ i j : Fin 3, Q 0 i * Q 0 j + Q 1 i * Q 1 j + Q 2 i * Q 2 j =
      (1 : Mat33 K) i j := by
    intro i j
    rw [← hQ]
    simp [Matrix.mul_apply, Fin.sum_univ_three]
  have e00 := e 0 0
  have e01 := e 0 1
  have e02 := e 0 2
  have e11 := e 1 1
  have e12 := e 1 2
  have e22 := e 2 2
  simp only [Matrix.one_apply_eq, Matrix.one_apply_ne, ne_eq, Fin.reduceEq, not_false_eq_true]
    at e00 e01 e02 e11 e12 e22
  simp only [dot, Matrix.mulVec, Matrix.dotProduct, Fin.sum_univ_three]
  linear_combination (a 0 * b 0) * e00 + (a 0 * b 1 + a 1 * b 0) * e01 +
    (a 0 * b 2 + a 2 * b 0) * e02 + (a 1 * b 1) * e11 + (a 1 * b 2 + a 2 * b 1) * e12 +
    (a 2 * b 2) * e22

/-- The adjugate of a proper rotation is its transpose. -/
theorem adjugate_rotation (Q : Mat33 K) (hQ : Q.transpose * Q = 1) (hdet : Q.det = 1) :
    Q.adjugate = Q.transpose := by
  have h1 : Q.transpose * (Q * Q.adjugate) = Q.transpose := by
    rw [Matrix.mul_adjugate, hdet, one_smul, mul_one]
  rw [← mul_assoc, hQ, one_mul] at h1
  exact h1

/-- A proper rotation commutes with the cross product. -/
theorem cross_mulVec (Q : Mat33 K) (hQ : Q.transpose * Q = 1) (hdet : Q.det = 1)
    (a b : Vec3 K) : cross (Q.mulVec a) (Q.mulVec b) = Q.mulVec (cross a b) := by
  have hadj := adjugate_rotation Q hQ hdet
  have e : ∀ i j : Fin 3, Q.adjugate i j = Q j i := by
    intro i j
    rw [hadj]
    rfl
  have e00 := e 0 0
  have e01 := e 0 1
  have e02 := e 0 2
  have e10 := e 1 0
  have e11 := e 1 1
  have e12 := e 1 2
  have e20 := e 2 0
  have e21 := e 2 1
  have e22 := e 2 2
  rw [Matrix.adjugate_fin_three] at e00 e01 e02 e10 e11 e12 e20 e21 e22
  simp only [Matrix.of_apply, Matrix.cons_val_zero, Matrix.cons_val_one, Matrix.head_cons,
    Matrix.cons_val_two, Matrix.tail_cons, Matrix.cons_val', Matrix.empty_val',
    Matrix.cons_val_fin_one, Matrix.vecHead] at e00 e01 e02 e10 e11 e12 e20 e21 e22
  ext i
  fin_cases i
  · simp only [cross, Matrix.mulVec, Matrix.dotProduct, Fin.sum_univ_three,
      Matrix.cons_val_zero, Matrix.cons_val_one, Matrix.head_cons, Matrix.cons_val_two,
      Matrix.tail_cons, Fin.zero_eta]
    linear_combination (a 1 * b 2 - a 2 * b 1) * e00 + (a 2 * b 0 - a 0 * b 2) * e10 +
      (a 0 * b 1 - a 1 * b 0) * e20
  · simp only [cross, Matrix.mulVec, Matrix.dotProduct, Fin.sum_univ_three,
      Matrix.cons_val_zero, Matrix.cons_val_one, Matrix.head_cons, Matrix.cons_val_two,
      Matrix.tail_cons, Fin.mk_one]
    linear_combination (a 1 * b 2 - a 2 * b 1) * e01 + (a 2 * b 0 - a 0 * b 2) * e11 +
      (a 0 * b 1 - a 1 * b 0) * e21
  · simp only [cross, Matrix.mulVec, Matrix.dotProduct, Fin.sum_univ_three,
      Matrix.cons_val_zero, Matrix.cons_val_one, Matrix.head_cons, Matrix.cons_val_two,
      Matrix.tail_cons, Fin.reduceFinMk]
    linear_combination (a 1 * b 2 - a 2 * b 1) * e02 + (a 2 * b 0 - a 0 * b 2) * e12 +
      (a 0 * b 1 - a 1 * b 0) * e22

theorem normalized_mulVec (h : Helper K) (Q : Mat33 K) (hQ : Q.transpose * Q = 1)
    (v : Vec3 K) : normalized h (Q.mulVec v) = Q.mulVec (normalized h v) := by
  unfold normalized
  rw [dot_mulVec Q hQ, Matrix.mulVec_smul]

/-- The rotation extracted from rotated edges undoes the rotation: applied to a
rotated vector it gives what the rotation extracted from the original edges
gives on the original vector. -/
theorem extractRotationLarge_rotated (h : Helper K) (Q : Mat33 K)
    (hQ : Q.transpose * Q = 1) (hdet : Q.det = 1) (e0 e1 e2 v : Vec3 K) :
    (extractRotationLarge h
        (matFromRows (Q.mulVec e0) (Q.mulVec e1) (Q.mulVec e2))).mulVec (Q.mulVec v) =
      (extractRotationLarge h (matFromRows e0 e1 e2)).mulVec v := by
  have r0 : ∀ a b c : Vec3 K, (matFromRows a b c) 0 = a := fun _ _ _ => rfl
  have r1 : ∀ a b c : Vec3 K, (matFromRows a b c) 1 = b := fun _ _ _ => rfl
  unfold extractRotationLarge
  simp only [r0, r1]
  rw [matFromRows_mulVec, matFromRows_mulVec, normalized_mulVec h Q hQ,
    cross_mulVec Q hQ hdet, normalized_mulVec h Q hQ, cross_mulVec Q hQ hdet,
    dot_mulVec Q hQ, dot_mulVec Q hQ, dot_mulVec Q hQ]

end Rotation

end Caribou


namespace Caribou

section Shape

variable {K : Type} [LinearOrderedField K]

/-! ## Shape derivatives and the stress of a rotation -/

theorem cofactor_expansion (e1 e2 e3 : Vec3 K) (i j : Fin 3) :
    e1 i * cross e2 e3 j + e2 i * cross e3 e1 j + e3 i * cross e1 e2 j =
      if i = j then dot e1 (cross e2 e3) else 0 := by
  fin_cases i <;> fin_cases j <;> simp [cross, dot] <;> ring

/-- The shape derivatives of a non-degenerate tetrahedron sum to zero and
reproduce the identity as the gradient of the position field. -/
theorem shape_partition (a b c d : Vec3 K)
    (hdet : dot (b - a) (cross (c - a) (d - a)) ≠ 0) :
    ∑ j : Fin 4, getShapeDerivatives a b c d j = 0 ∧
    ∑ j : Fin 4, outer (![a, b, c, d] j) (getShapeDerivatives a b c d j) = 1 := by
  constructor
  · simp only [Fin.sum_univ_four, getShapeDerivatives, Matrix.cons_val_zero,
      Matrix.cons_val_one, Matrix.head_cons, Matrix.cons_val_two, Matrix.tail_cons,
      Matrix.cons_val_three]
    abel
  · ext i j
    have hc := cofactor_expansion (b - a) (c - a) (d - a) i j
    simp only [Fin.sum_univ_four, getShapeDerivatives, Matrix.add_apply, outer, Matrix.of_apply,
      Matrix.cons_val_zero, Matrix.cons_val_one, Matrix.head_cons, Matrix.cons_val_two,
      Matrix.tail_cons, Matrix.cons_val_three, Pi.neg_apply, Pi.add_apply, Pi.smul_apply,
      smul_eq_mul, Pi.sub_apply] at hc ⊢
    set D := dot (b - a) (cross (c - a) (d - a)) with hD
    have key : a i * -(D⁻¹ * cross (c - a) (d - a) j + D⁻¹ * cross (d - a) (b - a) j +
          D⁻¹ * cross (b - a) (c - a) j) + b i * (D⁻¹ * cross (c - a) (d - a) j) +
        c i * (D⁻¹ * cross (d - a) (b - a) j) + d i * (D⁻¹ * cross (b - a) (c - a) j) =
        D⁻¹ * ((b i - a i) * cross (c - a) (d - a) j + (c i - a i) * cross (d - a) (b - a) j +
          (d i - a i) * cross (b - a) (c - a) j) := by ring
    rw [key, hc]
    by_cases hij : i = j
    · rw [if_pos hij, hij, Matrix.one_apply_eq, inv_mul_cancel₀ hdet]
    · rw [if_neg hij, Matrix.one_apply_ne hij, mul_zero]

theorem outer_mulVec_left (M : Mat33 K) (p g : Vec3 K) :
    outer (M.mulVec p) g = M * outer p g := by
  ext i j
  simp [outer, Matrix.mul_apply, Matrix.mulVec, Matrix.dotProduct, Finset.sum_mul, mul_assoc]

theorem outer_sub_left (u v g : Vec3 K) : outer (u - v) g = outer u g - outer v g := by
  ext i j
  simp [outer, sub_mul]

theorem outer_transpose (u g : Vec3 K) : (outer u g).transpose = outer g u := by
  ext i j
  simp [outer, mul_comm]

/-- The gradient of the displacement `M p - p` of a non-degenerate tetrahedron is `M - 1`. -/
theorem gradient_linear_map (M : Mat33 K) (p g : Fin 4 → Vec3 K)
    (hp : ∑ j : Fin 4, outer (p j) (g j) = 1) :
    gradient (fun k => M.mulVec (p k) - p k) g = M - 1 := by
  rw [gradient_eq_sum]
  simp only [outer_sub_left, outer_mulVec_left, Finset.sum_sub_distrib, ← Finset.mul_sum, hp,
    mul_one]

/-- A matrix that kills the four shape derivatives of a non-degenerate tetrahedron is zero. -/
theorem eq_zero_of_mulVec_shape (S : Mat33 K) (p g : Fin 4 → Vec3 K)
    (hp : ∑ j : Fin 4, outer (p j) (g j) = 1) (hS : ∀ j, S.mulVec (g j) = 0) : S = 0 := by
  have h1 : ∑ j : Fin 4, outer (g j) (p j) = 1 := by
    have := congrArg Matrix.transpose hp
    rw [Matrix.transpose_sum, Matrix.transpose_one] at this
    simpa only [outer_transpose] using this
  calc S = S * ∑ j : Fin 4, outer (g j) (p j) := by rw [h1, mul_one]
    _ = ∑ j : Fin 4, outer (S.mulVec (g j)) (p j) := by
        rw [Finset.mul_sum]
        simp only [outer_mulVec_left]
    _ = 0 := by simp only [hS, outer_zero_left, Finset.sum_const_zero]

/-- An isotropic stress with positive shear and bulk moduli vanishes on `Q - 1`,
`Q` orthogonal, only when `Q` is the identity. -/
theorem isotropic_stress_rotation (lam mu : K) (hmu : 0 < mu) (hk : 0 < 2 * mu + 3 * lam)
    (Q : Mat33 K) (hQ : Q.transpose * Q = 1)
    (hS : mu • ((Q - 1) + (Q - 1).transpose) +
      (1 / 2 : K) • ((lam * trace ((Q - 1) + (Q - 1).transpose)) • (1 : Mat33 K)) = 0) :
    Q = 1 := by
  have s00 := congrFun (congrFun hS 0) 0
  have s11 := congrFun (congrFun hS 1) 1
  have s22 := congrFun (congrFun hS 2) 2
  simp only [trace, Matrix.add_apply, Matrix.smul_apply, Matrix.sub_apply,
    Matrix.transpose_apply, Matrix.one_apply_eq, smul_eq_mul, Matrix.zero_apply]
    at s00 s11 s22
  have hT : (2 * mu + 3 * lam) * (Q 0 0 + Q 1 1 + Q 2 2 - 3) = 0 := by
    linear_combination s00 + s11 + s22
  have hT0 : Q 0 0 + Q 1 1 + Q 2 2 - 3 = 0 := by
    rcases mul_eq_zero.mp hT with h0 | h0
    · exact absurd h0 (ne_of_gt hk)
    · exact h0
  have d0 : Q 0 0 = 1 := by
    have : mu * (Q 0 0 - 1) = 0 := by linear_combination (1 / 2 : K) * s00 - (lam / 2) * hT0
    rcases mul_eq_zero.mp this with h0 | h0
    · exact absurd h0 (ne_of_gt hmu)
    · linear_combination h0
  have d1 : Q 1 1 = 1 := by
    have : mu * (Q 1 1 - 1) = 0 := by linear_combination (1 / 2 : K) * s11 - (lam / 2) * hT0
    rcases mul_eq_zero.mp this with h0 | h0
    · exact absurd h0 (ne_of_gt hmu)
    · linear_combination h0
  have d2 : Q 2 2 = 1 := by
    have : mu * (Q 2 2 - 1) = 0 := by linear_combination (1 / 2 : K) * s22 - (lam / 2) * hT0
    rcases mul_eq_zero.mp this with h0 | h0
    · exact absurd h0 (ne_of_gt hmu)
    · linear_combination h0
  have e : ∀ i : Fin 3, Q 0 i * Q 0 i + Q 1 i * Q 1 i + Q 2 i * Q 2 i = 1 := by
    intro i
    have := congrFun (congrFun hQ i) i
    simpa [Matrix.mul_apply, Fin.sum_univ_three] using this
  have c0 := e 0
  have c1 := e 1
  have c2 := e 2
  have z0 : Q 1 0 * Q 1 0 + Q 2 0 * Q 2 0 = 0 := by
    linear_combination c0 - (Q 0 0 + 1) * d0
  have z1 : Q 0 1 * Q 0 1 + Q 2 1 * Q 2 1 = 0 := by
    linear_combination c1 - (Q 1 1 + 1) * d1
  have z2 : Q 0 2 * Q 0 2 + Q 1 2 * Q 1 2 = 0 := by
    linear_combination c2 - (Q 2 2 + 1) * d2
  obtain ⟨q10, q20⟩ := mul_self_add_mul_self_eq_zero.mp z0
  obtain ⟨q01, q21⟩ := mul_self_add_mul_self_eq_zero.mp z1
  obtain ⟨q02, q12⟩ := mul_self_add_mul_self_eq_zero.mp z2
  ext i j
  fin_cases i <;> fin_cases j <;> simp [d0, d1, d2, q10, q20, q01, q21, q02, q12]

/-- For a positive Young modulus and a Poisson ratio between -1 and 1/2, the
stress of `Q - 1`, `Q` orthogonal, vanishes only when `Q` is the identity. -/
theorem stressTensor_rotation (youngModulus poissonRatio : K) (hE : 0 < youngModulus)
    (h1 : -1 < poissonRatio) (h2 : poissonRatio < 1 / 2) (Q : Mat33 K)
    (hQ : Q.transpose * Q = 1) (hS : stressTensor youngModulus poissonRatio (Q - 1) = 0) :
    Q = 1 := by
  have p1 : 0 < 1 + poissonRatio := by linarith
  have p2 : 0 < 1 - 2 * poissonRatio := by linarith
  unfold stressTensor at hS
  dsimp only at hS
  refine isotropic_stress_rotation
    (youngModulus * poissonRatio / ((1 + poissonRatio) * (1 - 2 * poissonRatio)))
    (youngModulus / (2 * (1 + poissonRatio))) ?_ ?_ Q hQ hS
  · positivity
  · have : 2 * (youngModulus / (2 * (1 + poissonRatio))) +
        3 * (youngModulus * poissonRatio / ((1 + poissonRatio) * (1 - 2 * poissonRatio))) =
        youngModulus / (1 - 2 * poissonRatio) := by
      field_simp
      ring
    rw [this]
    positivity

/-- The stress of a rotated, non-degenerate tetrahedron does not kill all four
shape derivatives, unless the rotation is the identity. -/
theorem stress_rotation_ne_zero (youngModulus poissonRatio : K) (hE : 0 < youngModulus)
    (h1 : -1 < poissonRatio) (h2 : poissonRatio < 1 / 2) (Q : Mat33 K)
    (hQ : Q.transpose * Q = 1) (hQ1 : Q ≠ 1) (p g : Fin 4 → Vec3 K)
    (hp : ∑ j : Fin 4, outer (p j) (g j) = 1) :
    ∃ j, (stress youngModulus poissonRatio (fun k => Q.mulVec (p k) - p k) g).mulVec (g j)
      ≠ 0 := by
  by_contra hall
  push_neg at hall
  have hS := eq_zero_of_mulVec_shape _ p g hp hall
  unfold stress at hS
  rw [gradient_linear_map Q p g hp] at hS
  exact hQ1 (stressTensor_rotation youngModulus poissonRatio hE h1 h2 Q hQ hS)

theorem vget_map (X : List (Vec3 K)) (g : Vec3 K → Vec3 K) (i : Nat) (hi : i < X.length) :
    vget (X.map g) i = g (vget X i) := by
  unfold vget
  simp [List.getD_eq_getElem?_getD, List.getElem?_map, List.getElem?_eq_getElem hi]

theorem getD_mem_of_lt {α : Type} (l : List α) (t : Nat) (d : α) (ht : t < l.length) :
    l.getD t d ∈ l := by
  rw [List.getD_eq_getElem _ _ ht]
  exact List.getElem_mem ht

theorem triple_product (e1 e2 e3 : Vec3 K) :
    dot (cross e1 e2) e3 = dot e1 (cross e2 e3) := by
  simp [dot, cross]
  ring

theorem restVolume_ne_zero (s : FEMForcefield K) (t : Nat) (hvol : restVolume s t ≠ 0) :
    dot (restNode s t 1 - restNode s t 0)
      (cross (restNode s t 2 - restNode s t 0) (restNode s t 3 - restNode s t 0)) ≠ 0 := by
  intro h0
  apply hvol
  unfold restVolume
  rw [triple_product, h0, abs_zero, zero_div]

/-- The shape derivatives of the rest tetrahedron of a non-degenerate element
reproduce the identity. -/
theorem rest_shape_partition (s : FEMForcefield K) (t : Nat) (hvol : restVolume s t ≠ 0) :
    ∑ j : Fin 4, outer (restNode s t j)
      (getShapeDerivatives (restNode s t 0) (restNode s t 1) (restNode s t 2)
        (restNode s t 3) j) = 1 := by
  have hp := (shape_partition (restNode s t 0) (restNode s t 1) (restNode s t 2)
    (restNode s t 3) (restVolume_ne_zero s t hvol)).2
  rw [vec4_eta (restNode s t)] at hp
  exact hp

theorem mulVec_injective_of_orthogonal (Q : Mat33 K) (hQ : Q.transpose * Q = 1) (w : Vec3 K)
    (hw : Q.mulVec w = 0) : w = 0 := by
  have : (Q.transpose * Q).mulVec w = 0 := by
    rw [← Matrix.mulVec_mulVec, hw, Matrix.mulVec_zero]
  rwa [hQ, Matrix.one_mulVec] at this

end Shape

end Caribou


namespace Caribou

/-! ## Facts about the example data -/

theorem unitField_valid (mode : Corotational) (incremental : Bool) :
    ValidTopology (unitField mode incremental) := by
  refine ⟨by simp [unitField, fresh, unitPositions], by simp [unitField, fresh], ?_⟩
  intro tetrahedron ht j
  have e : tetrahedron = unitTetrahedron := by
    simpa [unitField, fresh] using ht
  subst e
  fin_cases j <;> simp [unitTetrahedron, unitField, fresh, unitPositions]

theorem quarterTurn_orthogonal : quarterTurn.transpose * quarterTurn = 1 := by
  ext i j
  simp only [Matrix.mul_apply, Matrix.transpose_apply, Fin.sum_univ_three]
  fin_cases i <;> fin_cases j <;> simp [quarterTurn, Matrix.vecHead, Matrix.vecTail]

theorem quarterTurn_det : quarterTurn.det = 1 := by
  simp [quarterTurn, Matrix.det_fin_three]

theorem quarterTurn_ne_one : quarterTurn ≠ 1 := by
  intro e
  have := congrFun (congrFun e 0) 0
  simp [quarterTurn] at this

theorem unitField_volume (mode : Corotational) (incremental : Bool) :
    restVolume (unitField mode incremental) 0 = 1 / 6 := by
  simp [restVolume, restNode, unitField, fresh, unitPositions, unitTetrahedron, vget, dot, cross]

theorem unitField_restNode (mode : Corotational) (incremental : Bool) :
    restNode (unitField mode incremental) 0 =
      ![![0, 0, 0], ![1, 0, 0], ![0, 1, 0], ![0, 0, 1]] := by
  funext k
  fin_cases k <;> simp [restNode, unitField, fresh, unitPositions, unitTetrahedron, vget]

theorem unit_shape : getShapeDerivatives (![0, 0, 0] : Vec3 ℚ) ![1, 0, 0] ![0, 1, 0] ![0, 0, 1] =
    ![![-1, -1, -1], ![1, 0, 0], ![0, 1, 0], ![0, 0, 1]] := by
  funext j
  fin_cases j <;>
    (ext i; fin_cases i <;>
      simp [getShapeDerivatives, dot, cross, Matrix.vecHead, Matrix.vecTail])

/-- The stress that the displacement `Q X - X` of the unit tetrahedron under a
quarter turn produces, `E = 1000`, `nu = 0.3`. -/
theorem unit_quarterTurn_stress :
    stress (1000 : ℚ) (3 / 10)
      (fun k => quarterTurn.mulVec (![![0, 0, 0], ![1, 0, 0], ![0, 1, 0], ![0, 0, 1]] k) -
        (![![0, 0, 0], ![1, 0, 0], ![0, 1, 0], ![0, 0, 1]] : Fin 4 → Vec3 ℚ) k)
      ![![-1, -1, -1], ![1, 0, 0], ![0, 1, 0], ![0, 0, 1]] =
    !![-25000 / 13, 0, 0; 0, -25000 / 13, 0; 0, 0, -15000 / 13] := by
  unfold stress stressTensor
  rw [gradient_eq_sum]
  ext i j
  fin_cases i <;> fin_cases j <;>
    simp [Fin.sum_univ_four, outer, trace, quarterTurn, Matrix.mulVec, Matrix.dotProduct,
      Fin.sum_univ_three, Matrix.one_apply, Matrix.vecHead, Matrix.vecTail] <;> norm_num

/-- The deformation gradient of the unit tetrahedron under a quarter turn is
the quarter turn, which the example helper returns as its polar rotation. -/
theorem unit_quarterTurn_rotation :
    exampleHelper.extractRotationPolar
      (gradient
        (fun k => quarterTurn.mulVec (![![0, 0, 0], ![1, 0, 0], ![0, 1, 0], ![0, 0, 1]] k) -
          (![![0, 0, 0], ![1, 0, 0], ![0, 1, 0], ![0, 0, 1]] : Fin 4 → Vec3 ℚ) k)
        ![![-1, -1, -1], ![1, 0, 0], ![0, 1, 0], ![0, 0, 1]] + 1) = quarterTurn := by
  show gradient _ _ + 1 = quarterTurn
  rw [gradient_eq_sum]
  ext i j
  fin_cases i <;> fin_cases j <;>
    simp [Fin.sum_univ_four, outer, quarterTurn, Matrix.mulVec, Matrix.dotProduct,
      Fin.sum_univ_three, Matrix.one_apply, Matrix.vecHead, Matrix.vecTail]

end Caribou


namespace Caribou

section RestConfiguration

variable {K : Type} [LinearOrderedField K]

/-! ## Rest configuration -/

theorem computeRotation_edges (h : Helper K) (s : FEMForcefield K)
    (p q : Fin 4 → Vec3 K) (t : Nat)
    (hm : s.d_corotational ≠ Corotational.DEFORMATION_GRADIENT) :
    computeRotation h s p q t =
      if s.d_corotational = Corotational.SVD then
        h.extractRotationSVD (matFromRows (p 1 - p 0) (p 2 - p 0) (p 3 - p 0))
          (s.m_element_initial_inverted_transformations.getD t 0)
          (s.m_element_initial_rotations.getD t 0)
      else if s.d_corotational = Corotational.LARGE then
        extractRotationLarge h (matFromRows (p 1 - p 0) (p 2 - p 0) (p 3 - p 0))
      else h.extractRotationPolar (matFromRows (p 1 - p 0) (p 2 - p 0) (p 3 - p 0)) := by
  unfold computeRotation
  simp only [hm, if_false]

/-- In an element whose current rotation is the identity and whose initial
rotation is the one extracted from its rest edges, positions equal to the rest
positions give four zero displacements. -/
theorem rest_displacement_zero (h : Helper K) (s : FEMForcefield K) (t : Nat)
    (hR : s.m_element_rotations.getD t 0 = 1)
    (hLarge : s.d_corotational = Corotational.LARGE →
      s.m_element_initial_rotations.getD t 0 = extractRotationLarge h (restEdges s t))
    (hPolar : s.d_corotational = Corotational.POLAR →
      s.m_element_initial_rotations.getD t 0 = h.extractRotationPolar (restEdges s t))
    (hSVD : s.d_corotational = Corotational.SVD →
      h.extractRotationSVD (restEdges s t)
        (s.m_element_initial_inverted_transformations.getD t 0)
        (s.m_element_initial_rotations.getD t 0) = s.m_element_initial_rotations.getD t 0)
    (j : Fin 4) : (elementDisplacement h s s.d_initial_positions t).2 j = 0 := by
  unfold elementDisplacement
  rcases hmode : s.d_corotational with _ | _ | _ | _ | _
  · fin_cases j <;> simp
  · have hR0 := hLarge hmode
    simp only [hR, Matrix.transpose_one, Matrix.one_mulVec, mul_one, ite_self,
      computeRotation_edges h s _ _ t (by rw [hmode]; decide), hmode,
      Matrix.cons_val_zero, Matrix.cons_val_one, Matrix.head_cons, hR0, restEdges, restNode,
      if_false, if_true, reduceCtorEq]
    fin_cases j <;> simp [restEdges, restNode]
  · have hR0 := hPolar hmode
    simp only [hR, Matrix.transpose_one, Matrix.one_mulVec, mul_one, ite_self,
      computeRotation_edges h s _ _ t (by rw [hmode]; decide), hmode,
      Matrix.cons_val_zero, Matrix.cons_val_one, Matrix.head_cons, hR0, restEdges, restNode,
      if_false, if_true, reduceCtorEq]
    fin_cases j <;> simp [restEdges, restNode]
  · have hR0 := hSVD hmode
    simp only [hR, Matrix.transpose_one, Matrix.one_mulVec, mul_one, ite_self,
      computeRotation_edges h s _ _ t (by rw [hmode]; decide), hmode,
      Matrix.cons_val_zero, Matrix.cons_val_one, Matrix.head_cons,
      if_false, if_true, reduceCtorEq]
    simp [restEdges, restNode] at hR0
    fin_cases j <;> simp [hR0]
  · simp only [hR, Matrix.transpose_one, Matrix.one_mulVec, if_false, if_true, reduceCtorEq]
    fin_cases j <;> simp

/-- C1: on a freshly precomputed store, with current positions equal to the
rest positions, `addForce` leaves the force array unchanged (it adds the zero
vector to every entry), in each of the five modes and with either setting of
the incremental rotation.  For mode SVD the absent `extractRotationSVD` is
assumed to return the polar rotation when it is given the rest edges together
with their own cached inverse and polar rotation. -/
theorem addForce_rest_zero (h : Helper K) (youngModulus poissonRatio : K)
    (X : List (Vec3 K)) (tetrahedrons : List Tetrahedron) (mode : Corotational)
    (incremental : Bool) (f : List (Vec3 K))
    (hv : ValidTopology (fresh youngModulus poissonRatio X tetrahedrons mode incremental))
    (hsvd : mode = Corotational.SVD → ∀ t, t < tetrahedrons.length →
      h.extractRotationSVD
        (restEdges (fresh youngModulus poissonRatio X tetrahedrons mode incremental) t)
        (inverted (restEdges (fresh youngModulus poissonRatio X tetrahedrons mode incremental) t))
        (h.extractRotationPolar
          (restEdges (fresh youngModulus poissonRatio X tetrahedrons mode incremental) t)) =
      h.extractRotationPolar
        (restEdges (fresh youngModulus poissonRatio X tetrahedrons mode incremental) t)) :
    (addForce h
      (computeStiffnessMatrix h
        (fresh youngModulus poissonRatio X tetrahedrons mode incremental)).1 f X).2 = f := by
  set s0 := fresh youngModulus poissonRatio X tetrahedrons mode incremental with hs0
  obtain ⟨-, -, hX, hT, hM, -⟩ := computeStiffnessMatrix_config h s0
  unfold addForce
  apply addForce_fold_unchanged h X _ (List.nodup_range _)
  intro t ht rots hr
  have htn : t < s0.d_tetrahedrons.length := by
    rw [← hT]
    exact List.mem_range.mp ht
  apply addForceElement_snd_zero
  intro j
  have hrot : rots.getD t 0 = 1 := by
    rw [hr, precomputed_rotations h s0 hv]
    exact getD_resize_nil _ _ _ _ htn
  have hE : restEdges (withRotations (computeStiffnessMatrix h s0).1 rots) t = restEdges s0 t :=
    restEdges_congr _ _ t hX hT
  have hR0 : (computeStiffnessMatrix h s0).1.m_element_initial_rotations.getD t 0 =
      storedInitialRotation h s0 t 1 := by
    rw [precomputed_initial_rotation h s0 hv t htn]
    exact congrArg _ (getD_resize_nil _ _ _ _ htn)
  have hA0 : (computeStiffnessMatrix h s0).1.m_element_initial_inverted_transformations.getD t 0 =
      storedInverse s0 t 1 := by
    rw [precomputed_inverse h s0 hv t htn]
    exact congrArg _ (getD_resize_nil _ _ _ _ htn)
  have key := rest_displacement_zero h (withRotations (computeStiffnessMatrix h s0).1 rots) t
    hrot ?_ ?_ ?_ j
  · have hx : (withRotations (computeStiffnessMatrix h s0).1 rots).d_initial_positions = X := hX
    rw [hx] at key
    exact key
  · intro hm
    have hm0 : s0.d_corotational = Corotational.LARGE := hM ▸ hm
    rw [hE]
    show (computeStiffnessMatrix h s0).1.m_element_initial_rotations.getD t 0 = _
    rw [hR0]
    simp [storedInitialRotation, hm0]
  · intro hm
    have hm0 : s0.d_corotational = Corotational.POLAR := hM ▸ hm
    rw [hE]
    show (computeStiffnessMatrix h s0).1.m_element_initial_rotations.getD t 0 = _
    rw [hR0]
    simp [storedInitialRotation, hm0]
  · intro hm
    have hm0 : s0.d_corotational = Corotational.SVD := hM ▸ hm
    rw [hE]
    show h.extractRotationSVD (restEdges s0 t)
      ((computeStiffnessMatrix h s0).1.m_element_initial_inverted_transformations.getD t 0)
      ((computeStiffnessMatrix h s0).1.m_element_initial_rotations.getD t 0) =
      (computeStiffnessMatrix h s0).1.m_element_initial_rotations.getD t 0
    rw [hR0, hA0]
    simp only [storedInitialRotation, storedInverse, hm0, if_true, if_false, reduceCtorEq,
      or_self]
    exact hsvd hm0 t htn

end RestConfiguration

end Caribou


namespace Caribou

section TangentAction

variable {K : Type} [LinearOrderedField K]

/-! ## The tangent matrix applied to a direction -/

/-- Row `3 p + l` of the matrix assembled into a zero matrix, against a nodal array. -/
theorem matVec_addKToMatrix (s : FEMForcefield K) (kFact : K) (offset : Nat)
    (d : List (Vec3 K)) (p : Nat) (l : Fin 3) :
    matVec (addKToMatrix s (fun _ _ => 0) kFact offset).2 d (p * 3 + l.val) =
      ∑ i in Finset.range s.d_tetrahedrons.length, ∑ j : Fin 4,
        if s.d_tetrahedrons.getD i (fun _ => 0) j = p then
          (∑ k : Fin 4, (tangentBlock s kFact i j k).mulVec
            (vget d (s.d_tetrahedrons.getD i (fun _ => 0) k))) l
        else 0 := by
  have hM : (addKToMatrix s (fun _ _ => 0) kFact offset).2 = fun r c =>
      ∑ i in Finset.range s.d_tetrahedrons.length,
        ∑ j : Fin 4, ∑ k : Fin 4, ∑ l : Fin 3, ∑ m : Fin 3,
          if r = s.d_tetrahedrons.getD i (fun _ => 0) j * 3 + l.val ∧
              c = s.d_tetrahedrons.getD i (fun _ => 0) k * 3 + m.val then
            tangentBlock s kFact i j k l m else 0 := by
    funext r c
    rw [addKToMatrix_apply, zero_add]
  rw [hM, matVec_sum]
  refine Finset.sum_congr rfl (fun i _ => ?_)
  rw [matVec_sum]
  refine Finset.sum_congr rfl (fun j _ => ?_)
  rw [matVec_sum]
  simp only [matVec_sum, matVec_single]
  by_cases hp : s.d_tetrahedrons.getD i (fun _ => 0) j = p
  · have hc : ∀ l' : Fin 3,
        (p * 3 + l.val = s.d_tetrahedrons.getD i (fun _ => 0) j * 3 + l'.val) ↔ l' = l := by
      intro l'
      rw [index_eq_iff]
      constructor
      · rintro ⟨_, e⟩
        exact e.symm
      · intro e
        exact ⟨hp.symm, e.symm⟩
    simp only [hc]
    rw [if_pos hp, Finset.sum_apply]
    refine Finset.sum_congr rfl (fun k _ => ?_)
    rw [Finset.sum_comm]
    simp only [Matrix.mulVec, Matrix.dotProduct]
    refine Finset.sum_congr rfl (fun m _ => ?_)
    rw [Finset.sum_ite_eq']
    simp
  · have hc : ∀ l' : Fin 3,
        ¬(p * 3 + l.val = s.d_tetrahedrons.getD i (fun _ => 0) j * 3 + l'.val) := by
      intro l' e
      exact hp ((index_eq_iff _ _ _ _).mp e).1.symm
    rw [if_neg hp]
    simp only [hc, if_false, Finset.sum_const_zero]

/-- C2: `addDForce` is the matrix-free action of the assembled tangent matrix.
On a precomputed store, whatever rotations the elements hold and in every mode,
component `l` of what `addDForce` adds to `df` at node `p` is row `3 p + l` of
the matrix that `addKToMatrix` adds into a zero matrix with scale factor 1,
applied to the direction `dx`. -/
theorem addDForce_eq_tangent_matrix (h : Helper K) (s0 : FEMForcefield K)
    (hv : ValidTopology s0) (rots : List (Mat33 K)) (df dx : List (Vec3 K))
    (p : Nat) (hp : p < df.length) (l : Fin 3) :
    vget (addDForce (withRotations (computeStiffnessMatrix h s0).1 rots) df dx).2 p l =
      vget df p l +
        matVec (addKToMatrix (withRotations (computeStiffnessMatrix h s0).1 rots)
          (fun _ _ => 0) 1 0).2 dx (p * 3 + l.val) := by
  obtain ⟨hE, hnu, hX, hT, hM, -⟩ := computeStiffnessMatrix_config h s0
  set s := withRotations (computeStiffnessMatrix h s0).1 rots with hs
  have hsT : s.d_tetrahedrons = s0.d_tetrahedrons := hT
  rw [(addDForce_closed s df dx).2 p, matVec_addKToMatrix]
  rw [Pi.sub_apply, sub_eq_add_neg, Finset.sum_apply, ← Finset.sum_neg_distrib]
  congr 1
  refine Finset.sum_congr rfl (fun t ht => ?_)
  rw [Finset.sum_apply, ← Finset.sum_neg_distrib]
  have htn : t < s0.d_tetrahedrons.length := by
    rw [← hsT]
    exact Finset.mem_range.mp ht
  have hK : s.d_element_stiffness_matrices.getD t 0 =
      restVolume s t •
        (getStrainDisplacement (s.d_element_shape_derivatives.getD t (fun _ => 0))).transpose *
        materialMatrix s.d_youngModulus s.d_poissonRatio *
        getStrainDisplacement (s.d_element_shape_derivatives.getD t (fun _ => 0)) := by
    show (computeStiffnessMatrix h s0).1.d_element_stiffness_matrices.getD t 0 =
      restVolume s t •
        (getStrainDisplacement
          ((computeStiffnessMatrix h s0).1.d_element_shape_derivatives.getD t
            (fun _ => 0))).transpose *
        materialMatrix (computeStiffnessMatrix h s0).1.d_youngModulus
          (computeStiffnessMatrix h s0).1.d_poissonRatio *
        getStrainDisplacement
          ((computeStiffnessMatrix h s0).1.d_element_shape_derivatives.getD t (fun _ => 0))
    rw [precomputed_stiffness h s0 hv t htn, precomputed_shape h s0 hv t htn, hE, hnu,
      restVolume_congr s s0 t hX hT]
    rfl
  refine Finset.sum_congr rfl (fun j _ => ?_)
  rw [tangent_sum s 1 t dx hK j]
  by_cases hj : s.d_tetrahedrons.getD t (fun _ => 0) j = p
  · rw [if_pos ⟨hj, hp⟩, if_pos hj]
    simp
  · rw [if_neg (fun hh => hj hh.1), if_neg hj]
    simp

end TangentAction

end Caribou


namespace Caribou

section Linearisation

variable {K : Type} [LinearOrderedField K]

/-! ## Force and force derivative in mode NONE -/

theorem vget_vadd (x d : List (Vec3 K)) (hl : x.length = d.length) (i : Nat) :
    vget (vadd x d) i = vget x i + vget d i := by
  unfold vget vadd
  by_cases hi : i < x.length
  · have hd : i < d.length := hl ▸ hi
    simp [List.getD_eq_getElem?_getD, List.getElem?_zipWith, List.getElem?_eq_getElem hi,
      List.getElem?_eq_getElem hd]
  · have hx : x.length ≤ i := not_lt.mp hi
    have hd : d.length ≤ i := hl ▸ hx
    simp [List.getD_eq_getElem?_getD, List.getElem?_zipWith, List.getElem?_eq_none hx,
      List.getElem?_eq_none hd]

theorem vget_vscale (eps : K) (d : List (Vec3 K)) (i : Nat) :
    vget (vscale eps d) i = eps • vget d i := by
  unfold vget vscale
  by_cases hi : i < d.length
  · simp [List.getD_eq_getElem?_getD, List.getElem?_map, List.getElem?_eq_getElem hi]
  · simp [List.getD_eq_getElem?_getD, List.getElem?_map, List.getElem?_eq_none (not_lt.mp hi)]

theorem outer_add_left (u v g : Vec3 K) : outer (u + v) g = outer u g + outer v g := by
  ext i j
  simp [outer, add_mul]

theorem outer_smul_left (c : K) (u g : Vec3 K) : outer (c • u) g = c • outer u g := by
  ext i j
  simp [outer, mul_assoc]

theorem stressTensor_smul (youngModulus poissonRatio c : K) (G : Mat33 K) :
    stressTensor youngModulus poissonRatio (c • G) =
      c • stressTensor youngModulus poissonRatio G := by
  unfold stressTensor trace
  ext i j
  simp only [Matrix.add_apply, Matrix.smul_apply, Matrix.transpose_apply, smul_eq_mul]
  ring

/-- The stress is linear in the nodal vectors. -/
theorem stress_add_smul (youngModulus poissonRatio c : K) (u v sd : Fin 4 → Vec3 K) :
    stress youngModulus poissonRatio (fun k => u k + c • v k) sd =
      stress youngModulus poissonRatio u sd + c • stress youngModulus poissonRatio v sd := by
  unfold stress
  rw [← stressTensor_smul, ← stressTensor_add]
  simp only [gradient_eq_sum, Fin.sum_univ_four, outer_add_left, outer_smul_left, smul_add]
  simp only [add_add_add_comm]

theorem elementDisplacement_none (h : Helper K) (s : FEMForcefield K) (x : List (Vec3 K))
    (t : Nat) (hm : s.d_corotational = Corotational.NONE) :
    (elementDisplacement h s x t).2 = fun k =>
      vget x (s.d_tetrahedrons.getD t (fun _ => 0) k) - restNode s t k := by
  unfold elementDisplacement restNode
  simp only [hm, if_true]
  rw [← vec4_eta (fun k => vget x (s.d_tetrahedrons.getD t (fun _ => 0) k) -
    vget s.d_initial_positions (s.d_tetrahedrons.getD t (fun _ => 0) k))]

/-- In mode NONE, moving the positions by `c` times a direction changes the
vectors of an element by `c` times the vectors of `addDForce` for that direction. -/
theorem addForceElement_none_diff (h : Helper K) (s : FEMForcefield K)
    (hm : s.d_corotational = Corotational.NONE) (x y d : List (Vec3 K)) (c : K)
    (hy : ∀ i, vget y i = vget x i + c • vget d i) (t : Nat) (j : Fin 4) :
    (addForceElement h s y t).2 j - (addForceElement h s x t).2 j =
      c • addDForceElement s d t j := by
  rw [addForceElement_snd, addForceElement_snd, addDForceElement_eq,
    elementDisplacement_none h s x t hm, elementDisplacement_none h s y t hm]
  have hu : (fun k => vget y (s.d_tetrahedrons.getD t (fun _ => 0) k) - restNode s t k) =
      fun k => (vget x (s.d_tetrahedrons.getD t (fun _ => 0) k) - restNode s t k) +
        c • vget d (s.d_tetrahedrons.getD t (fun _ => 0) k) := by
    funext k
    rw [hy]
    abel
  rw [hu, stress_add_smul]
  unfold nodalForce
  simp only [hm, if_true, smul_add, Matrix.add_mulVec, Matrix.smul_mulVec_assoc]
  rw [smul_comm]
  abel

/-- C3: in mode NONE the force and its linearisation agree exactly.  For every
position array `x` and direction `d` of the same length, the force added at
`x + d` minus the force added at `x` is the vector added by `addDForce` for `d`,
and for every `eps ≠ 0` the difference quotient between `x + eps * d` and `x`
is that same vector. -/
theorem addForce_none_difference (h : Helper K) (s : FEMForcefield K)
    (hm : s.d_corotational = Corotational.NONE) (f x d : List (Vec3 K))
    (hl : x.length = d.length) (p : Nat) :
    (vget (addForce h s f (vadd x d)).2 p - vget f p) - (vget (addForce h s f x).2 p - vget f p) =
        vget (addDForce s f d).2 p - vget f p ∧
    ∀ eps : K, eps ≠ 0 →
      eps⁻¹ • ((vget (addForce h s f (vadd x (vscale eps d))).2 p - vget f p) -
          (vget (addForce h s f x).2 p - vget f p)) =
        vget (addDForce s f d).2 p - vget f p := by
  have key : ∀ (c : K) (y : List (Vec3 K)), (∀ i, vget y i = vget x i + c • vget d i) →
      (vget (addForce h s f y).2 p - vget f p) - (vget (addForce h s f x).2 p - vget f p) =
        c • (vget (addDForce s f d).2 p - vget f p) := by
    intro c y hy
    rw [(addForce_closed h s f y).2 p, (addForce_closed h s f x).2 p,
      (addDForce_closed s f d).2 p]
    simp only [sub_sub_cancel_left, smul_neg, neg_sub_neg, Finset.smul_sum,
      ← Finset.sum_sub_distrib]
    rw [← neg_inj, neg_neg, ← Finset.sum_neg_distrib]
    refine Finset.sum_congr rfl (fun t _ => ?_)
    rw [← Finset.sum_neg_distrib]
    refine Finset.sum_congr rfl (fun j _ => ?_)
    have hd := addForceElement_none_diff h s hm x y d c hy t j
    split_ifs
    · rw [← hd]
      abel
    · simp
  refine ⟨?_, fun eps heps => ?_⟩
  · have := key 1 (vadd x d) (fun i => by rw [vget_vadd x d hl, one_smul])
    rw [this, one_smul]
  · have := key eps (vadd x (vscale eps d)) (fun i => by
      rw [vget_vadd x _ (by rw [hl]; simp [vscale]), vget_vscale])
    rw [this, smul_smul, inv_mul_cancel₀ heps, one_smul]

end Linearisation

end Caribou


namespace Caribou

section RigidMotion

variable {K : Type} [LinearOrderedField K]

/-! ## Rigid motions in mode LARGE -/

/-- In mode LARGE without incremental rotation, an element whose nodes have
undergone a rigid motion of their rest positions has four zero displacements. -/
theorem rigid_displacement_zero (h : Helper K) (s : FEMForcefield K) (x : List (Vec3 K))
    (t : Nat) (Q : Mat33 K) (tr : Vec3 K)
    (hm : s.d_corotational = Corotational.LARGE) (hinc : s.d_incremental_rotation = false)
    (hQ : Q.transpose * Q = 1) (hdet : Q.det = 1)
    (hR0 : s.m_element_initial_rotations.getD t 0 = extractRotationLarge h (restEdges s t))
    (hx : ∀ j, vget x (s.d_tetrahedrons.getD t (fun _ => 0) j) =
      Q.mulVec (restNode s t j) + tr)
    (j : Fin 4) : (elementDisplacement h s x t).2 j = 0 := by
  have hedge : ∀ k : Fin 4, vget x (s.d_tetrahedrons.getD t (fun _ => 0) k) -
      vget x (s.d_tetrahedrons.getD t (fun _ => 0) 0) =
        Q.mulVec (restNode s t k - restNode s t 0) := by
    intro k
    rw [hx k, hx 0, Matrix.mulVec_sub]
    abel
  have hrot : ∀ v : Vec3 K,
      (extractRotationLarge h (matFromRows
        (vget x (s.d_tetrahedrons.getD t (fun _ => 0) 1) -
          vget x (s.d_tetrahedrons.getD t (fun _ => 0) 0))
        (vget x (s.d_tetrahedrons.getD t (fun _ => 0) 2) -
          vget x (s.d_tetrahedrons.getD t (fun _ => 0) 0))
        (vget x (s.d_tetrahedrons.getD t (fun _ => 0) 3) -
          vget x (s.d_tetrahedrons.getD t (fun _ => 0) 0)))).mulVec (Q.mulVec v) =
      (s.m_element_initial_rotations.getD t 0).mulVec v := by
    intro v
    rw [hedge 1, hedge 2, hedge 3, extractRotationLarge_rotated h Q hQ hdet, hR0]
    rfl
  have hz : ∀ k : Fin 4,
      (extractRotationLarge h (matFromRows
        (vget x (s.d_tetrahedrons.getD t (fun _ => 0) 1) -
          vget x (s.d_tetrahedrons.getD t (fun _ => 0) 0))
        (vget x (s.d_tetrahedrons.getD t (fun _ => 0) 2) -
          vget x (s.d_tetrahedrons.getD t (fun _ => 0) 0))
        (vget x (s.d_tetrahedrons.getD t (fun _ => 0) 3) -
          vget x (s.d_tetrahedrons.getD t (fun _ => 0) 0)))).mulVec
        (vget x (s.d_tetrahedrons.getD t (fun _ => 0) k) -
          vget x (s.d_tetrahedrons.getD t (fun _ => 0) 0)) -
      (s.m_element_initial_rotations.getD t 0).mulVec
        (vget s.d_initial_positions (s.d_tetrahedrons.getD t (fun _ => 0) k) -
          vget s.d_initial_positions (s.d_tetrahedrons.getD t (fun _ => 0) 0)) = 0 := by
    intro k
    rw [hedge k, hrot]
    exact sub_self _
  unfold elementDisplacement
  simp only [hm, hinc, computeRotation_edges h s _ _ t (by rw [hm]; decide), if_false, if_true,
    reduceCtorEq, Bool.false_eq_true, Matrix.cons_val_zero, Matrix.cons_val_one,
    Matrix.head_cons, Matrix.cons_val_two, Matrix.tail_cons, Matrix.cons_val_three]
  fin_cases j
  · rfl
  · show Function.update (Function.update _ 1 0) 2 0 = 0
    rw [hz 1]
    ext i
    fin_cases i <;> simp [Function.update]
  · show Function.update _ 2 0 = 0
    rw [hz 2]
    ext i
    fin_cases i <;> simp [Function.update]
  · exact hz 3

/-- C4: in mode LARGE with incremental rotation off, on a precomputed store,
a rigid motion `x_i = Q X_i + tr` of the rest positions by a proper rotation
`Q` and a translation `tr` makes `addForce` add exactly zero: the force array
is unchanged. -/
theorem addForce_large_rigid_zero (h : Helper K) (s0 : FEMForcefield K)
    (hv : ValidTopology s0) (hm : s0.d_corotational = Corotational.LARGE)
    (hinc : s0.d_incremental_rotation = false) (Q : Mat33 K) (tr : Vec3 K)
    (hQ : Q.transpose * Q = 1) (hdet : Q.det = 1) (f : List (Vec3 K)) :
    (addForce h (computeStiffnessMatrix h s0).1 f
      (s0.d_initial_positions.map (fun X => Q.mulVec X + tr))).2 = f := by
  obtain ⟨-, -, hX, hT, hM, hI⟩ := computeStiffnessMatrix_config h s0
  unfold addForce
  apply addForce_fold_unchanged h _ _ (List.nodup_range _)
  intro t ht rots _
  have htn : t < s0.d_tetrahedrons.length := by
    rw [← hT]
    exact List.mem_range.mp ht
  apply addForceElement_snd_zero
  intro j
  refine rigid_displacement_zero h (withRotations (computeStiffnessMatrix h s0).1 rots) _ t Q tr
    (hM.trans hm) (hI.trans hinc) hQ hdet ?_ ?_ j
  · show (computeStiffnessMatrix h s0).1.m_element_initial_rotations.getD t 0 = _
    rw [precomputed_initial_rotation h s0 hv t htn,
      restEdges_congr (withRotations (computeStiffnessMatrix h s0).1 rots) s0 t hX hT]
    simp [storedInitialRotation, hm]
  · intro k
    have hmem : s0.d_tetrahedrons.getD t (fun _ => 0) ∈ s0.d_tetrahedrons :=
      getD_mem_of_lt _ _ _ htn
    have hk : s0.d_tetrahedrons.getD t (fun _ => 0) k < s0.d_initial_positions.length :=
      hv.2.2 _ hmem k
    show vget _ ((computeStiffnessMatrix h s0).1.d_tetrahedrons.getD t (fun _ => 0) k) =
      Q.mulVec (vget (computeStiffnessMatrix h s0).1.d_initial_positions
        ((computeStiffnessMatrix h s0).1.d_tetrahedrons.getD t (fun _ => 0) k)) + tr
    rw [hT, hX, vget_map _ _ _ hk]

end RigidMotion

end Caribou


namespace Caribou

section DeformationGradient

variable {K : Type} [LinearOrderedField K]

/-! ## Mode DEFORMATION_GRADIENT under a rotation -/

theorem computeRotation_gradient (h : Helper K) (s : FEMForcefield K)
    (p q : Fin 4 → Vec3 K) (t : Nat)
    (hm : s.d_corotational = Corotational.DEFORMATION_GRADIENT) :
    computeRotation h s p q t =
      h.extractRotationPolar
        (gradient (fun k => p k - q k) (getShapeDerivatives (q 0) (q 1) (q 2) (q 3)) + 1) := by
  unfold computeRotation
  simp only [hm, if_true]
  rw [vec4_eta (fun k => p k - q k)]

/-- In mode DEFORMATION_GRADIENT, for an element whose current rotation is the
identity: the rotation left by the call is the one extracted in the call, and
the displacements are taken with the identity that was there before. -/
theorem elementDisplacement_gradient (h : Helper K) (s : FEMForcefield K)
    (x : List (Vec3 K)) (t : Nat)
    (hm : s.d_corotational = Corotational.DEFORMATION_GRADIENT)
    (hR : s.m_element_rotations.getD t 0 = 1) :
    elementDisplacement h s x t =
      (h.extractRotationPolar
        (gradient (fun k => vget x (s.d_tetrahedrons.getD t (fun _ => 0) k) - restNode s t k)
          (getShapeDerivatives (restNode s t 0) (restNode s t 1) (restNode s t 2)
            (restNode s t 3)) + 1),
       fun k => vget x (s.d_tetrahedrons.getD t (fun _ => 0) k) - restNode s t k) := by
  unfold elementDisplacement computeRotation
  simp only [hm, hR, Matrix.transpose_one, Matrix.one_mulVec, mul_one, ite_self, if_true,
    if_false, reduceCtorEq, restNode, Matrix.cons_val_zero, Matrix.cons_val_one,
    Matrix.head_cons, Matrix.cons_val_two, Matrix.cons_val_three, Matrix.tail_cons]
  rw [← vec4_eta (fun k => vget x (s.d_tetrahedrons.getD t (fun _ => 0) k) -
    vget s.d_initial_positions (s.d_tetrahedrons.getD t (fun _ => 0) k))]

/-- On a freshly precomputed store in mode DEFORMATION_GRADIENT, with a
positive Young modulus and a Poisson ratio between -1 and 1/2, when the
positions are the rest positions turned by a rotation `Q` other than the
identity, which the polar extraction returns unchanged, the first call of
`addForce` subtracts a nonzero vector at one node at least of every element of
nonzero rest volume. -/
theorem gradient_first_call_nonzero (h : Helper K) (youngModulus poissonRatio : K)
    (X : List (Vec3 K)) (tetrahedrons : List Tetrahedron) (incremental : Bool)
    (hv : ValidTopology (fresh youngModulus poissonRatio X tetrahedrons
      Corotational.DEFORMATION_GRADIENT incremental))
    (hE : 0 < youngModulus) (h1 : -1 < poissonRatio) (h2 : poissonRatio < 1 / 2)
    (Q : Mat33 K) (hQ : Q.transpose * Q = 1) (hQ1 : Q ≠ 1)
    (hpolar : h.extractRotationPolar Q = Q) (t : Nat) (ht : t < tetrahedrons.length)
    (hvol : restVolume (fresh youngModulus poissonRatio X tetrahedrons
      Corotational.DEFORMATION_GRADIENT incremental) t ≠ 0) :
    ∃ j, (addForceElement h (computeStiffnessMatrix h
      (fresh youngModulus poissonRatio X tetrahedrons Corotational.DEFORMATION_GRADIENT
        incremental)).1 (X.map Q.mulVec) t).2 j ≠ 0 := by
  set s0 := fresh youngModulus poissonRatio X tetrahedrons Corotational.DEFORMATION_GRADIENT
    incremental with hs0
  obtain ⟨hEs, hnus, hX, hT, hM, -⟩ := computeStiffnessMatrix_config h s0
  have hms : (computeStiffnessMatrix h s0).1.d_corotational =
      Corotational.DEFORMATION_GRADIENT := hM
  have htn : t < s0.d_tetrahedrons.length := ht
  have hR : (computeStiffnessMatrix h s0).1.m_element_rotations.getD t 0 = 1 := by
    rw [precomputed_rotations h s0 hv]
    exact getD_resize_nil _ _ _ _ htn
  have hshape : (computeStiffnessMatrix h s0).1.d_element_shape_derivatives.getD t
      (fun _ => 0) = getShapeDerivatives (restNode s0 t 0) (restNode s0 t 1)
        (restNode s0 t 2) (restNode s0 t 3) := by
    rw [precomputed_shape h s0 hv t htn]
    have hm0 : s0.d_corotational = Corotational.DEFORMATION_GRADIENT := rfl
    unfold storedShape
    rw [if_pos (Or.inr hm0)]
  have hx : (fun k => vget (X.map Q.mulVec)
      ((computeStiffnessMatrix h s0).1.d_tetrahedrons.getD t (fun _ => 0) k) -
        restNode (computeStiffnessMatrix h s0).1 t k) =
      fun k => Q.mulVec (restNode s0 t k) - restNode s0 t k := by
    funext k
    have hmem : s0.d_tetrahedrons.getD t (fun _ => 0) ∈ s0.d_tetrahedrons :=
      getD_mem_of_lt _ _ _ htn
    have hk : s0.d_tetrahedrons.getD t (fun _ => 0) k < s0.d_initial_positions.length :=
      hv.2.2 _ hmem k
    rw [restNode_congr _ s0 t hX hT, hT]
    have hXX : X = s0.d_initial_positions := rfl
    rw [hXX, vget_map _ _ _ hk]
    rfl
  have hpart := rest_shape_partition s0 t hvol
  have hdisp := elementDisplacement_gradient h (computeStiffnessMatrix h s0).1
    (X.map Q.mulVec) t hms hR
  rw [hx, restNode_congr _ s0 t hX hT, gradient_linear_map Q _ _ hpart, sub_add_cancel,
    hpolar] at hdisp
  obtain ⟨j, hj⟩ := stress_rotation_ne_zero youngModulus poissonRatio hE h1 h2 Q hQ
    hQ1 (restNode s0 t) _ hpart
  refine ⟨j, ?_⟩
  have hE0 : (computeStiffnessMatrix h s0).1.d_youngModulus = youngModulus := hEs
  have hnu0 : (computeStiffnessMatrix h s0).1.d_poissonRatio = poissonRatio := hnus
  rw [addForceElement_snd, hdisp, hshape, hE0, hnu0, restVolume_congr _ s0 t hX hT]
  unfold nodalForce
  dsimp only
  rw [hms, if_neg (by decide), if_pos rfl, rot_smul_mulVec, Matrix.smul_mulVec_assoc]
  intro e
  exact smul_ne_zero hvol hj (mulVec_injective_of_orthogonal Q hQ _ e)

end DeformationGradient

/-- C5 (evaluation): the unit tetrahedron with `E = 1000`, `nu = 0.3` in mode
DEFORMATION_GRADIENT, freshly precomputed, its nodes turned by a quarter turn
about the z-axis, the polar extraction returning the quarter turn: the first
call of `addForce` on a zero force array leaves the force `(0, 12500/39, 0)`
on node 1, not zero. -/
theorem gradient_quarter_turn_force :
    vget (addForce exampleHelper
      (computeStiffnessMatrix exampleHelper
        (unitField Corotational.DEFORMATION_GRADIENT true)).1
      [0, 0, 0, 0] (unitPositions.map quarterTurn.mulVec)).2 1 = ![0, 12500 / 39, 0] := by
  have hv := unitField_valid Corotational.DEFORMATION_GRADIENT true
  set s0 := unitField Corotational.DEFORMATION_GRADIENT true with hs0
  obtain ⟨hEs, hnus, hX, hT, hM, -⟩ := computeStiffnessMatrix_config exampleHelper s0
  have hms : (computeStiffnessMatrix exampleHelper s0).1.d_corotational =
      Corotational.DEFORMATION_GRADIENT := hM
  have htn : 0 < s0.d_tetrahedrons.length := Nat.zero_lt_one
  have hR : (computeStiffnessMatrix exampleHelper s0).1.m_element_rotations.getD 0 0 = 1 := by
    rw [precomputed_rotations exampleHelper s0 hv]
    exact getD_resize_nil _ _ _ _ htn
  have hnode : restNode (computeStiffnessMatrix exampleHelper s0).1 0 =
      ![![0, 0, 0], ![1, 0, 0], ![0, 1, 0], ![0, 0, 1]] := by
    rw [restNode_congr _ s0 0 hX hT]
    exact unitField_restNode _ _
  have hshape : (computeStiffnessMatrix exampleHelper s0).1.d_element_shape_derivatives.getD 0
      (fun _ => 0) = ![![-1, -1, -1], ![1, 0, 0], ![0, 1, 0], ![0, 0, 1]] := by
    have hm0 : s0.d_corotational = Corotational.DEFORMATION_GRADIENT := rfl
    rw [precomputed_shape exampleHelper s0 hv 0 htn]
    unfold storedShape
    rw [if_pos (Or.inr hm0), unitField_restNode]
    exact unit_shape
  have hx : (fun k => vget (unitPositions.map quarterTurn.mulVec)
      ((computeStiffnessMatrix exampleHelper s0).1.d_tetrahedrons.getD 0 (fun _ => 0) k) -
        restNode (computeStiffnessMatrix exampleHelper s0).1 0 k) =
      fun k => quarterTurn.mulVec (![![0, 0, 0], ![1, 0, 0], ![0, 1, 0], ![0, 0, 1]] k) -
        (![![0, 0, 0], ![1, 0, 0], ![0, 1, 0], ![0, 0, 1]] : Fin 4 → Vec3 ℚ) k := by
    rw [hnode, hT]
    funext k
    fin_cases k <;> simp [s0, unitField, fresh, unitPositions, unitTetrahedron, vget]
  have hdisp := elementDisplacement_gradient exampleHelper
    (computeStiffnessMatrix exampleHelper s0).1 (unitPositions.map quarterTurn.mulVec) 0 hms hR
  rw [hx, hnode] at hdisp
  simp only [Matrix.cons_val_zero, Matrix.cons_val_one, Matrix.head_cons, Matrix.cons_val_two,
    Matrix.cons_val_three, Matrix.tail_cons] at hdisp
  rw [unit_shape, unit_quarterTurn_rotation] at hdisp
  have hvol : restVolume (computeStiffnessMatrix exampleHelper s0).1 0 = 1 / 6 := by
    rw [restVolume_congr _ s0 0 hX hT]
    exact unitField_volume _ _
  have hE0 : (computeStiffnessMatrix exampleHelper s0).1.d_youngModulus = 1000 := hEs
  have hnu0 : (computeStiffnessMatrix exampleHelper s0).1.d_poissonRatio = 3 / 10 := hnus
  have hw : (addForceElement exampleHelper (computeStiffnessMatrix exampleHelper s0).1
      (unitPositions.map quarterTurn.mulVec) 0).2 1 = ![0, -12500 / 39, 0] := by
    rw [addForceElement_snd, hdisp, hshape, hE0, hnu0, hvol, unit_quarterTurn_stress]
    unfold nodalForce
    dsimp only
    rw [hms, if_neg (by decide), if_pos rfl]
    ext i
    fin_cases i <;>
      norm_num [Matrix.mulVec, Matrix.dotProduct, Fin.sum_univ_three, Matrix.mul_apply,
        quarterTurn, Matrix.vecHead, Matrix.vecTail]
  have htet : (computeStiffnessMatrix exampleHelper s0).1.d_tetrahedrons.getD 0 (fun _ => 0) =
      unitTetrahedron := by
    rw [hT]
    rfl
  have hlen : (computeStiffnessMatrix exampleHelper s0).1.d_tetrahedrons.length = 1 := by
    rw [hT]
    rfl
  rw [(addForce_closed exampleHelper _ _ _).2 1, hlen, Finset.sum_range_one, htet,
    Finset.sum_eq_single (1 : Fin 4)]
  · rw [if_pos ⟨rfl, by decide⟩, hw]
    ext i
    fin_cases i <;> norm_num [vget]
  · intro j _ hne
    rw [if_neg]
    rintro ⟨e, -⟩
    apply hne
    fin_cases j <;> simp [unitTetrahedron] at e ⊢
  · intro hh
    exact absurd (Finset.mem_univ _) hh

end Caribou


namespace Caribou

section LinearRotation

variable {K : Type} [LinearOrderedField K]

/-! ## Mode NONE under a rotation -/

/-- C6: mode NONE is not rotation-invariant.  On a precomputed store in mode
NONE with a positive Young modulus and a Poisson ratio between -1 and 1/2, if
the current positions are the rest positions turned by an orthogonal matrix
`Q` other than the identity, then every element with nonzero rest volume
subtracts a nonzero vector at one of its four nodes at least; and when the
mesh is one such tetrahedron on four distinct nodes, the force array itself
changes at one of them. -/
theorem addForce_none_rotation_nonzero (h : Helper K) (s0 : FEMForcefield K)
    (hv : ValidTopology s0) (hm : s0.d_corotational = Corotational.NONE)
    (hE : 0 < s0.d_youngModulus) (h1 : -1 < s0.d_poissonRatio)
    (h2 : s0.d_poissonRatio < 1 / 2) (Q : Mat33 K) (hQ : Q.transpose * Q = 1)
    (hQ1 : Q ≠ 1) :
    (∀ t, t < s0.d_tetrahedrons.length → restVolume s0 t ≠ 0 →
      ∃ j, (addForceElement h (computeStiffnessMatrix h s0).1
        (s0.d_initial_positions.map Q.mulVec) t).2 j ≠ 0) ∧
    (∀ (tetrahedron : Tetrahedron) (f : List (Vec3 K)),
      s0.d_tetrahedrons = [tetrahedron] → Function.Injective tetrahedron →
      f.length = s0.d_initial_positions.length → restVolume s0 0 ≠ 0 →
      ∃ p, vget (addForce h (computeStiffnessMatrix h s0).1 f
        (s0.d_initial_positions.map Q.mulVec)).2 p ≠ vget f p) := by
  obtain ⟨hEs, hnus, hX, hT, hM, -⟩ := computeStiffnessMatrix_config h s0
  have hms : (computeStiffnessMatrix h s0).1.d_corotational = Corotational.NONE := hM.trans hm
  have main : ∀ t, t < s0.d_tetrahedrons.length → restVolume s0 t ≠ 0 →
      ∃ j, (addForceElement h (computeStiffnessMatrix h s0).1
        (s0.d_initial_positions.map Q.mulVec) t).2 j ≠ 0 := by
    intro t htn hvol
    have hshape : (computeStiffnessMatrix h s0).1.d_element_shape_derivatives.getD t
        (fun _ => 0) = getShapeDerivatives (restNode s0 t 0) (restNode s0 t 1)
          (restNode s0 t 2) (restNode s0 t 3) := by
      rw [precomputed_shape h s0 hv t htn]
      unfold storedShape
      simp only [hm, true_or, if_true]
    have hu : (elementDisplacement h (computeStiffnessMatrix h s0).1
        (s0.d_initial_positions.map Q.mulVec) t).2 =
        fun k => Q.mulVec (restNode s0 t k) - restNode s0 t k := by
      rw [elementDisplacement_none h _ _ t hms]
      funext k
      have hmem : s0.d_tetrahedrons.getD t (fun _ => 0) ∈ s0.d_tetrahedrons :=
        getD_mem_of_lt _ _ _ htn
      have hk : s0.d_tetrahedrons.getD t (fun _ => 0) k < s0.d_initial_positions.length :=
        hv.2.2 _ hmem k
      rw [restNode_congr _ s0 t hX hT, hT, vget_map _ _ _ hk]
      rfl
    obtain ⟨j, hj⟩ := stress_rotation_ne_zero s0.d_youngModulus s0.d_poissonRatio hE h1 h2 Q hQ
      hQ1 (restNode s0 t) _ (rest_shape_partition s0 t hvol)
    refine ⟨j, ?_⟩
    rw [addForceElement_snd, hu, hshape, hEs, hnus, restVolume_congr _ s0 t hX hT]
    unfold nodalForce
    dsimp only
    rw [if_pos hms, Matrix.smul_mulVec_assoc]
    exact smul_ne_zero hvol hj
  refine ⟨main, fun tet f htets hinj hlen hvol => ?_⟩
  have hn : s0.d_tetrahedrons.length = 1 := by rw [htets]; rfl
  obtain ⟨j0, hj0⟩ := main 0 (by rw [hn]; exact Nat.zero_lt_one) hvol
  have htet : s0.d_tetrahedrons.getD 0 (fun _ => 0) = tet := by
    rw [htets]
    rfl
  have hin : tet j0 < f.length := by
    rw [hlen]
    exact hv.2.2 tet (by rw [htets]; exact List.mem_singleton.mpr rfl) j0
  refine ⟨tet j0, ?_⟩
  rw [(addForce_closed h _ f _).2 (tet j0), hT, hn, Finset.sum_range_one, htet,
    Finset.sum_eq_single j0]
  · rw [if_pos ⟨rfl, hin⟩]
    intro e
    apply hj0
    have := sub_eq_self.mp e
    exact this
  · intro j _ hne
    rw [if_neg]
    exact fun hh => hne (hinj hh.1)
  · intro hh
    exact absurd (Finset.mem_univ j0) hh

end LinearRotation

end Caribou


namespace Caribou

section Symmetry

variable {K : Type} [LinearOrderedField K]

/-! ## Symmetry of the tangent matrix in mode NONE -/

theorem materialMatrix_transpose (youngModulus poissonRatio : K) :
    (materialMatrix youngModulus poissonRatio).transpose =
      materialMatrix youngModulus poissonRatio := by
  unfold materialMatrix
  ext i j
  fin_cases i <;> fin_cases j <;> rfl

theorem storedStiffness_transpose (h : Helper K) (s : FEMForcefield K) (t : Nat) :
    (storedStiffness h s t).transpose = storedStiffness h s t := by
  unfold storedStiffness
  simp only [Matrix.transpose_mul, Matrix.transpose_smul, Matrix.transpose_transpose,
    materialMatrix_transpose, Matrix.smul_mul, Matrix.mul_smul, Matrix.mul_assoc]

theorem computeStiffnessMatrix_of_invalid (h : Helper K) (s : FEMForcefield K)
    (hv : ¬ValidTopology s) : (computeStiffnessMatrix h s).1 = s := by
  unfold computeStiffnessMatrix
  split_ifs with h1 h2
  · rfl
  · rfl
  · exfalso
    apply hv
    have hX : s.d_initial_positions ≠ [] := by
      intro e
      apply h1
      simp [e]
    have hT : s.d_tetrahedrons ≠ [] := by
      intro e
      apply h1
      simp [e]
    exact ⟨hX, hT, (idOutOfRange_eq_false_iff _ _ hX).mp (by simpa using h2)⟩

/-- Every element stiffness matrix left by `computeStiffnessMatrix` on a fresh
force field is symmetric. -/
theorem fresh_stiffness_symmetric (h : Helper K) (youngModulus poissonRatio : K)
    (X : List (Vec3 K)) (tetrahedrons : List Tetrahedron) (mode : Corotational)
    (incremental : Bool) (t : Nat) (ht : t < tetrahedrons.length) :
    ((computeStiffnessMatrix h
      (fresh youngModulus poissonRatio X tetrahedrons mode
        incremental)).1.d_element_stiffness_matrices.getD t 0).transpose =
      (computeStiffnessMatrix h
      (fresh youngModulus poissonRatio X tetrahedrons mode
        incremental)).1.d_element_stiffness_matrices.getD t 0 := by
  by_cases hv : ValidTopology (fresh youngModulus poissonRatio X tetrahedrons mode incremental)
  · rw [precomputed_stiffness h _ hv t ht, storedStiffness_transpose]
  · rw [computeStiffnessMatrix_of_invalid h _ hv]
    show (List.getD ([] : List (Mat1212 K)) t 0).transpose = List.getD [] t 0
    simp

/-- C7: in mode NONE the matrix that `addKToMatrix` adds into a zero matrix,
after `computeStiffnessMatrix` on a fresh force field, is symmetric, for every
tetrahedron list, rest positions, material parameters and scale factor. -/
theorem tangent_matrix_symmetric (h : Helper K) (youngModulus poissonRatio : K)
    (X : List (Vec3 K)) (tetrahedrons : List Tetrahedron) (incremental : Bool)
    (kFact : K) (offset r c : Nat) :
    (addKToMatrix (computeStiffnessMatrix h
        (fresh youngModulus poissonRatio X tetrahedrons Corotational.NONE incremental)).1
      (fun _ _ => 0) kFact offset).2 r c =
    (addKToMatrix (computeStiffnessMatrix h
        (fresh youngModulus poissonRatio X tetrahedrons Corotational.NONE incremental)).1
      (fun _ _ => 0) kFact offset).2 c r := by
  set s0 := fresh youngModulus poissonRatio X tetrahedrons Corotational.NONE incremental
    with hs0
  obtain ⟨-, -, -, hT, hM, -⟩ := computeStiffnessMatrix_config h s0
  have hmode : (computeStiffnessMatrix h s0).1.d_corotational = Corotational.NONE := hM
  rw [addKToMatrix_apply, addKToMatrix_apply, zero_add, zero_add]
  refine Finset.sum_congr rfl (fun t ht => ?_)
  have htn : t < tetrahedrons.length := by
    have := Finset.mem_range.mp ht
    rw [hT] at this
    exact this
  have hsym := fresh_stiffness_symmetric h youngModulus poissonRatio X tetrahedrons
    Corotational.NONE incremental t htn
  have hblock : ∀ (j k : Fin 4) (l m : Fin 3),
      tangentBlock (computeStiffnessMatrix h s0).1 kFact t j k l m =
        tangentBlock (computeStiffnessMatrix h s0).1 kFact t k j m l := by
    intro j k l m
    unfold tangentBlock
    simp only [hmode, if_true, Matrix.smul_apply, getsub, Matrix.of_apply]
    congr 1
    exact (congrFun (congrFun hsym ⟨3 * j.val + l.val, by omega⟩)
      ⟨3 * k.val + m.val, by omega⟩).symm
  rw [Finset.sum_comm]
  refine Finset.sum_congr rfl (fun k _ => ?_)
  refine Finset.sum_congr rfl (fun j _ => ?_)
  rw [Finset.sum_comm]
  refine Finset.sum_congr rfl (fun m _ => ?_)
  refine Finset.sum_congr rfl (fun l _ => ?_)
  rw [hblock j k l m]
  by_cases hc : r = (computeStiffnessMatrix h s0).1.d_tetrahedrons.getD t (fun _ => 0) j * 3
      + l.val ∧
      c = (computeStiffnessMatrix h s0).1.d_tetrahedrons.getD t (fun _ => 0) k * 3 + m.val
  · rw [if_pos hc, if_pos ⟨hc.2, hc.1⟩]
  · rw [if_neg hc, if_neg (fun hh => hc ⟨hh.2, hh.1⟩)]

end Symmetry

end Caribou


namespace Caribou

section Frame

variable {K : Type} [LinearOrderedField K]

/-! ## What the three operations write -/

/-- C8: `addDForce` and `addKToMatrix` leave the force field as it was (every
element's `R`, `R0`, `A0_inv`, shape derivatives and `K_e`); `addForce` changes
at most `m_element_rotations`, and in mode NONE it changes nothing. -/
theorem operations_frame (h : Helper K) (s : FEMForcefield K) (f x df dx : List (Vec3 K))
    (matrix : BaseMatrix K) (kFact : K) (offset : Nat) :
    (addDForce s df dx).1 = s ∧
    (addKToMatrix s matrix kFact offset).1 = s ∧
    (addForce h s f x).1 = withRotations s (addForce h s f x).1.m_element_rotations ∧
    (s.d_corotational = Corotational.NONE → (addForce h s f x).1 = s) := by
  refine ⟨rfl, rfl, ?_, ?_⟩
  · exact (addForce_fold_frame h x _ (s, f)).1
  · exact (addForce_fold_frame h x _ (s, f)).2

end Frame

end Caribou


namespace Caribou

section Accumulation

variable {K : Type} [LinearOrderedField K]

/-! ## The outputs are accumulated into -/

theorem vget_replicate_zero (n p : Nat) : vget (List.replicate n (0 : Vec3 K)) p = 0 := by
  unfold vget
  by_cases hp : p < n
  · simp [List.getD_eq_getElem?_getD, List.getElem?_replicate, hp]
  · simp [List.getD_eq_getElem?_getD, List.getElem?_replicate, hp]

/-- C9: the three operations accumulate.  The force array after `addForce` is
the array before plus what the call adds to a zero array of the same length,
and the force field left behind does not depend on the array; the same holds
for `addDForce`; the matrix after `addKToMatrix` is the matrix before plus what
the call adds to a zero matrix, which is the sum over all elements and all
their local node pairs of the block entries landing on the entry (so two
elements sharing a node pair both contribute); and a node that no tetrahedron
names keeps its force, its force derivative and its matrix rows and columns. -/
theorem operations_accumulate (h : Helper K) (s : FEMForcefield K) (f x df dx : List (Vec3 K))
    (matrix : BaseMatrix K) (kFact : K) (offset : Nat) :
    ((addForce h s f x).1 = (addForce h s (List.replicate f.length 0) x).1 ∧
      (addForce h s f x).2.length = f.length ∧
      ∀ p, vget (addForce h s f x).2 p =
        vget f p + vget (addForce h s (List.replicate f.length 0) x).2 p) ∧
    ((addDForce s df dx).2.length = df.length ∧
      ∀ p, vget (addDForce s df dx).2 p =
        vget df p + vget (addDForce s (List.replicate df.length 0) dx).2 p) ∧
    (∀ r c, (addKToMatrix s matrix kFact offset).2 r c =
      matrix r c + (addKToMatrix s (fun _ _ => 0) kFact offset).2 r c) ∧
    (∀ r c, (addKToMatrix s (fun _ _ => 0) kFact offset).2 r c =
      ∑ i in Finset.range s.d_tetrahedrons.length,
        ∑ j : Fin 4, ∑ k : Fin 4, ∑ l : Fin 3, ∑ m : Fin 3,
          if r = s.d_tetrahedrons.getD i (fun _ => 0) j * 3 + l.val ∧
              c = s.d_tetrahedrons.getD i (fun _ => 0) k * 3 + m.val then
            tangentBlock s kFact i j k l m else 0) ∧
    (∀ p, (∀ t, t < s.d_tetrahedrons.length →
        ∀ j : Fin 4, s.d_tetrahedrons.getD t (fun _ => 0) j ≠ p) →
      vget (addForce h s f x).2 p = vget f p ∧
      vget (addDForce s df dx).2 p = vget df p ∧
      ∀ (l : Fin 3) (c : Nat),
        (addKToMatrix s matrix kFact offset).2 (p * 3 + l.val) c = matrix (p * 3 + l.val) c ∧
        (addKToMatrix s matrix kFact offset).2 c (p * 3 + l.val) =
          matrix c (p * 3 + l.val)) := by
  refine ⟨⟨?_, (addForce_closed h s f x).1, fun p => ?_⟩,
    ⟨(addDForce_closed s df dx).1, fun p => ?_⟩, fun r c => ?_, fun r c => ?_, fun p hp => ?_⟩
  · exact addForce_fold_fst h x _ s _ _
  · rw [(addForce_closed h s f x).2 p, (addForce_closed h s _ x).2 p, vget_replicate_zero,
      List.length_replicate]
    abel
  · rw [(addDForce_closed s df dx).2 p, (addDForce_closed s _ dx).2 p, vget_replicate_zero,
      List.length_replicate]
    abel
  · rw [addKToMatrix_apply, addKToMatrix_apply, zero_add]
  · rw [addKToMatrix_apply, zero_add]
  · refine ⟨?_, ?_, fun l c => ⟨?_, ?_⟩⟩
    · rw [(addForce_closed h s f x).2 p]
      rw [Finset.sum_eq_zero, sub_zero]
      intro t ht
      refine Finset.sum_eq_zero (fun j _ => ?_)
      rw [if_neg]
      exact fun hh => hp t (Finset.mem_range.mp ht) j hh.1
    · rw [(addDForce_closed s df dx).2 p]
      rw [Finset.sum_eq_zero, sub_zero]
      intro t ht
      refine Finset.sum_eq_zero (fun j _ => ?_)
      rw [if_neg]
      exact fun hh => hp t (Finset.mem_range.mp ht) j hh.1
    · rw [addKToMatrix_apply, Finset.sum_eq_zero, add_zero]
      intro t ht
      refine Finset.sum_eq_zero (fun j _ => Finset.sum_eq_zero (fun k _ =>
        Finset.sum_eq_zero (fun l' _ => Finset.sum_eq_zero (fun m _ => ?_))))
      rw [if_neg]
      rintro ⟨e, -⟩
      exact hp t (Finset.mem_range.mp ht) j ((index_eq_iff _ _ _ _).mp e).1.symm
    · rw [addKToMatrix_apply, Finset.sum_eq_zero, add_zero]
      intro t ht
      refine Finset.sum_eq_zero (fun j _ => Finset.sum_eq_zero (fun k _ =>
        Finset.sum_eq_zero (fun l' _ => Finset.sum_eq_zero (fun m _ => ?_))))
      rw [if_neg]
      rintro ⟨-, e⟩
      exact hp t (Finset.mem_range.mp ht) k ((index_eq_iff _ _ _ _).mp e).1.symm

end Accumulation

end Caribou


namespace Caribou

section TopologyCheck

variable {K : Type} [LinearOrderedField K]

/-! ## The topology check of `computeStiffnessMatrix` -/

theorem precomputed_lengths (h : Helper K) (s : FEMForcefield K) (hv : ValidTopology s) :
    (computeStiffnessMatrix h s).1.d_element_stiffness_matrices.length =
        s.d_tetrahedrons.length ∧
    (computeStiffnessMatrix h s).1.d_element_shape_derivatives.length =
        s.d_tetrahedrons.length ∧
    (computeStiffnessMatrix h s).1.m_element_rotations.length = s.d_tetrahedrons.length ∧
    (computeStiffnessMatrix h s).1.m_element_initial_rotations.length =
        s.d_tetrahedrons.length ∧
    (computeStiffnessMatrix h s).1.m_element_initial_inverted_transformations.length =
        s.d_tetrahedrons.length := by
  rw [precomputed_store h s hv]
  refine ⟨?_, ?_, ?_, ?_, ?_⟩
  · exact (foldl_set_length (fun i l => (fun i _ => storedStiffness h s i) i (l.getD i 0))
      _ _).trans (length_resize _ _ _)
  · exact (foldl_set_length (fun i l => (fun i _ => storedShape h s i) i (l.getD i (fun _ => 0)))
      _ _).trans (length_resize _ _ _)
  · exact length_resize _ _ _
  · exact (foldl_set_length (fun i l => storedInitialRotation h s i (l.getD i 0))
      _ _).trans (length_resize _ _ _)
  · exact (foldl_set_length (fun i l => storedInverse s i (l.getD i 0))
      _ _).trans (length_resize _ _ _)

/-- C10: with rest positions and tetrahedra present, `computeStiffnessMatrix`
reports the configuration error exactly when some tetrahedron names a node id
that is not below the number of rest positions; it then returns the force field
untouched; and when every id is in range it runs to the end, every
per-element array has one entry per tetrahedron, and the entries of the
stiffness and shape-derivative arrays are the computed ones. -/
theorem computeStiffnessMatrix_topology (h : Helper K) (s : FEMForcefield K)
    (hX : s.d_initial_positions ≠ []) (hT : s.d_tetrahedrons ≠ []) :
    ((computeStiffnessMatrix h s).2 = Outcome.configurationError ↔
      ∃ tetrahedron ∈ s.d_tetrahedrons, ∃ j : Fin 4,
        s.d_initial_positions.length ≤ tetrahedron j) ∧
    ((∃ tetrahedron ∈ s.d_tetrahedrons, ∃ j : Fin 4,
        s.d_initial_positions.length ≤ tetrahedron j) →
      (computeStiffnessMatrix h s).1 = s) ∧
    ((∀ tetrahedron ∈ s.d_tetrahedrons, ∀ j : Fin 4,
        tetrahedron j < s.d_initial_positions.length) →
      (computeStiffnessMatrix h s).2 = Outcome.computed ∧
      (computeStiffnessMatrix h s).1.d_element_stiffness_matrices.length =
        s.d_tetrahedrons.length ∧
      (computeStiffnessMatrix h s).1.d_element_shape_derivatives.length =
        s.d_tetrahedrons.length ∧
      (computeStiffnessMatrix h s).1.m_element_rotations.length = s.d_tetrahedrons.length ∧
      (computeStiffnessMatrix h s).1.m_element_initial_rotations.length =
        s.d_tetrahedrons.length ∧
      (computeStiffnessMatrix h s).1.m_element_initial_inverted_transformations.length =
        s.d_tetrahedrons.length ∧
      ∀ t, t < s.d_tetrahedrons.length →
        (computeStiffnessMatrix h s).1.d_element_stiffness_matrices.getD t 0 =
          storedStiffness h s t ∧
        (computeStiffnessMatrix h s).1.d_element_shape_derivatives.getD t (fun _ => 0) =
          storedShape h s t) := by
  have h1 : s.d_initial_positions.isEmpty = false := by
    cases hx : s.d_initial_positions with
    | nil => exact absurd hx hX
    | cons a l => rfl
  have h2 : s.d_tetrahedrons.isEmpty = false := by
    cases ht : s.d_tetrahedrons with
    | nil => exact absurd ht hT
    | cons a l => rfl
  have hiff : idOutOfRange s.d_initial_positions s.d_tetrahedrons = true ↔
      ∃ tetrahedron ∈ s.d_tetrahedrons, ∃ j : Fin 4,
        s.d_initial_positions.length ≤ tetrahedron j := by
    rw [← Bool.not_eq_false, idOutOfRange_eq_false_iff _ _ hX]
    push_neg
    rfl
  have hbad : idOutOfRange s.d_initial_positions s.d_tetrahedrons = true →
      computeStiffnessMatrix h s = (s, Outcome.configurationError) := by
    intro hb
    unfold computeStiffnessMatrix
    simp [h1, h2, hb]
  refine ⟨⟨fun hc => ?_, fun hex => ?_⟩, fun hex => ?_, fun hall => ?_⟩
  · by_contra hne
    have hall : ∀ tetrahedron ∈ s.d_tetrahedrons, ∀ j : Fin 4,
        tetrahedron j < s.d_initial_positions.length := by
      intro tet ht j
      by_contra hlt
      exact hne ⟨tet, ht, j, not_lt.mp hlt⟩
    rw [computeStiffnessMatrix_of_valid h s ⟨hX, hT, hall⟩] at hc
    have hc2 : Outcome.computed = Outcome.configurationError := hc
    exact absurd hc2 (by decide)
  · rw [hbad (hiff.mpr hex)]
  · rw [hbad (hiff.mpr hex)]
  · have hv : ValidTopology s := ⟨hX, hT, hall⟩
    obtain ⟨l1, l2, l3, l4, l5⟩ := precomputed_lengths h s hv
    refine ⟨?_, l1, l2, l3, l4, l5, fun t ht => ⟨?_, ?_⟩⟩
    · rw [computeStiffnessMatrix_of_valid h s hv]
    · exact precomputed_stiffness h s hv t ht
    · exact precomputed_shape h s hv t ht

end TopologyCheck

end Caribou


namespace Caribou

/-! ## The theorems at the unit tetrahedron -/

/-- C1 at the unit tetrahedron in mode SVD with incremental rotation. -/
theorem addForce_rest_zero_witness :
    ValidTopology (fresh (1000 : ℚ) (3 / 10) unitPositions [unitTetrahedron]
      Corotational.SVD true) ∧
    (addForce exampleHelper
      (computeStiffnessMatrix exampleHelper
        (fresh 1000 (3 / 10) unitPositions [unitTetrahedron] Corotational.SVD true)).1
      [0, 0, 0, 0] unitPositions).2 = [0, 0, 0, 0] :=
  ⟨unitField_valid Corotational.SVD true,
    addForce_rest_zero exampleHelper 1000 (3 / 10) unitPositions [unitTetrahedron]
      Corotational.SVD true [0, 0, 0, 0] (unitField_valid Corotational.SVD true)
      (fun _ _ _ => rfl)⟩

/-- C2 at the unit tetrahedron in mode LARGE, its element holding a quarter
turn, node 1, component x, direction `(1, 0, 0)` at node 1. -/
theorem addDForce_eq_tangent_matrix_witness :
    vget (addDForce (withRotations (computeStiffnessMatrix exampleHelper
        (unitField Corotational.LARGE true)).1 [quarterTurn])
        [0, 0, 0, 0] [0, ![1, 0, 0], 0, 0]).2 1 0 =
      vget [0, 0, 0, 0] 1 0 +
        matVec (addKToMatrix (withRotations (computeStiffnessMatrix exampleHelper
          (unitField Corotational.LARGE true)).1 [quarterTurn])
          (fun _ _ => 0) 1 0).2 [0, ![1, 0, 0], 0, 0] (1 * 3 + (0 : Fin 3).val) :=
  addDForce_eq_tangent_matrix exampleHelper (unitField Corotational.LARGE true)
    (unitField_valid Corotational.LARGE true) [quarterTurn] [0, 0, 0, 0]
    [0, ![1, 0, 0], 0, 0] 1 (by decide) 0

/-- C3 at the unit tetrahedron in mode NONE, from the rest positions in the
direction that moves node 1 along x, at node 1. -/
theorem addForce_none_difference_witness :
    (vget (addForce exampleHelper (unitField Corotational.NONE true) [0, 0, 0, 0]
        (vadd unitPositions [0, ![1, 0, 0], 0, 0])).2 1 - vget [0, 0, 0, 0] 1) -
      (vget (addForce exampleHelper (unitField Corotational.NONE true) [0, 0, 0, 0]
        unitPositions).2 1 - vget [0, 0, 0, 0] 1) =
      vget (addDForce (unitField Corotational.NONE true) [0, 0, 0, 0]
        [0, ![1, 0, 0], 0, 0]).2 1 - vget [0, 0, 0, 0] 1 :=
  (addForce_none_difference exampleHelper (unitField Corotational.NONE true) rfl
    [0, 0, 0, 0] unitPositions [0, ![1, 0, 0], 0, 0] rfl 1).1

/-- C4 at the unit tetrahedron: a quarter turn about z followed by the
translation `(1, 2, 3)`. -/
theorem addForce_large_rigid_zero_witness :
    (addForce exampleHelper
      (computeStiffnessMatrix exampleHelper (unitField Corotational.LARGE false)).1
      [0, 0, 0, 0]
      ((unitField Corotational.LARGE false).d_initial_positions.map
        (fun X => quarterTurn.mulVec X + ![1, 2, 3]))).2 = [0, 0, 0, 0] :=
  addForce_large_rigid_zero exampleHelper (unitField Corotational.LARGE false)
    (unitField_valid Corotational.LARGE false) rfl rfl quarterTurn ![1, 2, 3]
    quarterTurn_orthogonal quarterTurn_det [0, 0, 0, 0]

/-- C6 at the unit tetrahedron turned by a quarter turn about z: the element
subtracts a nonzero vector at one of its nodes, and the force array changes. -/
theorem addForce_none_rotation_nonzero_witness :
    (∃ j, (addForceElement exampleHelper
      (computeStiffnessMatrix exampleHelper (unitField Corotational.NONE true)).1
      ((unitField Corotational.NONE true).d_initial_positions.map quarterTurn.mulVec) 0).2 j
        ≠ 0) ∧
    (∃ p, vget (addForce exampleHelper
      (computeStiffnessMatrix exampleHelper (unitField Corotational.NONE true)).1
      [0, 0, 0, 0]
      ((unitField Corotational.NONE true).d_initial_positions.map quarterTurn.mulVec)).2 p
        ≠ vget [0, 0, 0, 0] p) :=
  ⟨(addForce_none_rotation_nonzero exampleHelper (unitField Corotational.NONE true)
      (unitField_valid Corotational.NONE true) rfl
      (show (0 : ℚ) < 1000 by norm_num) (show (-1 : ℚ) < 3 / 10 by norm_num)
      (show (3 / 10 : ℚ) < 1 / 2 by norm_num) quarterTurn quarterTurn_orthogonal
      quarterTurn_ne_one).1 0 Nat.zero_lt_one
      (by rw [unitField_volume]; norm_num),
    (addForce_none_rotation_nonzero exampleHelper (unitField Corotational.NONE true)
      (unitField_valid Corotational.NONE true) rfl
      (show (0 : ℚ) < 1000 by norm_num) (show (-1 : ℚ) < 3 / 10 by norm_num)
      (show (3 / 10 : ℚ) < 1 / 2 by norm_num) quarterTurn quarterTurn_orthogonal
      quarterTurn_ne_one).2 unitTetrahedron [0, 0, 0, 0] rfl (by decide) rfl
      (by rw [unitField_volume]; norm_num)⟩

/-- C8 at the unit tetrahedron in mode NONE: `addForce` returns the force field it was given. -/
theorem operations_frame_witness :
    (addForce exampleHelper (unitField Corotational.NONE true) [0, 0, 0, 0]
      unitPositions).1 = unitField Corotational.NONE true :=
  (operations_frame exampleHelper (unitField Corotational.NONE true) [0, 0, 0, 0]
    unitPositions [0, 0, 0, 0] [0, 0, 0, 0] (fun _ _ => 0) 1 0).2.2.2 rfl

/-- C9 at the unit tetrahedron with a fifth node that the tetrahedron does not
name: its entry of the force array is kept. -/
theorem operations_accumulate_witness :
    vget (addForce exampleHelper (unitField Corotational.NONE true)
      [0, 0, 0, 0, ![1, 1, 1]] unitPositions).2 4 = vget [0, 0, 0, 0, ![1, 1, 1]] 4 :=
  ((operations_accumulate exampleHelper (unitField Corotational.NONE true)
    [0, 0, 0, 0, ![1, 1, 1]] unitPositions [0, 0, 0, 0] [0, 0, 0, 0]
    (fun _ _ => 0) 1 0).2.2.2.2 4 (by
      intro t ht j
      have ht0 : t = 0 := by
        have : t < 1 := ht
        omega
      subst ht0
      fin_cases j <;> simp [unitField, fresh, unitTetrahedron])).1

/-- C10 at the unit tetrahedron: the topology is in range and the call runs to the end. -/
theorem computeStiffnessMatrix_topology_witness :
    (computeStiffnessMatrix exampleHelper (unitField Corotational.NONE true)).2 =
      Outcome.computed :=
  ((computeStiffnessMatrix_topology exampleHelper (unitField Corotational.NONE true)
    (unitField_valid Corotational.NONE true).1
    (unitField_valid Corotational.NONE true).2.1).2.2
    (unitField_valid Corotational.NONE true).2.2).1

end Caribou

namespace Caribou

section Material

variable {K : Type} [LinearOrderedField K]

/-! ## The material law: Lame parameters, tensor form and Voigt form -/

omit [LinearOrderedField K] in
theorem vec6_val (a0 a1 a2 a3 a4 a5 : K) :
    (![a0, a1, a2, a3, a4, a5] : Fin 6 → K) 3 = a3 ∧
    (![a0, a1, a2, a3, a4, a5] : Fin 6 → K) 4 = a4 ∧
    (![a0, a1, a2, a3, a4, a5] : Fin 6 → K) 5 = a5 := ⟨rfl, rfl, rfl⟩

/-- The elasticity tensor of the specification, entry by entry. -/
theorem buildElasticityTensor_eq (lambda mu : K) :
    buildElasticityTensor lambda mu =
      !![lambda + 2 * mu, lambda, lambda, 0, 0, 0;
         lambda, lambda + 2 * mu, lambda, 0, 0, 0;
         lambda, lambda, lambda + 2 * mu, 0, 0, 0;
         0, 0, 0, mu, 0, 0;
         0, 0, 0, 0, mu, 0;
         0, 0, 0, 0, 0, mu] := by
  ext i j
  fin_cases i <;> fin_cases j <;> rfl

/-- The matrix `C` of lines 116-122 is the elasticity tensor of the
specification at the two Lame parameters. -/
theorem materialMatrix_eq_tensor (E nu : K) :
    materialMatrix E nu = buildElasticityTensor (lameLambda E nu) (lameMu E nu) := by
  rw [buildElasticityTensor_eq]
  rfl

/-- The stress of lines 344-346 and 429-431 is the stress of the specification
at the two Lame parameters. -/
theorem stressTensor_eq_spec (E nu : K) (G : Mat33 K) :
    stressTensor E nu G = stressSpec (G + G.transpose) (lameLambda E nu) (lameMu E nu) := by
  unfold stressTensor stressSpec lameLambda lameMu
  dsimp only
  rw [smul_smul, mul_assoc]

theorem stressSpec_apply (E2 : Mat33 K) (lambda mu : K) (i j : Fin 3) :
    stressSpec E2 lambda mu i j =
      mu * E2 i j + (if i = j then (1 / 2 : K) * lambda * trace E2 else 0) := by
  unfold stressSpec
  by_cases hij : i = j
  · simp [hij]
  · simp [hij, Matrix.one_apply_ne hij]

theorem shearPairs_ne (i : Fin 3) : (shearPairs i).1 ≠ (shearPairs i).2 := by
  fin_cases i <;> simp [shearPairs]

theorem buildElasticityTensor_transpose (lambda mu : K) :
    (buildElasticityTensor lambda mu).transpose = buildElasticityTensor lambda mu := by
  rw [buildElasticityTensor_eq]
  ext i j
  fin_cases i <;> fin_cases j <;> rfl

/-- The Voigt form and the tensor form of the material law agree, for any
naming of the three shear entries by pairs of distinct indices. -/
theorem voigt_of_stressSpec (lambda mu : K) (eps : Mat33 K) (shear : Fin 3 → Fin 3 × Fin 3)
    (hs : ∀ i, (shear i).1 ≠ (shear i).2) :
    voigtStress shear (stressSpec ((2 : K) • eps) lambda mu) =
      (buildElasticityTensor lambda mu).mulVec (voigtStrain shear eps) := by
  have h0 := hs 0
  have h1 := hs 1
  have h2 := hs 2
  rw [buildElasticityTensor_eq]
  refine funext fun i => ?_
  revert i
  simp only [Fin.forall_fin_succ, voigtStress, voigtStrain, stressSpec_apply, Matrix.mulVec,
    Matrix.dotProduct, Fin.sum_univ_succ, trace, Matrix.cons_val_zero, Matrix.cons_val_succ,
    Matrix.of_apply, Matrix.cons_val', Matrix.smul_apply, smul_eq_mul, if_true, if_neg h0,
    if_neg h1, if_neg h2, IsEmpty.forall_iff, and_true, Finset.univ_eq_empty,
    Finset.sum_empty, Fin.succ_zero_eq_one, Matrix.cons_val_one, Matrix.head_cons]
  refine ⟨?_, ?_, ?_, ?_, ?_, ?_⟩ <;> ring

theorem lame_denominators (nu : K) (h1 : -1 < nu) (h2 : nu < 1 / 2) :
    0 < (1 + nu) * (1 - 2 * nu) ∧ 0 < 2 * (1 + nu) := by
  have a : 0 < 1 + nu := by linarith
  have b : 0 < 1 - 2 * nu := by linarith
  exact ⟨mul_pos a b, by linarith⟩

theorem lame_positive (E nu : K) (hE : 0 < E) (h1 : -1 < nu) (h2 : nu < 1 / 2) :
    0 < lameMu E nu ∧ 0 < 3 * lameLambda E nu + 2 * lameMu E nu := by
  have a : 0 < 1 + nu := by linarith
  have b : 0 < 1 - 2 * nu := by linarith
  refine ⟨div_pos hE (by linarith), ?_⟩
  have e : 3 * lameLambda E nu + 2 * lameMu E nu = E / (1 - 2 * nu) := by
    unfold lameLambda lameMu
    field_simp
    ring
  rw [e]
  exact div_pos hE b

theorem stressSpec_transpose (lambda mu : K) (E2 : Mat33 K) (hsym : E2.transpose = E2) :
    (stressSpec E2 lambda mu).transpose = stressSpec E2 lambda mu := by
  unfold stressSpec
  rw [Matrix.transpose_add, Matrix.transpose_smul, Matrix.transpose_smul, hsym,
    Matrix.transpose_one]

end Material

end Caribou

namespace Caribou

section VoigtClaim

variable {K : Type} [LinearOrderedField K]

/-- C16: the tensor-form stress of force assembly equals the Voigt-matrix path
of the stiffness.  For every symmetric strain `eps`, with `E2 = 2 eps`, and all
`lambda`, `mu`, in any order `σ` of the three shear entries xy, yz, xz: the six
components of `S = mu E2 + 0.5 lambda trace(E2) I` are the elasticity tensor
applied to the Voigt vector of `eps`, and `S` is symmetric, so the six
components are all of it; the tensor is symmetric.  On the code: the matrix
`C` of `computeStiffnessMatrix` is that tensor at the Lame parameters of `E`,
`nu` and is symmetric, and for every displacement gradient `G` with
`G + Gt = 2 eps` the six components of the stress that `addForce` builds are
`C` applied to the Voigt vector of `eps`. -/
theorem tensor_stress_eq_voigt (lambda mu : K) (eps : Mat33 K) (hsym : eps.transpose = eps)
    (σ : Equiv.Perm (Fin 3)) :
    voigtStress (fun i => shearPairs (σ i)) (stressSpec ((2 : K) • eps) lambda mu) =
      (buildElasticityTensor lambda mu).mulVec
        (voigtStrain (fun i => shearPairs (σ i)) eps) ∧
    (stressSpec ((2 : K) • eps) lambda mu).transpose = stressSpec ((2 : K) • eps) lambda mu ∧
    (buildElasticityTensor lambda mu).transpose = buildElasticityTensor lambda mu ∧
    (∀ E nu : K,
      materialMatrix E nu = buildElasticityTensor (lameLambda E nu) (lameMu E nu) ∧
      (materialMatrix E nu).transpose = materialMatrix E nu ∧
      ∀ G : Mat33 K, G + G.transpose = (2 : K) • eps →
        voigtStress (fun i => shearPairs (σ i)) (stressTensor E nu G) =
          (materialMatrix E nu).mulVec (voigtStrain (fun i => shearPairs (σ i)) eps)) := by
  have hs : ∀ i, (shearPairs (σ i)).1 ≠ (shearPairs (σ i)).2 := fun i => shearPairs_ne (σ i)
  refine ⟨voigt_of_stressSpec lambda mu eps _ hs, ?_, buildElasticityTensor_transpose _ _, ?_⟩
  · apply stressSpec_transpose
    rw [Matrix.transpose_smul, hsym]
  · intro E nu
    refine ⟨materialMatrix_eq_tensor E nu, ?_, ?_⟩
    · rw [materialMatrix_eq_tensor, buildElasticityTensor_transpose]
    · intro G hG
      rw [stressTensor_eq_spec, hG, materialMatrix_eq_tensor]
      exact voigt_of_stressSpec _ _ eps _ hs

end VoigtClaim

end Caribou

namespace Caribou

section LameClaim

variable {K : Type} [LinearOrderedField K]

/-- C17: the three operations compute the same Lame parameters
`lambda = E nu / ((1 + nu)(1 - 2 nu))` and `mu = E / (2 (1 + nu))` from the two
material scalars of the force field.  `computeStiffnessMatrix` stores
`V Bt C B` with `C` the elasticity tensor at these two values; the vectors
that `addForce` and `addDForce` subtract are built on the stress
`mu E2 + 0.5 lambda trace(E2) I` at the same two values.  For
`-1 < nu < 1/2` both denominators are strictly positive, and with `E > 0`,
`mu > 0` and `3 lambda + 2 mu > 0`. -/
theorem lame_parameters (h : Helper K) (s : FEMForcefield K) (hv : ValidTopology s)
    (h1 : -1 < s.d_poissonRatio) (h2 : s.d_poissonRatio < 1 / 2) :
    (∀ t, t < s.d_tetrahedrons.length →
      (computeStiffnessMatrix h s).1.d_element_stiffness_matrices.getD t 0 =
        restVolume s t • (getStrainDisplacement (storedShape h s t)).transpose *
          buildElasticityTensor (lameLambda s.d_youngModulus s.d_poissonRatio)
            (lameMu s.d_youngModulus s.d_poissonRatio) *
          getStrainDisplacement (storedShape h s t)) ∧
    (∀ (x : List (Vec3 K)) (t : Nat),
      (addForceElement h s x t).2 = fun j =>
        nodalForce s.d_corotational (restVolume s t) (elementDisplacement h s x t).1
          (elementDisplacement h s x t).1.transpose
          (stressSpec
            (gradient (elementDisplacement h s x t).2
                (s.d_element_shape_derivatives.getD t (fun _ => 0)) +
              (gradient (elementDisplacement h s x t).2
                (s.d_element_shape_derivatives.getD t (fun _ => 0))).transpose)
            (lameLambda s.d_youngModulus s.d_poissonRatio)
            (lameMu s.d_youngModulus s.d_poissonRatio))
          (s.d_element_shape_derivatives.getD t (fun _ => 0) j)) ∧
    (∀ (dx : List (Vec3 K)) (t : Nat),
      addDForceElement s dx t = fun j =>
        nodalForce s.d_corotational (restVolume s t) (s.m_element_rotations.getD t 0)
          (s.m_element_rotations.getD t 0).transpose
          (stressSpec
            (gradient
                (fun k =>
              if s.d_corotational = Corotational.NONE then
                vget dx (s.d_tetrahedrons.getD t (fun _ => 0) k)
              else if s.d_corotational = Corotational.DEFORMATION_GRADIENT then
                (s.m_element_rotations.getD t 0).transpose.mulVec
                  (vget dx (s.d_tetrahedrons.getD t (fun _ => 0) k))
              else
                (s.m_element_rotations.getD t 0).mulVec
                  (vget dx (s.d_tetrahedrons.getD t (fun _ => 0) k)))
                (s.d_element_shape_derivatives.getD t (fun _ => 0)) +
              (gradient
                (fun k =>
              if s.d_corotational = Corotational.NONE then
                vget dx (s.d_tetrahedrons.getD t (fun _ => 0) k)
              else if s.d_corotational = Corotational.DEFORMATION_GRADIENT then
                (s.m_element_rotations.getD t 0).transpose.mulVec
                  (vget dx (s.d_tetrahedrons.getD t (fun _ => 0) k))
              else
                (s.m_element_rotations.getD t 0).mulVec
                  (vget dx (s.d_tetrahedrons.getD t (fun _ => 0) k)))
                (s.d_element_shape_derivatives.getD t (fun _ => 0))).transpose)
            (lameLambda s.d_youngModulus s.d_poissonRatio)
            (lameMu s.d_youngModulus s.d_poissonRatio))
          (s.d_element_shape_derivatives.getD t (fun _ => 0) j)) ∧
    0 < (1 + s.d_poissonRatio) * (1 - 2 * s.d_poissonRatio) ∧
    0 < 2 * (1 + s.d_poissonRatio) ∧
    (0 < s.d_youngModulus →
      0 < lameMu s.d_youngModulus s.d_poissonRatio ∧
      0 < 3 * lameLambda s.d_youngModulus s.d_poissonRatio +
        2 * lameMu s.d_youngModulus s.d_poissonRatio) := by
  refine ⟨fun t ht => ?_, fun x t => ?_, fun dx t => ?_, (lame_denominators _ h1 h2).1,
    (lame_denominators _ h1 h2).2, fun hE => lame_positive _ _ hE h1 h2⟩
  · rw [precomputed_stiffness h s hv t ht, ← materialMatrix_eq_tensor]
    rfl
  · rw [addForceElement_snd]
    unfold stress
    rw [stressTensor_eq_spec]
  · rw [addDForceElement_eq]
    unfold stress
    rw [stressTensor_eq_spec]

end LameClaim

end Caribou

namespace Caribou

section OffsetClaim

variable {K : Type} [LinearOrderedField K]

/-! ## The tangent matrix assembly and the offset of the caller -/

theorem assembleElementOffset_apply (s : FEMForcefield K) (kFact : K) (offset : Nat)
    (M : BaseMatrix K) (i r c : Nat) :
    assembleElementOffset s kFact offset M i r c = M r c +
      ∑ j : Fin 4, ∑ k : Fin 4, ∑ l : Fin 3, ∑ m : Fin 3,
        if r = offset + s.d_tetrahedrons.getD i (fun _ => 0) j * 3 + l.val ∧
            c = offset + s.d_tetrahedrons.getD i (fun _ => 0) k * 3 + m.val then
          tangentBlock s kFact i j k l m else 0 := by
  unfold assembleElementOffset
  dsimp only
  exact foldl_add_all (fun j => offset + s.d_tetrahedrons.getD i (fun _ => 0) j * 3)
    (fun j k => tangentBlock s kFact i j k) M r c

/-- The assembly of the specification adds, at every entry, the block entries
of every element and local node pair that land on it, the indices shifted by
the offset. -/
theorem assembleTangentMatrix_apply (s : FEMForcefield K) (M : BaseMatrix K) (kFact : K)
    (offset r c : Nat) :
    (assembleTangentMatrix s M kFact offset).2 r c = M r c +
      ∑ i in Finset.range s.d_tetrahedrons.length,
        ∑ j : Fin 4, ∑ k : Fin 4, ∑ l : Fin 3, ∑ m : Fin 3,
          if r = offset + s.d_tetrahedrons.getD i (fun _ => 0) j * 3 + l.val ∧
              c = offset + s.d_tetrahedrons.getD i (fun _ => 0) k * 3 + m.val then
            tangentBlock s kFact i j k l m else 0 := by
  show ((List.range s.d_tetrahedrons.length).foldl (assembleElementOffset s kFact offset) M)
    r c = _
  exact foldl_additive_range _ (assembleElementOffset s kFact offset) _
    (fun i M r c => assembleElementOffset_apply s kFact offset M i r c) M r c

/-- The lines below the offset are left alone by the assembly of the specification. -/
theorem assembleTangentMatrix_below (s : FEMForcefield K) (M : BaseMatrix K) (kFact : K)
    (offset r c : Nat) (hr : r < offset) :
    (assembleTangentMatrix s M kFact offset).2 r c = M r c := by
  rw [assembleTangentMatrix_apply]
  have hz : ∀ i ∈ Finset.range s.d_tetrahedrons.length,
      (∑ j : Fin 4, ∑ k : Fin 4, ∑ l : Fin 3, ∑ m : Fin 3,
        if r = offset + s.d_tetrahedrons.getD i (fun _ => 0) j * 3 + l.val ∧
            c = offset + s.d_tetrahedrons.getD i (fun _ => 0) k * 3 + m.val then
          tangentBlock s kFact i j k l m else 0) = 0 := by
    intro i _
    refine Finset.sum_eq_zero fun j _ => Finset.sum_eq_zero fun k _ =>
      Finset.sum_eq_zero fun l _ => Finset.sum_eq_zero fun m _ => ?_
    rw [if_neg]
    rintro ⟨e, -⟩
    omega
  rw [Finset.sum_eq_zero hz, add_zero]

/-- C12 (as amended): `addKToMatrix` does not read the offset of the caller.
For every offset the matrix after the call is the one the specified assembly
gives for offset 0: the entry `(l, m)` of the scaled block of the local node
pair `(j, k)` of an element is added at row `3 node_j + l` and column
`3 node_k + m`. -/
theorem addKToMatrix_ignores_offset (s : FEMForcefield K) (M : BaseMatrix K) (kFact : K)
    (offset : Nat) :
    (addKToMatrix s M kFact offset).2 = (assembleTangentMatrix s M kFact 0).2 ∧
    ∀ r c, (addKToMatrix s M kFact offset).2 r c = M r c +
      ∑ i in Finset.range s.d_tetrahedrons.length,
        ∑ j : Fin 4, ∑ k : Fin 4, ∑ l : Fin 3, ∑ m : Fin 3,
          if r = 3 * s.d_tetrahedrons.getD i (fun _ => 0) j + l.val ∧
              c = 3 * s.d_tetrahedrons.getD i (fun _ => 0) k + m.val then
            tangentBlock s kFact i j k l m else 0 := by
  refine ⟨?_, fun r c => ?_⟩
  · funext r c
    rw [addKToMatrix_apply, assembleTangentMatrix_apply]
    simp only [Nat.zero_add]
  · rw [addKToMatrix_apply]
    simp only [Nat.mul_comm 3]

end OffsetClaim

end Caribou

namespace Caribou

/-! ## The unit tetrahedron in mode NONE, precomputed -/

theorem unitTetrahedron_val (k : Fin 4) : unitTetrahedron k = k.val := by
  fin_cases k <;> rfl

theorem unit_none_tetrahedrons (incremental : Bool) :
    (computeStiffnessMatrix exampleHelper
      (unitField Corotational.NONE incremental)).1.d_tetrahedrons = [unitTetrahedron] :=
  (computeStiffnessMatrix_config exampleHelper _).2.2.2.1

theorem unit_none_mode (incremental : Bool) :
    (computeStiffnessMatrix exampleHelper
      (unitField Corotational.NONE incremental)).1.d_corotational = Corotational.NONE :=
  (computeStiffnessMatrix_config exampleHelper _).2.2.2.2.1

theorem unit_none_shape (incremental : Bool) :
    (computeStiffnessMatrix exampleHelper
      (unitField Corotational.NONE incremental)).1.d_element_shape_derivatives.getD 0
        (fun _ => 0) = ![![-1, -1, -1], ![1, 0, 0], ![0, 1, 0], ![0, 0, 1]] := by
  have hm0 : (unitField Corotational.NONE incremental).d_corotational = Corotational.NONE := rfl
  rw [precomputed_shape exampleHelper _ (unitField_valid _ _) 0 Nat.zero_lt_one]
  unfold storedShape
  rw [if_pos (Or.inl hm0), unitField_restNode]
  exact unit_shape

theorem unit_none_stiffness (incremental : Bool) :
    (computeStiffnessMatrix exampleHelper
      (unitField Corotational.NONE incremental)).1.d_element_stiffness_matrices.getD 0 0 =
    (1 / 6 : ℚ) •
      (getStrainDisplacement
        (![![-1, -1, -1], ![1, 0, 0], ![0, 1, 0], ![0, 0, 1]] : Fin 4 → Vec3 ℚ)).transpose *
      materialMatrix (1000 : ℚ) (3 / 10) *
      getStrainDisplacement
        (![![-1, -1, -1], ![1, 0, 0], ![0, 1, 0], ![0, 0, 1]] : Fin 4 → Vec3 ℚ) := by
  have hm0 : (unitField Corotational.NONE incremental).d_corotational = Corotational.NONE := rfl
  rw [precomputed_stiffness exampleHelper _ (unitField_valid _ _) 0 Nat.zero_lt_one]
  unfold storedStiffness
  rw [unitField_volume]
  unfold storedShape
  rw [if_pos (Or.inl hm0), unitField_restNode]
  dsimp only
  simp only [Matrix.cons_val_zero, Matrix.cons_val_one, Matrix.head_cons, Matrix.cons_val_two,
    Matrix.cons_val_three, Matrix.tail_cons]
  rw [unit_shape]
  rfl

/-- The Lame parameters and the material matrix for `E = 1000`, `nu = 0.3`. -/
theorem unit_materialMatrix :
    materialMatrix (1000 : ℚ) (3 / 10) =
      !![17500 / 13, 7500 / 13, 7500 / 13, 0, 0, 0;
         7500 / 13, 17500 / 13, 7500 / 13, 0, 0, 0;
         7500 / 13, 7500 / 13, 17500 / 13, 0, 0, 0;
         0, 0, 0, 5000 / 13, 0, 0;
         0, 0, 0, 0, 5000 / 13, 0;
         0, 0, 0, 0, 0, 5000 / 13] := by
  unfold materialMatrix
  norm_num

end Caribou

namespace Caribou

/-- C12 (counterexample): the unit tetrahedron, `E = 1000`, `nu = 0.3`, mode
NONE, precomputed; zero matrix, `kFact = 1`, offset 12.  `addKToMatrix` adds
`-13750/39` at row 0, column 0, which is `3 node_0 + 0` without the offset; the
assembly that honours the offset touches no row below 12 and leaves 0 there. -/
theorem addKToMatrix_offset_counterexample :
    (addKToMatrix (computeStiffnessMatrix exampleHelper (unitField Corotational.NONE false)).1
      (fun _ _ => 0) 1 12).2 0 0 = -13750 / 39 ∧
    (assembleTangentMatrix
      (computeStiffnessMatrix exampleHelper (unitField Corotational.NONE false)).1
      (fun _ _ => 0) 1 12).2 0 0 = 0 := by
  refine ⟨?_, assembleTangentMatrix_below _ _ _ 12 0 0 (by decide)⟩
  have hblock : tangentBlock
      (computeStiffnessMatrix exampleHelper (unitField Corotational.NONE false)).1 1 0 0 0 0 0 =
      -13750 / 39 := by
    unfold tangentBlock
    dsimp only
    rw [if_pos (unit_none_mode false), unit_none_stiffness, getsub_stiffness,
      unit_materialMatrix]
    simp [Matrix.mul_apply, Fin.sum_univ_succ, strainBlock]
    norm_num
  rw [addKToMatrix_apply, unit_none_tetrahedrons]
  show (0 : ℚ) + ∑ i in Finset.range 1, _ = _
  have hget : List.getD [unitTetrahedron] 0 (fun _ => 0) = unitTetrahedron := rfl
  rw [Finset.sum_range_one, zero_add, hget, Finset.sum_eq_single (0 : Fin 4),
    Finset.sum_eq_single (0 : Fin 4), Finset.sum_eq_single (0 : Fin 3),
    Finset.sum_eq_single (0 : Fin 3)]
  · rw [if_pos ⟨by simp [unitTetrahedron], by simp [unitTetrahedron]⟩, hblock]
  · intro m _ hm
    rw [if_neg]
    rintro ⟨-, e⟩
    rw [unitTetrahedron_val] at e
    exact hm (Fin.ext (by simp only [Fin.val_zero] at e ⊢; omega))
  · intro hh
    exact absurd (Finset.mem_univ _) hh
  · intro l _ hl
    refine Finset.sum_eq_zero fun m _ => ?_
    rw [if_neg]
    rintro ⟨e, -⟩
    rw [unitTetrahedron_val] at e
    exact hl (Fin.ext (by simp only [Fin.val_zero] at e ⊢; omega))
  · intro hh
    exact absurd (Finset.mem_univ _) hh
  · intro k _ hk
    refine Finset.sum_eq_zero fun l _ => Finset.sum_eq_zero fun m _ => ?_
    rw [if_neg]
    rintro ⟨-, e⟩
    rw [unitTetrahedron_val] at e
    exact hk (Fin.ext (by simp only [Fin.val_zero] at e ⊢; omega))
  · intro hh
    exact absurd (Finset.mem_univ _) hh
  · intro j _ hj
    refine Finset.sum_eq_zero fun k _ => Finset.sum_eq_zero fun l _ =>
      Finset.sum_eq_zero fun m _ => ?_
    rw [if_neg]
    rintro ⟨e, -⟩
    rw [unitTetrahedron_val] at e
    exact hj (Fin.ext (by simp only [Fin.val_zero] at e ⊢; omega))
  · intro hh
    exact absurd (Finset.mem_univ _) hh

end Caribou

namespace Caribou

section VolumeClaim

variable {K : Type} [LinearOrderedField K]

/-! ## Precomputation and the sign of the rest volume -/

/-- The volume of lines 175, 347 and 432 is the absolute value of the signed volume. -/
theorem restVolume_eq_abs (s : FEMForcefield K) (t : Nat) :
    restVolume s t = |signedVolume s t| := by
  unfold restVolume signedVolume
  rw [abs_div, abs_of_pos (by norm_num : (0 : K) < 6)]

theorem precomputed_stiffness_length (h : Helper K) (s : FEMForcefield K)
    (hv : ValidTopology s) :
    (computeStiffnessMatrix h s).1.d_element_stiffness_matrices.length =
      s.d_tetrahedrons.length := by
  rw [precomputed_store h s hv]
  show List.length (List.foldl _ _ (List.range s.d_tetrahedrons.length)) = _
  rw [foldl_set_length (fun i _ => storedStiffness h s i), length_resize]

/-- C11 (as amended): `computeStiffnessMatrix` does not look at the sign of the
rest volume.  With rest positions and tetrahedra present and every node id in
range, in every mode and whatever the signed volumes, it reports no error and
stores one stiffness matrix per tetrahedron; for an element of nonzero signed
volume `V`, negative or positive, the matrix stored is `|V| Bt C B`. -/
theorem computeStiffnessMatrix_no_volume_check (h : Helper K) (s : FEMForcefield K)
    (hv : ValidTopology s) :
    (computeStiffnessMatrix h s).2 = Outcome.computed ∧
    (computeStiffnessMatrix h s).1.d_element_stiffness_matrices.length =
      s.d_tetrahedrons.length ∧
    ∀ t, t < s.d_tetrahedrons.length → signedVolume s t ≠ 0 →
      (computeStiffnessMatrix h s).1.d_element_stiffness_matrices.getD t 0 =
        |signedVolume s t| • (getStrainDisplacement (storedShape h s t)).transpose *
          materialMatrix s.d_youngModulus s.d_poissonRatio *
          getStrainDisplacement (storedShape h s t) := by
  refine ⟨?_, ?_, fun t ht _ => ?_⟩
  · rw [computeStiffnessMatrix_of_valid h s hv]
  · exact precomputed_stiffness_length h s hv
  · rw [precomputed_stiffness h s hv t ht, ← restVolume_eq_abs]
    rfl

end VolumeClaim

/-! ## The inverted unit tetrahedron -/

theorem invertedField_valid : ValidTopology invertedField := by
  refine ⟨by simp [invertedField, fresh, unitPositions], by simp [invertedField, fresh], ?_⟩
  intro tetrahedron ht j
  have e : tetrahedron = invertedTetrahedron := by
    simpa [invertedField, fresh] using ht
  subst e
  fin_cases j <;> simp [invertedTetrahedron, invertedField, fresh, unitPositions]

theorem invertedField_restNode :
    restNode invertedField 0 = ![![0, 0, 0], ![0, 1, 0], ![1, 0, 0], ![0, 0, 1]] := by
  funext k
  fin_cases k <;>
    simp [restNode, invertedField, fresh, unitPositions, invertedTetrahedron, vget]

theorem invertedField_signedVolume : signedVolume invertedField 0 = -1 / 6 := by
  unfold signedVolume
  rw [invertedField_restNode]
  simp [dot, cross]

theorem inverted_shape :
    getShapeDerivatives (![0, 0, 0] : Vec3 ℚ) ![0, 1, 0] ![1, 0, 0] ![0, 0, 1] =
      ![![-1, -1, -1], ![0, 1, 0], ![1, 0, 0], ![0, 0, 1]] := by
  funext j
  fin_cases j <;>
    (ext i; fin_cases i <;>
      norm_num [getShapeDerivatives, dot, cross, Matrix.vecHead, Matrix.vecTail])

/-- C11 (counterexample): the unit tetrahedron with nodes 1 and 2 exchanged,
`E = 1000`, `nu = 0.3`, mode NONE.  Its signed rest volume is `-1/6`, yet
`computeStiffnessMatrix` reports no error and stores a stiffness matrix for
it, whose first entry is `13750/39`. -/
theorem computeStiffnessMatrix_inverted_counterexample :
    signedVolume invertedField 0 = -1 / 6 ∧
    (computeStiffnessMatrix exampleHelper invertedField).2 = Outcome.computed ∧
    (computeStiffnessMatrix exampleHelper invertedField).1.d_element_stiffness_matrices.length
      = 1 ∧
    ((computeStiffnessMatrix exampleHelper
      invertedField).1.d_element_stiffness_matrices.getD 0 0) 0 0 = 13750 / 39 := by
  have hm0 : invertedField.d_corotational = Corotational.NONE := rfl
  refine ⟨invertedField_signedVolume, ?_, ?_, ?_⟩
  · rw [computeStiffnessMatrix_of_valid exampleHelper _ invertedField_valid]
  · rw [precomputed_stiffness_length exampleHelper _ invertedField_valid]
    rfl
  · rw [precomputed_stiffness exampleHelper _ invertedField_valid 0 Nat.zero_lt_one]
    show getsub (storedStiffness exampleHelper invertedField 0) 0 0 0 0 = _
    unfold storedStiffness
    rw [restVolume_eq_abs, invertedField_signedVolume, getsub_stiffness]
    unfold storedShape
    rw [if_pos (Or.inl hm0), invertedField_restNode]
    simp only [Matrix.cons_val_zero, Matrix.cons_val_one, Matrix.head_cons,
      Matrix.cons_val_two, Matrix.cons_val_three, Matrix.tail_cons]
    rw [inverted_shape]
    have hC : materialMatrix invertedField.d_youngModulus invertedField.d_poissonRatio =
        materialMatrix (1000 : ℚ) (3 / 10) := rfl
    rw [hC, unit_materialMatrix]
    simp [Matrix.mul_apply, Fin.sum_univ_succ, strainBlock, abs_div]
    norm_num

end Caribou

namespace Caribou

section OneElement

variable {K : Type} [LinearOrderedField K]

/-! ## A single tetrahedron on the nodes 0, 1, 2, 3 -/

omit [LinearOrderedField K] in
/-- Two arrays of the same size with the same entries are equal. -/
theorem list_eq_of_getD {α : Type} (d : α) (a b : List α) (hl : a.length = b.length)
    (hv : ∀ p, p < a.length → a.getD p d = b.getD p d) : a = b := by
  apply List.ext_getElem hl
  intro p h1 h2
  have e := hv p h1
  rw [List.getD_eq_getElem _ _ h1, List.getD_eq_getElem _ _ h2] at e
  exact e

/-- On the mesh of the single tetrahedron `[0, 1, 2, 3]`, node `p` loses the
vector of local node `p`. -/
theorem addForce_unit_vget (h : Helper K) (s : FEMForcefield K) (f x : List (Vec3 K))
    (hT : s.d_tetrahedrons = [unitTetrahedron]) (hf : f.length = 4) (p : Fin 4) :
    vget (addForce h s f x).2 p.val = vget f p.val - (addForceElement h s x 0).2 p := by
  have hlen : s.d_tetrahedrons.length = 1 := by rw [hT]; rfl
  have htet : s.d_tetrahedrons.getD 0 (fun _ => 0) = unitTetrahedron := by rw [hT]; rfl
  rw [(addForce_closed h s f x).2 p.val, hlen, Finset.sum_range_one, htet,
    Finset.sum_eq_single p]
  · rw [if_pos ⟨unitTetrahedron_val p, by rw [hf]; exact p.isLt⟩]
  · intro j _ hne
    rw [if_neg]
    rintro ⟨e, -⟩
    rw [unitTetrahedron_val] at e
    exact hne (Fin.ext e)
  · intro hh
    exact absurd (Finset.mem_univ _) hh

end OneElement

/-- The stress of the unit tetrahedron with node 1 moved by `(0.1, 0, 0)`,
`E = 1000`, `nu = 0.3`. -/
theorem unit_stretch_stress :
    stress (1000 : ℚ) (3 / 10)
      (fun k => (![![0, 0, 0], ![11 / 10, 0, 0], ![0, 1, 0], ![0, 0, 1]] : Fin 4 → Vec3 ℚ) k -
        (![![0, 0, 0], ![1, 0, 0], ![0, 1, 0], ![0, 0, 1]] : Fin 4 → Vec3 ℚ) k)
      ![![-1, -1, -1], ![1, 0, 0], ![0, 1, 0], ![0, 0, 1]] =
    !![1750 / 13, 0, 0; 0, 750 / 13, 0; 0, 0, 750 / 13] := by
  unfold stress stressTensor
  rw [gradient_eq_sum]
  ext i j
  fin_cases i <;> fin_cases j <;>
    simp [Fin.sum_univ_four, outer, trace, Matrix.one_apply, Matrix.vecHead,
      Matrix.vecTail] <;> norm_num

/-- The four vectors that the element subtracts in that configuration. -/
theorem unit_stretch_element (incremental : Bool) :
    (addForceElement exampleHelper
      (computeStiffnessMatrix exampleHelper (unitField Corotational.NONE incremental)).1
      stretchedPositions 0).2 =
    ![![-875 / 39, -125 / 13, -125 / 13], ![875 / 39, 0, 0], ![0, 125 / 13, 0],
      ![0, 0, 125 / 13]] := by
  set s0 := unitField Corotational.NONE incremental with hs0
  obtain ⟨hEs, hnus, hX, hT, hM, -⟩ := computeStiffnessMatrix_config exampleHelper s0
  have hE0 : (computeStiffnessMatrix exampleHelper s0).1.d_youngModulus = 1000 := hEs
  have hnu0 : (computeStiffnessMatrix exampleHelper s0).1.d_poissonRatio = 3 / 10 := hnus
  have hvol : restVolume (computeStiffnessMatrix exampleHelper s0).1 0 = 1 / 6 := by
    rw [restVolume_congr _ s0 0 hX hT]
    exact unitField_volume _ _
  have hnode : restNode (computeStiffnessMatrix exampleHelper s0).1 0 =
      ![![0, 0, 0], ![1, 0, 0], ![0, 1, 0], ![0, 0, 1]] := by
    rw [restNode_congr _ s0 0 hX hT]
    exact unitField_restNode _ _
  have hx : (fun k => vget stretchedPositions
      ((computeStiffnessMatrix exampleHelper s0).1.d_tetrahedrons.getD 0 (fun _ => 0) k)) =
      (![![0, 0, 0], ![11 / 10, 0, 0], ![0, 1, 0], ![0, 0, 1]] : Fin 4 → Vec3 ℚ) := by
    rw [hT]
    funext k
    fin_cases k <;> rfl
  have hdisp := elementDisplacement_none exampleHelper (computeStiffnessMatrix exampleHelper s0).1
    stretchedPositions 0 (unit_none_mode incremental)
  rw [hnode] at hdisp
  have hdisp2 : (elementDisplacement exampleHelper (computeStiffnessMatrix exampleHelper s0).1
      stretchedPositions 0).2 =
      fun k => (![![0, 0, 0], ![11 / 10, 0, 0], ![0, 1, 0], ![0, 0, 1]] : Fin 4 → Vec3 ℚ) k -
        (![![0, 0, 0], ![1, 0, 0], ![0, 1, 0], ![0, 0, 1]] : Fin 4 → Vec3 ℚ) k := by
    rw [hdisp]
    funext k
    rw [← hx]
  rw [addForceElement_snd, hdisp2, unit_none_shape, hE0, hnu0, hvol, unit_stretch_stress]
  unfold nodalForce
  rw [unit_none_mode]
  funext j
  rw [if_pos rfl]
  ext i
  fin_cases j <;> fin_cases i <;>
    norm_num [Matrix.mulVec, Matrix.dotProduct, Fin.sum_univ_three, Matrix.vecHead,
      Matrix.vecTail]

/-- The force array after `addForce` on a zero array in that configuration. -/
theorem unit_stretch_result (incremental : Bool) :
    (addForce exampleHelper
      (computeStiffnessMatrix exampleHelper (unitField Corotational.NONE incremental)).1
      [0, 0, 0, 0] stretchedPositions).2 =
    [![875 / 39, 125 / 13, 125 / 13], ![-875 / 39, 0, 0], ![0, -125 / 13, 0],
      ![0, 0, -125 / 13]] := by
  have hT := unit_none_tetrahedrons incremental
  have hlen := (addForce_closed exampleHelper
    (computeStiffnessMatrix exampleHelper (unitField Corotational.NONE incremental)).1
    [0, 0, 0, 0] stretchedPositions).1
  have hv := fun p : Fin 4 => addForce_unit_vget exampleHelper
    (computeStiffnessMatrix exampleHelper (unitField Corotational.NONE incremental)).1
    [0, 0, 0, 0] stretchedPositions hT rfl p
  have hlen4 : (addForce exampleHelper
      (computeStiffnessMatrix exampleHelper (unitField Corotational.NONE incremental)).1
      [0, 0, 0, 0] stretchedPositions).2.length = 4 := hlen
  refine list_eq_of_getD 0 _ [![875 / 39, 125 / 13, 125 / 13], ![-875 / 39, 0, 0],
    ![0, -125 / 13, 0], ![0, 0, -125 / 13]] hlen4 ?_
  intro p hp
  rw [hlen4] at hp
  have e := hv ⟨p, hp⟩
  rw [unit_stretch_element incremental] at e
  have e2 : List.getD (addForce exampleHelper
      (computeStiffnessMatrix exampleHelper (unitField Corotational.NONE incremental)).1
      [0, 0, 0, 0] stretchedPositions).2 p 0 = _ := e
  rw [e2]
  have hp4 : p = 0 ∨ p = 1 ∨ p = 2 ∨ p = 3 := by
    have : p < 4 := hp
    omega
  rcases hp4 with rfl | rfl | rfl | rfl <;>
  · ext i
    fin_cases i <;> norm_num [vget]

/-- C13: the unit-tetrahedron scenario.  One tetrahedron with rest nodes
`(0,0,0)`, `(1,0,0)`, `(0,1,0)`, `(0,0,1)`, `E = 1000`, `nu = 0.3`, mode NONE,
precomputed; node 1 moved by `(0.1, 0, 0)`.  `addForce` on a zero force array
leaves `(875/39, 125/13, 125/13)`, `(-875/39, 0, 0)`, `(0, -125/13, 0)`,
`(0, 0, -125/13)`: a nonzero force at each of the four nodes, the force on
node 1 with negative x-component and zero y and z components; and a second
evaluation, on the force field the first one left, gives the same result. -/
theorem unit_stretch_forces (incremental : Bool) :
    (addForce exampleHelper
      (computeStiffnessMatrix exampleHelper (unitField Corotational.NONE incremental)).1
      [0, 0, 0, 0] stretchedPositions).2 =
      [![875 / 39, 125 / 13, 125 / 13], ![-875 / 39, 0, 0], ![0, -125 / 13, 0],
        ![0, 0, -125 / 13]] ∧
    (∀ p, p < 4 → vget (addForce exampleHelper
      (computeStiffnessMatrix exampleHelper (unitField Corotational.NONE incremental)).1
      [0, 0, 0, 0] stretchedPositions).2 p ≠ 0) ∧
    vget (addForce exampleHelper
      (computeStiffnessMatrix exampleHelper (unitField Corotational.NONE incremental)).1
      [0, 0, 0, 0] stretchedPositions).2 1 0 < 0 ∧
    vget (addForce exampleHelper
      (computeStiffnessMatrix exampleHelper (unitField Corotational.NONE incremental)).1
      [0, 0, 0, 0] stretchedPositions).2 1 1 = 0 ∧
    vget (addForce exampleHelper
      (computeStiffnessMatrix exampleHelper (unitField Corotational.NONE incremental)).1
      [0, 0, 0, 0] stretchedPositions).2 1 2 = 0 ∧
    addForce exampleHelper
      (addForce exampleHelper
        (computeStiffnessMatrix exampleHelper (unitField Corotational.NONE incremental)).1
        [0, 0, 0, 0] stretchedPositions).1 [0, 0, 0, 0] stretchedPositions =
      addForce exampleHelper
        (computeStiffnessMatrix exampleHelper (unitField Corotational.NONE incremental)).1
        [0, 0, 0, 0] stretchedPositions := by
  have hr := unit_stretch_result incremental
  have hs : (addForce exampleHelper
      (computeStiffnessMatrix exampleHelper (unitField Corotational.NONE incremental)).1
      [0, 0, 0, 0] stretchedPositions).1 =
      (computeStiffnessMatrix exampleHelper (unitField Corotational.NONE incremental)).1 :=
    (addForce_fold_frame exampleHelper stretchedPositions _ _).2 (unit_none_mode incremental)
  rw [hs, hr]
  refine ⟨rfl, ?_, ?_, ?_, ?_, rfl⟩
  · intro p hp e
    have hp4 : p = 0 ∨ p = 1 ∨ p = 2 ∨ p = 3 := by omega
    rcases hp4 with rfl | rfl | rfl | rfl
    · have e0 := congrFun e 0
      norm_num [vget] at e0
    · have e0 := congrFun e 0
      norm_num [vget] at e0
    · have e0 := congrFun e 1
      norm_num [vget] at e0
    · have e0 := congrFun e 2
      norm_num [vget] at e0
  · norm_num [vget]
  · norm_num [vget]
  · norm_num [vget]

end Caribou

namespace Caribou

section StoredRotations

variable {K : Type} [LinearOrderedField K]

/-! ## The rotations that `addForce` stores -/

theorem properRotation_one : ProperRotation (1 : Mat33 K) :=
  ⟨by rw [Matrix.transpose_one, one_mul], Matrix.det_one⟩

theorem properRotation_mul (A B : Mat33 K) (hA : ProperRotation A) (hB : ProperRotation B) :
    ProperRotation (A * B) := by
  refine ⟨?_, ?_⟩
  · rw [Matrix.transpose_mul, Matrix.mul_assoc, ← Matrix.mul_assoc A.transpose, hA.1,
      one_mul, hB.1]
  · rw [Matrix.det_mul, hA.2, hB.2, one_mul]

/-- In a corotational mode, the rotation that the element loop of `addForce`
writes back: the extracted one, multiplied by the stored one when the update
is incremental. -/
theorem elementDisplacement_fst (h : Helper K) (s : FEMForcefield K) (x : List (Vec3 K))
    (t : Nat) (hm : s.d_corotational ≠ Corotational.NONE) :
    (elementDisplacement h s x t).1 =
      if s.d_incremental_rotation then
        extractedRotation h s x t * s.m_element_rotations.getD t 0
      else extractedRotation h s x t := by
  unfold elementDisplacement extractedRotation
  dsimp only
  rw [if_neg hm]
  by_cases hi : s.d_incremental_rotation = true
  · simp only [hi, if_true]
    by_cases hg : s.d_corotational = Corotational.DEFORMATION_GRADIENT
    · simp only [hg, if_true]
    · simp only [hg, if_false]
      by_cases hl : s.d_corotational = Corotational.LARGE
      · simp only [hl, if_true]
      · simp only [hl, if_false]
  · simp only [hi, if_false, Bool.false_eq_true]
    by_cases hg : s.d_corotational = Corotational.DEFORMATION_GRADIENT
    · simp only [hg, if_true]
    · simp only [hg, if_false]
      by_cases hl : s.d_corotational = Corotational.LARGE
      · simp only [hl, if_true]
      · simp only [hl, if_false]

/-- The element loop of `addForce`, as far as the force field goes: each
element's rotation is replaced by the one computed from the rotation that the
element had before the call. -/
theorem addForce_fold_rotations (h : Helper K) (x : List (Vec3 K)) (s : FEMForcefield K)
    (L : List Nat) (hL : L.Nodup) (rots : List (Mat33 K)) (f : List (Vec3 K))
    (hr : ∀ t ∈ L, rots.getD t 0 = s.m_element_rotations.getD t 0) :
    (L.foldl (addForceStep h x) (withRotations s rots, f)).1 =
      withRotations s (L.foldl (fun l t =>
        if s.d_corotational = Corotational.NONE then l
        else l.set t (addForceElement h s x t).1) rots) := by
  induction L generalizing rots f with
  | nil => rfl
  | cons i L ih =>
    rw [List.nodup_cons] at hL
    rw [List.foldl_cons, List.foldl_cons]
    have hi : addForceElement h (withRotations s rots) x i = addForceElement h s x i :=
      addForceElement_congr h s rots x i (hr i (List.mem_cons_self _ _))
    have hstep : addForceStep h x (withRotations s rots, f) i =
        (withRotations s
          (if s.d_corotational = Corotational.NONE then rots
           else rots.set i (addForceElement h s x i).1),
          scatter f (s.d_tetrahedrons.getD i (fun _ => 0)) (addForceElement h s x i).2) := by
      apply Prod.ext
      · rw [addForceStep_fst]
        show withRotations (withRotations s rots) _ = _
        rw [withRotations_withRotations, hi]
        rfl
      · show scatter f _ (addForceElement h (withRotations s rots) x i).2 = _
        rw [hi]
        rfl
    rw [hstep]
    apply ih hL.2
    intro t ht
    have hti : i ≠ t := fun e => hL.1 (e ▸ ht)
    by_cases hm : s.d_corotational = Corotational.NONE
    · simp only [hm, if_true]
      exact hr t (List.mem_cons_of_mem _ ht)
    · simp only [hm, if_false]
      rw [getD_set_ne _ _ _ _ _ hti]
      exact hr t (List.mem_cons_of_mem _ ht)

/-- The rotations after `addForce`: as many as before; in a corotational mode
every element of the mesh that has a stored rotation gets the rotation that
its own pass of the loop computed from it. -/
theorem addForce_rotations (h : Helper K) (s : FEMForcefield K) (f x : List (Vec3 K)) :
    (addForce h s f x).1.m_element_rotations.length = s.m_element_rotations.length ∧
    ∀ t, (addForce h s f x).1.m_element_rotations.getD t 0 =
      if s.d_corotational ≠ Corotational.NONE ∧ t < s.d_tetrahedrons.length ∧
          t < s.m_element_rotations.length then
        (addForceElement h s x t).1
      else s.m_element_rotations.getD t 0 := by
  have e : (addForce h s f x).1 = withRotations s
      ((List.range s.d_tetrahedrons.length).foldl (fun l t =>
        if s.d_corotational = Corotational.NONE then l
        else l.set t (addForceElement h s x t).1) s.m_element_rotations) := by
    unfold addForce
    exact addForce_fold_rotations h x s _ (List.nodup_range _) s.m_element_rotations f
      (fun _ _ => rfl)
  rw [e]
  show List.length (List.foldl _ _ (List.range s.d_tetrahedrons.length)) = _ ∧
    ∀ t, List.getD (List.foldl _ _ (List.range s.d_tetrahedrons.length)) t 0 = _
  by_cases hm : s.d_corotational = Corotational.NONE
  · have hfold : ∀ (L : List Nat) (l : List (Mat33 K)),
        L.foldl (fun l t => if s.d_corotational = Corotational.NONE then l
          else l.set t (addForceElement h s x t).1) l = l := by
      intro L
      induction L with
      | nil => intro l; rfl
      | cons i L ih => intro l; rw [List.foldl_cons, if_pos hm, ih]
    rw [hfold]
    refine ⟨rfl, fun t => ?_⟩
    rw [if_neg (fun hh => hh.1 hm)]
  · have hfun : (fun (l : List (Mat33 K)) (t : Nat) =>
        if s.d_corotational = Corotational.NONE then l
        else l.set t (addForceElement h s x t).1) =
        fun l t => l.set t ((fun t _ => (addForceElement h s x t).1) t (l.getD t 0)) := by
      funext l t
      rw [if_neg hm]
    rw [hfun]
    refine ⟨foldl_set_length (fun t _ => (addForceElement h s x t).1) _ _, fun t => ?_⟩
    rw [foldl_set_getD (fun t _ => (addForceElement h s x t).1) 0 _ (List.nodup_range _)]
    by_cases ht : t < s.d_tetrahedrons.length ∧ t < s.m_element_rotations.length
    · rw [if_pos ⟨List.mem_range.mpr ht.1, ht.2⟩, if_pos ⟨hm, ht⟩]
    · rw [if_neg (fun hh => ht ⟨List.mem_range.mp hh.1, hh.2⟩), if_neg (fun hh => ht hh.2)]

/-- One call keeps every data member but the rotations. -/
theorem applyOperation_frame (h : Helper K) (s : FEMForcefield K) (op : Operation K) :
    applyOperation h s op = withRotations s (applyOperation h s op).m_element_rotations := by
  cases op with
  | force f x => exact (addForce_fold_frame h x _ (s, f)).1
  | derivative df dx => rfl
  | matrix M kFact offset => rfl

omit [LinearOrderedField K] in
theorem withRotations_of_frame (s s1 : FEMForcefield K) (r1 R : List (Mat33 K))
    (hs : s1 = withRotations s r1) : withRotations s1 R = withRotations s R := by
  subst hs
  rfl

/-- A sequence of calls keeps every data member but the rotations. -/
theorem run_frame (h : Helper K) (s : FEMForcefield K) (ops : List (Operation K)) :
    run h s ops = withRotations s (run h s ops).m_element_rotations := by
  induction ops generalizing s with
  | nil => rfl
  | cons op rest ih =>
    show run h (applyOperation h s op) rest =
      withRotations s (run h (applyOperation h s op) rest).m_element_rotations
    exact (ih (applyOperation h s op)).trans
      (withRotations_of_frame s _ _ _ (applyOperation_frame h s op))

/-- One call keeps the rotations proper, when those it extracts are. -/
theorem applyOperation_proper (h : Helper K) (s : FEMForcefield K) (op : Operation K)
    (hlen : s.m_element_rotations.length = s.d_tetrahedrons.length)
    (hp : ∀ t, t < s.d_tetrahedrons.length → ProperRotation (s.m_element_rotations.getD t 0))
    (hext : ExtractionsProper h s [op]) :
    (applyOperation h s op).m_element_rotations.length = s.d_tetrahedrons.length ∧
    ∀ t, t < s.d_tetrahedrons.length →
      ProperRotation ((applyOperation h s op).m_element_rotations.getD t 0) := by
  cases op with
  | derivative df dx => exact ⟨hlen, hp⟩
  | matrix M kFact offset => exact ⟨hlen, hp⟩
  | force f x =>
    have hx : s.d_corotational ≠ Corotational.NONE →
        ∀ t, t < s.d_tetrahedrons.length → ProperRotation (extractedRotation h s x t) :=
      hext.1
    obtain ⟨h1, h2⟩ := addForce_rotations h s f x
    refine ⟨h1.trans hlen, fun t ht => ?_⟩
    show ProperRotation ((addForce h s f x).1.m_element_rotations.getD t 0)
    rw [h2 t]
    by_cases hm : s.d_corotational = Corotational.NONE
    · rw [if_neg (fun hh => hh.1 hm)]
      exact hp t ht
    · rw [if_pos ⟨hm, ht, by rw [hlen]; exact ht⟩, addForceElement_fst,
        elementDisplacement_fst h s x t hm]
      by_cases hi : s.d_incremental_rotation = true
      · rw [if_pos hi]
        exact properRotation_mul _ _ (hx hm t ht) (hp t ht)
      · rw [if_neg hi]
        exact hx hm t ht

/-- A sequence of calls keeps the rotations proper, when those it extracts are. -/
theorem run_proper (h : Helper K) (s : FEMForcefield K) (ops : List (Operation K))
    (hlen : s.m_element_rotations.length = s.d_tetrahedrons.length)
    (hp : ∀ t, t < s.d_tetrahedrons.length → ProperRotation (s.m_element_rotations.getD t 0))
    (hext : ExtractionsProper h s ops) :
    (run h s ops).m_element_rotations.length = s.d_tetrahedrons.length ∧
    ∀ t, t < s.d_tetrahedrons.length →
      ProperRotation ((run h s ops).m_element_rotations.getD t 0) := by
  induction ops generalizing s with
  | nil => exact ⟨hlen, hp⟩
  | cons op rest ih =>
    have hT : (applyOperation h s op).d_tetrahedrons = s.d_tetrahedrons := by
      rw [applyOperation_frame h s op]
      rfl
    obtain ⟨h1, h2⟩ := applyOperation_proper h s op hlen hp ⟨hext.1, trivial⟩
    have e := ih (applyOperation h s op) (by rw [hT]; exact h1) (by rw [hT]; exact h2) hext.2
    rw [hT] at e
    exact e

end StoredRotations

end Caribou

namespace Caribou

section LargeFrame

variable {K : Type} [LinearOrderedField K]

/-! ## The frame of mode LARGE is a proper rotation -/

theorem dot_smul_smul (c d : K) (a b : Vec3 K) : dot (c • a) (d • b) = c * d * dot a b := by
  simp only [dot, Pi.smul_apply, smul_eq_mul]
  ring

theorem dot_cross_self (a b : Vec3 K) : dot a (cross a b) = 0 := by
  simp only [dot, cross, Matrix.cons_val_zero, Matrix.cons_val_one, Matrix.head_cons,
    Matrix.cons_val_two, Matrix.tail_cons]
  ring

/-- Two matrices with the same products against every vector are equal. -/
theorem matrix_eq_of_mulVec (A B : Mat33 K) (hAB : ∀ v, A.mulVec v = B.mulVec v) : A = B :=
  Matrix.toLin'.injective
    (LinearMap.ext fun v => by rw [Matrix.toLin'_apply, Matrix.toLin'_apply]; exact hAB v)

/-- Two orthogonal unit vectors `u`, `w` and `w x u` between them are the
lines of a proper rotation. -/
theorem properRotation_of_frame (u w : Vec3 K) (hu : dot u u = 1) (hw : dot w w = 1)
    (huw : dot u w = 0) : ProperRotation (matFromRows u (cross w u) w) := by
  simp only [dot] at hu hw huw
  have hRRt : matFromRows u (cross w u) w * (matFromRows u (cross w u) w).transpose = 1 := by
    ext i j
    fin_cases i <;> fin_cases j <;>
      simp only [matFromRows, cross, Matrix.mul_apply, Matrix.transpose_apply,
        Fin.sum_univ_three, Matrix.of_apply, Matrix.cons_val_zero, Matrix.cons_val_one,
        Matrix.head_cons, Matrix.cons_val_two, Matrix.tail_cons, Fin.zero_eta, Fin.mk_one,
        Fin.reduceFinMk, Matrix.one_apply_eq, Matrix.one_apply_ne, ne_eq, Fin.reduceEq,
        not_false_eq_true]
    · linear_combination hu
    · ring
    · linear_combination huw
    · ring
    · linear_combination (u 0 * u 0 + u 1 * u 1 + u 2 * u 2) * hw + hu -
        (u 0 * w 0 + u 1 * w 1 + u 2 * w 2) * huw
    · ring
    · linear_combination huw
    · ring
    · linear_combination hw
  refine ⟨Matrix.mul_eq_one_comm.mp hRRt, ?_⟩
  rw [Matrix.det_fin_three]
  simp only [matFromRows, cross, Matrix.of_apply, Matrix.cons_val_zero, Matrix.cons_val_one,
    Matrix.head_cons, Matrix.cons_val_two, Matrix.tail_cons]
  linear_combination (u 0 * u 0 + u 1 * u 1 + u 2 * u 2) * hw + hu -
    (u 0 * w 0 + u 1 * w 1 + u 2 * w 2) * huw

theorem dot_normalized_self (h : Helper K) (v : Vec3 K)
    (hs : h.sqrt (dot v v) * h.sqrt (dot v v) = dot v v) (hne : dot v v ≠ 0) :
    dot (normalized h v) (normalized h v) = 1 := by
  have hs0 : h.sqrt (dot v v) ≠ 0 := by
    intro e
    rw [e, mul_zero] at hs
    exact hne hs.symm
  unfold normalized
  rw [dot_smul_smul, ← mul_inv, hs]
  exact inv_mul_cancel₀ hne

/-- The frame that `extractRotationLarge` builds is a proper rotation when
the square root is exact on the two lengths it normalises and neither is zero. -/
theorem extractRotationLarge_proper (h : Helper K) (A : Mat33 K)
    (hex : LargeFrameExact h (A 0) (A 1)) : ProperRotation (extractRotationLarge h A) := by
  obtain ⟨hs, hne, hsn, hnne⟩ := hex
  unfold extractRotationLarge
  refine properRotation_of_frame _ _ (dot_normalized_self h _ hs hne)
    (dot_normalized_self h _ hsn hnne) ?_
  show dot (normalized h (A 0)) ((h.sqrt _)⁻¹ • cross (normalized h (A 0)) (A 1)) = 0
  have e := dot_smul_smul 1 (h.sqrt (dot (cross (normalized h (A 0)) (A 1))
    (cross (normalized h (A 0)) (A 1))))⁻¹ (normalized h (A 0))
    (cross (normalized h (A 0)) (A 1))
  rw [one_smul] at e
  rw [e, dot_cross_self, mul_zero]

/-- Exactness of the square root on two edges carries over to the edges
turned by a proper rotation. -/
theorem largeFrameExact_mulVec (h : Helper K) (R : Mat33 K) (hR : ProperRotation R)
    (e0 e1 : Vec3 K) (hex : LargeFrameExact h e0 e1) :
    LargeFrameExact h (R.mulVec e0) (R.mulVec e1) := by
  unfold LargeFrameExact
  rw [dot_mulVec R hR.1, normalized_mulVec h R hR.1, cross_mulVec R hR.1 hR.2,
    dot_mulVec R hR.1]
  exact hex

/-- The frame extracted from edges turned by a proper rotation, composed with
that rotation, is the frame extracted from the edges themselves. -/
theorem extractRotationLarge_incremental (h : Helper K) (R : Mat33 K) (hR : ProperRotation R)
    (e0 e1 e2 : Vec3 K) :
    extractRotationLarge h (matFromRows (R.mulVec e0) (R.mulVec e1) (R.mulVec e2)) * R =
      extractRotationLarge h (matFromRows e0 e1 e2) := by
  apply matrix_eq_of_mulVec
  intro v
  rw [← Matrix.mulVec_mulVec, extractRotationLarge_rotated h R hR.1 hR.2]

/-- The matrix that `computeRotation` returns inside `addForce` in mode LARGE. -/
theorem extractedRotation_large (h : Helper K) (s : FEMForcefield K) (x : List (Vec3 K))
    (t : Nat) (hm : s.d_corotational = Corotational.LARGE) :
    extractedRotation h s x t =
      if s.d_incremental_rotation then
        extractRotationLarge h (matFromRows
          ((s.m_element_rotations.getD t 0).mulVec (currentNode s x t 1 - currentNode s x t 0))
          ((s.m_element_rotations.getD t 0).mulVec (currentNode s x t 2 - currentNode s x t 0))
          ((s.m_element_rotations.getD t 0).mulVec (currentNode s x t 3 - currentNode s x t 0)))
      else
        extractRotationLarge h (matFromRows (currentNode s x t 1 - currentNode s x t 0)
          (currentNode s x t 2 - currentNode s x t 0)
          (currentNode s x t 3 - currentNode s x t 0)) := by
  unfold extractedRotation currentNode
  simp only [hm, computeRotation_edges h s _ _ t (by rw [hm]; decide), if_false, if_true,
    reduceCtorEq, Matrix.cons_val_zero, Matrix.cons_val_one, Matrix.head_cons,
    Matrix.cons_val_two, Matrix.tail_cons, Matrix.cons_val_three, Matrix.mulVec_sub]

/-- In mode LARGE, with the stored rotation proper, the rotation that
`addForce` writes back is the frame of the current edges, whether the update
is incremental or not. -/
theorem elementDisplacement_large_fst (h : Helper K) (s : FEMForcefield K) (x : List (Vec3 K))
    (t : Nat) (hm : s.d_corotational = Corotational.LARGE)
    (hR : s.d_incremental_rotation = true → ProperRotation (s.m_element_rotations.getD t 0)) :
    (elementDisplacement h s x t).1 =
      extractRotationLarge h (matFromRows (currentNode s x t 1 - currentNode s x t 0)
        (currentNode s x t 2 - currentNode s x t 0)
        (currentNode s x t 3 - currentNode s x t 0)) := by
  rw [elementDisplacement_fst h s x t (by rw [hm]; decide), extractedRotation_large h s x t hm]
  by_cases hi : s.d_incremental_rotation = true
  · rw [if_pos hi, if_pos hi]
    exact extractRotationLarge_incremental h _ (hR hi) _ _ _
  · rw [if_neg hi, if_neg hi]

/-- In mode LARGE the four displacements are built from the rotation written
back, the initial rotation, and the current and rest edges. -/
theorem elementDisplacement_large_snd (h : Helper K) (s : FEMForcefield K) (x : List (Vec3 K))
    (t : Nat) (hm : s.d_corotational = Corotational.LARGE) :
    (elementDisplacement h s x t).2 =
      ![0,
        Function.update (Function.update
          ((elementDisplacement h s x t).1.mulVec (currentNode s x t 1 - currentNode s x t 0) -
            (s.m_element_initial_rotations.getD t 0).mulVec
              (restNode s t 1 - restNode s t 0)) 1 0) 2 0,
        Function.update
          ((elementDisplacement h s x t).1.mulVec (currentNode s x t 2 - currentNode s x t 0) -
            (s.m_element_initial_rotations.getD t 0).mulVec
              (restNode s t 2 - restNode s t 0)) 2 0,
        (elementDisplacement h s x t).1.mulVec (currentNode s x t 3 - currentNode s x t 0) -
          (s.m_element_initial_rotations.getD t 0).mulVec
            (restNode s t 3 - restNode s t 0)] := by
  unfold elementDisplacement currentNode restNode
  simp only [hm, if_false, if_true, reduceCtorEq]

end LargeFrame

end Caribou

namespace Caribou

section Incremental

variable {K : Type} [LinearOrderedField K]

/-! ## Incremental and non-incremental rotation in mode LARGE -/

omit [LinearOrderedField K] in
/-- A force field that differs from `s` in its rotations only has the data
and the precomputed arrays of `s`. -/
theorem frame_config (s s1 : FEMForcefield K) (r : List (Mat33 K))
    (e : s1 = withRotations s r) :
    s1.d_youngModulus = s.d_youngModulus ∧
    s1.d_poissonRatio = s.d_poissonRatio ∧
    s1.d_initial_positions = s.d_initial_positions ∧
    s1.d_tetrahedrons = s.d_tetrahedrons ∧
    s1.d_corotational = s.d_corotational ∧
    s1.d_incremental_rotation = s.d_incremental_rotation ∧
    s1.d_element_shape_derivatives = s.d_element_shape_derivatives ∧
    s1.m_element_initial_rotations = s.m_element_initial_rotations := by
  subst e
  exact ⟨rfl, rfl, rfl, rfl, rfl, rfl, rfl, rfl⟩

/-- A sequence of calls keeps the data and the precomputed arrays. -/
theorem run_config (h : Helper K) (s : FEMForcefield K) (ops : List (Operation K)) :
    (run h s ops).d_youngModulus = s.d_youngModulus ∧
    (run h s ops).d_poissonRatio = s.d_poissonRatio ∧
    (run h s ops).d_initial_positions = s.d_initial_positions ∧
    (run h s ops).d_tetrahedrons = s.d_tetrahedrons ∧
    (run h s ops).d_corotational = s.d_corotational ∧
    (run h s ops).d_incremental_rotation = s.d_incremental_rotation ∧
    (run h s ops).d_element_shape_derivatives = s.d_element_shape_derivatives ∧
    (run h s ops).m_element_initial_rotations = s.m_element_initial_rotations :=
  frame_config s _ _ (run_frame h s ops)

/-- A sequence of calls keeps the number of stored rotations. -/
theorem run_rotations_length (h : Helper K) (s : FEMForcefield K) (ops : List (Operation K)) :
    (run h s ops).m_element_rotations.length = s.m_element_rotations.length := by
  induction ops generalizing s with
  | nil => rfl
  | cons op rest ih =>
    show (run h (applyOperation h s op) rest).m_element_rotations.length = _
    rw [ih]
    cases op with
    | force f x => exact (addForce_rotations h s f x).1
    | derivative df dx => rfl
    | matrix M kFact offset => rfl

theorem currentNode_congr (s1 s2 : FEMForcefield K) (x : List (Vec3 K)) (t : Nat)
    (hT : s1.d_tetrahedrons = s2.d_tetrahedrons) : currentNode s1 x t = currentNode s2 x t := by
  unfold currentNode
  rw [hT]

/-- In mode LARGE, along `addForce` calls at positions whose first two edges
are normalised exactly, every extracted matrix is a proper rotation. -/
theorem large_extractions_proper (h : Helper K) (s : FEMForcefield K)
    (hm : s.d_corotational = Corotational.LARGE)
    (hlen : s.m_element_rotations.length = s.d_tetrahedrons.length)
    (hp : ∀ t, t < s.d_tetrahedrons.length → ProperRotation (s.m_element_rotations.getD t 0))
    (calls : List (List (Vec3 K) × List (Vec3 K)))
    (hex : ∀ c ∈ calls, ∀ t, t < s.d_tetrahedrons.length →
      LargeFrameExact h (currentNode s c.2 t 1 - currentNode s c.2 t 0)
        (currentNode s c.2 t 2 - currentNode s c.2 t 0)) :
    ExtractionsProper h s (calls.map fun c => Operation.force c.1 c.2) := by
  induction calls generalizing s with
  | nil => exact trivial
  | cons c rest ih =>
    have hfirst : s.d_corotational ≠ Corotational.NONE →
        ∀ t, t < s.d_tetrahedrons.length → ProperRotation (extractedRotation h s c.2 t) := by
      intro _ t ht
      have hc := hex c (List.mem_cons_self _ _) t ht
      rw [extractedRotation_large h s c.2 t hm]
      by_cases hi : s.d_incremental_rotation = true
      · rw [if_pos hi]
        exact extractRotationLarge_proper h _
          (largeFrameExact_mulVec h _ (hp t ht) _ _ hc)
      · rw [if_neg hi]
        exact extractRotationLarge_proper h _ hc
    have hfr := applyOperation_frame h s (Operation.force c.1 c.2)
    have hT : (applyOperation h s (Operation.force c.1 c.2)).d_tetrahedrons =
        s.d_tetrahedrons := (frame_config s _ _ hfr).2.2.2.1
    have hm2 : (applyOperation h s (Operation.force c.1 c.2)).d_corotational =
        Corotational.LARGE := ((frame_config s _ _ hfr).2.2.2.2.1).trans hm
    obtain ⟨h1, h2⟩ := applyOperation_proper h s (Operation.force c.1 c.2) hlen hp
      ⟨hfirst, trivial⟩
    refine ⟨hfirst, ih _ hm2 (by rw [hT]; exact h1) (by rw [hT]; exact h2) ?_⟩
    intro c2 hc2 t ht
    rw [hT] at ht
    rw [currentNode_congr _ s c2.2 t hT]
    exact hex c2 (List.mem_cons_of_mem _ hc2) t ht

/-- In mode LARGE, two force fields with the same data and precomputed arrays
compute the same rotation and the same four vectors for an element, whatever
their incremental settings, when the rotation stored for the element under an
incremental setting is proper. -/
theorem addForceElement_large_congr (h : Helper K) (s1 s2 : FEMForcefield K)
    (x : List (Vec3 K)) (t : Nat)
    (hm1 : s1.d_corotational = Corotational.LARGE)
    (hm2 : s2.d_corotational = Corotational.LARGE)
    (hE : s1.d_youngModulus = s2.d_youngModulus) (hnu : s1.d_poissonRatio = s2.d_poissonRatio)
    (hX : s1.d_initial_positions = s2.d_initial_positions)
    (hT : s1.d_tetrahedrons = s2.d_tetrahedrons)
    (hshape : s1.d_element_shape_derivatives.getD t (fun _ => 0) =
      s2.d_element_shape_derivatives.getD t (fun _ => 0))
    (hR0 : s1.m_element_initial_rotations.getD t 0 = s2.m_element_initial_rotations.getD t 0)
    (hR1 : s1.d_incremental_rotation = true → ProperRotation (s1.m_element_rotations.getD t 0))
    (hR2 : s2.d_incremental_rotation = true → ProperRotation (s2.m_element_rotations.getD t 0)) :
    addForceElement h s1 x t = addForceElement h s2 x t := by
  have hfst : (elementDisplacement h s1 x t).1 = (elementDisplacement h s2 x t).1 := by
    rw [elementDisplacement_large_fst h s1 x t hm1 hR1,
      elementDisplacement_large_fst h s2 x t hm2 hR2, currentNode_congr s1 s2 x t hT]
  have hsnd : (elementDisplacement h s1 x t).2 = (elementDisplacement h s2 x t).2 := by
    rw [elementDisplacement_large_snd h s1 x t hm1, elementDisplacement_large_snd h s2 x t hm2,
      hfst, currentNode_congr s1 s2 x t hT, restNode_congr s1 s2 t hX hT, hR0]
  apply Prod.ext
  · rw [addForceElement_fst, addForceElement_fst, hfst]
  · rw [addForceElement_snd, addForceElement_snd, hfst, hsnd, hshape, hE, hnu, hm1, hm2,
      restVolume_congr s1 s2 t hX hT]

/-- C14: in mode LARGE the incremental rotation update agrees with
recomputation from scratch.  On a mesh with a valid topology, start from a
freshly precomputed store with `incremental = true` and make any finite
sequence of `addForce` calls at position arrays at which the square root
normalises the first two edges of every element exactly, neither length being
zero (the two edges are linearly independent).  Then for one more call at any
position array `x`, the rotations stored when the call returns and the force
array it leaves are those of the same call on the store precomputed with
`incremental = false`, after any sequence of `addForce` calls of its own; and
the rotation stored for an element is the frame of its edges at `x`. -/
theorem incremental_large_agrees (h : Helper K) (E nu : K) (X : List (Vec3 K))
    (T : List Tetrahedron) (hv : ValidTopology (fresh E nu X T Corotational.LARGE true))
    (calls others : List (List (Vec3 K) × List (Vec3 K))) (f x : List (Vec3 K))
    (hex : ∀ c ∈ calls, ∀ t, t < T.length →
      LargeFrameExact h
        (vget c.2 (T.getD t (fun _ => 0) 1) - vget c.2 (T.getD t (fun _ => 0) 0))
        (vget c.2 (T.getD t (fun _ => 0) 2) - vget c.2 (T.getD t (fun _ => 0) 0))) :
    (addForce h (run h (computeStiffnessMatrix h (fresh E nu X T Corotational.LARGE true)).1
        (calls.map fun c => Operation.force c.1 c.2)) f x).1.m_element_rotations =
      (addForce h (run h (computeStiffnessMatrix h (fresh E nu X T Corotational.LARGE false)).1
        (others.map fun c => Operation.force c.1 c.2)) f x).1.m_element_rotations ∧
    (addForce h (run h (computeStiffnessMatrix h (fresh E nu X T Corotational.LARGE true)).1
        (calls.map fun c => Operation.force c.1 c.2)) f x).2 =
      (addForce h (run h (computeStiffnessMatrix h (fresh E nu X T Corotational.LARGE false)).1
        (others.map fun c => Operation.force c.1 c.2)) f x).2 ∧
    ∀ t, t < T.length →
      (addForce h (run h (computeStiffnessMatrix h (fresh E nu X T Corotational.LARGE true)).1
        (calls.map fun c => Operation.force c.1 c.2)) f x).1.m_element_rotations.getD t 0 =
      extractRotationLarge h (matFromRows
        (vget x (T.getD t (fun _ => 0) 1) - vget x (T.getD t (fun _ => 0) 0))
        (vget x (T.getD t (fun _ => 0) 2) - vget x (T.getD t (fun _ => 0) 0))
        (vget x (T.getD t (fun _ => 0) 3) - vget x (T.getD t (fun _ => 0) 0))) := by
  have hvN : ValidTopology (fresh E nu X T Corotational.LARGE false) := hv
  set PI := (computeStiffnessMatrix h (fresh E nu X T Corotational.LARGE true)).1 with hPI
  set PN := (computeStiffnessMatrix h (fresh E nu X T Corotational.LARGE false)).1 with hPN
  set sI := run h PI (calls.map fun c => Operation.force c.1 c.2) with hsI
  set sN := run h PN (others.map fun c => Operation.force c.1 c.2) with hsN
  -- the precomputed stores
  obtain ⟨hEI, hnuI, hXI, hTI, hMI, hII⟩ := computeStiffnessMatrix_config h
    (fresh E nu X T Corotational.LARGE true)
  obtain ⟨hEN, hnuN, hXN, hTN, hMN, hIN⟩ := computeStiffnessMatrix_config h
    (fresh E nu X T Corotational.LARGE false)
  have hTI2 : PI.d_tetrahedrons = T := hTI
  have hTN2 : PN.d_tetrahedrons = T := hTN
  have hlenPI : PI.m_element_rotations.length = PI.d_tetrahedrons.length := by
    rw [hPI, precomputed_rotations h _ hv, length_resize, hTI]
  have hlenPN : PN.m_element_rotations.length = PN.d_tetrahedrons.length := by
    rw [hPN, precomputed_rotations h _ hvN, length_resize, hTN]
  have hpPI : ∀ t, t < PI.d_tetrahedrons.length →
      ProperRotation (PI.m_element_rotations.getD t 0) := by
    intro t ht
    rw [hTI2] at ht
    rw [hPI, precomputed_rotations h _ hv]
    have e : (resize (fresh E nu X T Corotational.LARGE true).m_element_rotations
        (fresh E nu X T Corotational.LARGE true).d_tetrahedrons.length (1 : Mat33 K)).getD t 0
        = 1 := getD_resize_nil _ _ _ _ ht
    rw [e]
    exact properRotation_one
  -- the two stores after their calls
  obtain ⟨hE1, hnu1, hX1, hT1, hM1, hI1, hS1, hR1⟩ := run_config h PI
    (calls.map fun c => Operation.force c.1 c.2)
  obtain ⟨hE2, hnu2, hX2, hT2, hM2, hI2, hS2, hR2⟩ := run_config h PN
    (others.map fun c => Operation.force c.1 c.2)
  have hTsI : sI.d_tetrahedrons = T := hT1.trans hTI2
  have hTsN : sN.d_tetrahedrons = T := hT2.trans hTN2
  have hlenI : sI.m_element_rotations.length = T.length := by
    rw [hsI, run_rotations_length, hlenPI, hTI2]
  have hlenN : sN.m_element_rotations.length = T.length := by
    rw [hsN, run_rotations_length, hlenPN, hTN2]
  have hext : ExtractionsProper h PI (calls.map fun c => Operation.force c.1 c.2) := by
    refine large_extractions_proper h PI hMI hlenPI hpPI calls ?_
    intro c hc t ht
    rw [hTI2] at ht
    have e := hex c hc t ht
    unfold currentNode
    rw [hTI2]
    exact e
  have hpI : ∀ t, t < T.length → ProperRotation (sI.m_element_rotations.getD t 0) := by
    intro t ht
    refine (run_proper h PI _ hlenPI hpPI hext).2 t ?_
    rw [hTI2]
    exact ht
  have hincN : sN.d_incremental_rotation = false := hI2.trans hIN
  have hEsI : sI.d_youngModulus = E := hE1.trans hEI
  have hEsN : sN.d_youngModulus = E := hE2.trans hEN
  have hnusI : sI.d_poissonRatio = nu := hnu1.trans hnuI
  have hnusN : sN.d_poissonRatio = nu := hnu2.trans hnuN
  have hXsI : sI.d_initial_positions = X := hX1.trans hXI
  have hXsN : sN.d_initial_positions = X := hX2.trans hXN
  have hMsI : sI.d_corotational = Corotational.LARGE := hM1.trans hMI
  have hMsN : sN.d_corotational = Corotational.LARGE := hM2.trans hMN
  -- element by element
  have helem : ∀ t, t < T.length → addForceElement h sI x t = addForceElement h sN x t := by
    intro t ht
    have htI : t < (fresh E nu X T Corotational.LARGE true).d_tetrahedrons.length := ht
    have htN : t < (fresh E nu X T Corotational.LARGE false).d_tetrahedrons.length := ht
    refine addForceElement_large_congr h sI sN x t hMsI hMsN (hEsI.trans hEsN.symm)
      (hnusI.trans hnusN.symm) (hXsI.trans hXsN.symm) (hTsI.trans hTsN.symm) ?_ ?_
      (fun _ => hpI t ht) ?_
    · rw [hS1, hS2, hPI, hPN, precomputed_shape h _ hv t htI, precomputed_shape h _ hvN t htN]
      rfl
    · rw [hR1, hR2, hPI, hPN, precomputed_initial_rotation h _ hv t htI,
        precomputed_initial_rotation h _ hvN t htN]
      rfl
    · intro hi
      rw [hincN] at hi
      exact absurd hi (by decide)
  obtain ⟨hlI, hgI⟩ := addForce_rotations h sI f x
  obtain ⟨hlN, hgN⟩ := addForce_rotations h sN f x
  have hmI : sI.d_corotational ≠ Corotational.NONE := by
    rw [hMsI]
    decide
  have hmN : sN.d_corotational ≠ Corotational.NONE := by
    rw [hMsN]
    decide
  refine ⟨?_, ?_, ?_⟩
  · refine list_eq_of_getD 0 _ _ (hlI.trans (hlenI.trans (hlN.trans hlenN).symm)) ?_
    intro t ht
    rw [hlI, hlenI] at ht
    rw [hgI t, hgN t, if_pos ⟨hmI, by rw [hTsI]; exact ht, by rw [hlenI]; exact ht⟩,
      if_pos ⟨hmN, by rw [hTsN]; exact ht, by rw [hlenN]; exact ht⟩, helem t ht]
  · obtain ⟨hfI, hvI⟩ := addForce_closed h sI f x
    obtain ⟨hfN, hvN2⟩ := addForce_closed h sN f x
    refine list_eq_of_getD 0 _ _ (hfI.trans hfN.symm) ?_
    intro p _
    have e1 := hvI p
    have e2 := hvN2 p
    unfold vget at e1 e2
    rw [e1, e2, hTsI, hTsN]
    congr 1
    refine Finset.sum_congr rfl fun t ht => ?_
    rw [helem t (Finset.mem_range.mp ht)]
  · intro t ht
    rw [hgI t, if_pos ⟨hmI, by rw [hTsI]; exact ht, by rw [hlenI]; exact ht⟩,
      addForceElement_fst,
      elementDisplacement_large_fst h sI x t hMsI (fun _ => hpI t ht)]
    unfold currentNode
    rw [hTsI]

end Incremental

end Caribou

namespace Caribou

section RotationInvariant

variable {K : Type} [LinearOrderedField K]

/-! ## The stored rotations stay proper -/

/-- After `resize(n, Identity)` of an array of proper rotations, the first
`n` entries are proper rotations. -/
theorem resize_proper (l : List (Mat33 K)) (n : Nat) (hl : ∀ R ∈ l, ProperRotation R)
    (t : Nat) (ht : t < n) : ProperRotation ((resize l n (1 : Mat33 K)).getD t 0) := by
  have hlt : t < (resize l n (1 : Mat33 K)).length := by
    rw [length_resize]
    exact ht
  have hmem : (resize l n (1 : Mat33 K)).getD t 0 ∈
      l.take n ++ List.replicate (n - l.length) (1 : Mat33 K) :=
    getD_mem_of_lt (resize l n (1 : Mat33 K)) t 0 hlt
  rcases List.mem_append.mp hmem with hm | hm
  · exact hl _ (List.mem_of_mem_take hm)
  · rw [(List.mem_replicate.mp hm).2]
    exact properRotation_one

/-- C20: the stored rotations are proper rotations in every reachable state.
Take a force field with a valid topology whose rotation array holds proper
rotations only (it is empty in a force field as constructed), in any mode and
with either incremental setting.  After `computeStiffnessMatrix` and any
sequence of `addForce`, `addDForce` and `addKToMatrix` calls along which
every matrix that `computeRotation` returns is a proper rotation, there is one
stored rotation per tetrahedron and each is a proper rotation. -/
theorem stored_rotations_proper (h : Helper K) (s : FEMForcefield K) (hv : ValidTopology s)
    (hs : ∀ R ∈ s.m_element_rotations, ProperRotation R) (ops : List (Operation K))
    (hext : ExtractionsProper h (computeStiffnessMatrix h s).1 ops) :
    (run h (computeStiffnessMatrix h s).1 ops).m_element_rotations.length =
      s.d_tetrahedrons.length ∧
    ∀ t, t < s.d_tetrahedrons.length →
      ProperRotation ((run h (computeStiffnessMatrix h s).1 ops).m_element_rotations.getD t 0)
    := by
  have hT : (computeStiffnessMatrix h s).1.d_tetrahedrons = s.d_tetrahedrons :=
    (computeStiffnessMatrix_config h s).2.2.2.1
  have hlen : (computeStiffnessMatrix h s).1.m_element_rotations.length =
      (computeStiffnessMatrix h s).1.d_tetrahedrons.length := by
    rw [precomputed_rotations h s hv, length_resize, hT]
  have hp : ∀ t, t < (computeStiffnessMatrix h s).1.d_tetrahedrons.length →
      ProperRotation ((computeStiffnessMatrix h s).1.m_element_rotations.getD t 0) := by
    intro t ht
    rw [hT] at ht
    rw [precomputed_rotations h s hv]
    exact resize_proper _ _ hs t ht
  have e := run_proper h (computeStiffnessMatrix h s).1 ops hlen hp hext
  rw [hT] at e
  exact e

end RotationInvariant

end Caribou

namespace Caribou

/-! ## Mode DEFORMATION_GRADIENT: which rotation turns the positions -/

/-- The unit tetrahedron in mode DEFORMATION_GRADIENT, freshly precomputed,
its nodes turned by a quarter turn about z: the rotation that the element
loop writes back is the quarter turn, and the displacements are `x - X`. -/
theorem unit_gradient_displacement (incremental : Bool) :
    elementDisplacement exampleHelper
      (computeStiffnessMatrix exampleHelper
        (unitField Corotational.DEFORMATION_GRADIENT incremental)).1
      (unitPositions.map quarterTurn.mulVec) 0 =
    (quarterTurn,
      fun k => quarterTurn.mulVec (![![0, 0, 0], ![1, 0, 0], ![0, 1, 0], ![0, 0, 1]] k) -
        (![![0, 0, 0], ![1, 0, 0], ![0, 1, 0], ![0, 0, 1]] : Fin 4 → Vec3 ℚ) k) := by
  have hv := unitField_valid Corotational.DEFORMATION_GRADIENT incremental
  set s0 := unitField Corotational.DEFORMATION_GRADIENT incremental with hs0
  obtain ⟨-, -, hX, hT, hM, -⟩ := computeStiffnessMatrix_config exampleHelper s0
  have hms : (computeStiffnessMatrix exampleHelper s0).1.d_corotational =
      Corotational.DEFORMATION_GRADIENT := hM
  have htn : 0 < s0.d_tetrahedrons.length := Nat.zero_lt_one
  have hR : (computeStiffnessMatrix exampleHelper s0).1.m_element_rotations.getD 0 0 = 1 := by
    rw [precomputed_rotations exampleHelper s0 hv]
    exact getD_resize_nil _ _ _ _ htn
  have hnode : restNode (computeStiffnessMatrix exampleHelper s0).1 0 =
      ![![0, 0, 0], ![1, 0, 0], ![0, 1, 0], ![0, 0, 1]] := by
    rw [restNode_congr _ s0 0 hX hT]
    exact unitField_restNode _ _
  have hx : (fun k => vget (unitPositions.map quarterTurn.mulVec)
      ((computeStiffnessMatrix exampleHelper s0).1.d_tetrahedrons.getD 0 (fun _ => 0) k) -
        restNode (computeStiffnessMatrix exampleHelper s0).1 0 k) =
      fun k => quarterTurn.mulVec (![![0, 0, 0], ![1, 0, 0], ![0, 1, 0], ![0, 0, 1]] k) -
        (![![0, 0, 0], ![1, 0, 0], ![0, 1, 0], ![0, 0, 1]] : Fin 4 → Vec3 ℚ) k := by
    rw [hnode, hT]
    funext k
    fin_cases k <;> simp [s0, unitField, fresh, unitPositions, unitTetrahedron, vget]
  have hdisp := elementDisplacement_gradient exampleHelper
    (computeStiffnessMatrix exampleHelper s0).1 (unitPositions.map quarterTurn.mulVec) 0 hms hR
  rw [hx, hnode] at hdisp
  simp only [Matrix.cons_val_zero, Matrix.cons_val_one, Matrix.head_cons, Matrix.cons_val_two,
    Matrix.cons_val_three, Matrix.tail_cons] at hdisp
  rw [unit_shape, unit_quarterTurn_rotation] at hdisp
  exact hdisp

/-- C19 (evaluation): the unit tetrahedron with `E = 1000`, `nu = 0.3` in mode
DEFORMATION_GRADIENT with incremental rotation, freshly precomputed, its nodes
turned by a quarter turn `Q` about the z-axis, the polar extraction returning
`Q`.  When `addForce` returns, the rotation stored for the element is `Q`; the
displacement of node 1 that built the stress is `(-1, 1, 0)`, which is
`x_1 - X_1`, the positions turned by the transpose of the identity stored
before the call; the displacement `Qt x_1 - X_1` of the specification is zero. -/
theorem gradient_displacement_stale :
    (addForce exampleHelper
      (computeStiffnessMatrix exampleHelper
        (unitField Corotational.DEFORMATION_GRADIENT true)).1
      [0, 0, 0, 0] (unitPositions.map quarterTurn.mulVec)).1.m_element_rotations.getD 0 0 =
      quarterTurn ∧
    (elementDisplacement exampleHelper
      (computeStiffnessMatrix exampleHelper
        (unitField Corotational.DEFORMATION_GRADIENT true)).1
      (unitPositions.map quarterTurn.mulVec) 0).2 1 = ![-1, 1, 0] ∧
    materialFrameDisplacement quarterTurn
      (computeStiffnessMatrix exampleHelper
        (unitField Corotational.DEFORMATION_GRADIENT true)).1
      (unitPositions.map quarterTurn.mulVec) 0 1 = 0 := by
  have hv := unitField_valid Corotational.DEFORMATION_GRADIENT true
  obtain ⟨-, -, hX, hT, hM, -⟩ := computeStiffnessMatrix_config exampleHelper
    (unitField Corotational.DEFORMATION_GRADIENT true)
  have hms : (computeStiffnessMatrix exampleHelper
      (unitField Corotational.DEFORMATION_GRADIENT true)).1.d_corotational =
      Corotational.DEFORMATION_GRADIENT := hM
  have hT2 : (computeStiffnessMatrix exampleHelper
      (unitField Corotational.DEFORMATION_GRADIENT true)).1.d_tetrahedrons =
      [unitTetrahedron] := hT
  have hlen : (computeStiffnessMatrix exampleHelper
      (unitField Corotational.DEFORMATION_GRADIENT true)).1.m_element_rotations.length = 1 := by
    rw [precomputed_rotations exampleHelper _ hv, length_resize]
    rfl
  refine ⟨?_, ?_, ?_⟩
  · rw [(addForce_rotations exampleHelper _ _ _).2 0, if_pos, addForceElement_fst,
      unit_gradient_displacement]
    refine ⟨by rw [hms]; decide, by rw [hT2]; exact Nat.zero_lt_one, ?_⟩
    rw [hlen]
    exact Nat.zero_lt_one
  · rw [unit_gradient_displacement]
    ext i
    fin_cases i <;>
      simp [quarterTurn, Matrix.mulVec, Matrix.dotProduct, Fin.sum_univ_three, Matrix.vecHead,
        Matrix.vecTail]
  · unfold materialFrameDisplacement currentNode
    rw [restNode_congr _ (unitField Corotational.DEFORMATION_GRADIENT true) 0 hX hT,
      unitField_restNode, hT2]
    ext i
    fin_cases i <;>
      simp [quarterTurn, Matrix.mulVec, Matrix.dotProduct, Fin.sum_univ_three, Matrix.vecHead,
        Matrix.vecTail, unitPositions, unitTetrahedron, vget]

end Caribou

namespace Caribou

/-! ## More facts about the example data -/

theorem ratSqrt_one : ratSqrt 1 = 1 := by
  simp [ratSqrt]

/-- The first two edges of the unit tetrahedron after a quarter turn about z
are normalised exactly by the square root of the examples. -/
theorem unit_frame_exact :
    LargeFrameExact exampleHelper (![0, 1, 0] : Vec3 ℚ) ![-1, 0, 0] := by
  have hd : dot (![0, 1, 0] : Vec3 ℚ) ![0, 1, 0] = 1 := by simp [dot]
  have hn : normalized exampleHelper (![0, 1, 0] : Vec3 ℚ) = ![0, 1, 0] := by
    unfold normalized
    rw [hd]
    show (ratSqrt 1)⁻¹ • _ = _
    rw [ratSqrt_one, inv_one, one_smul]
  have hc : dot (cross (![0, 1, 0] : Vec3 ℚ) ![-1, 0, 0]) (cross ![0, 1, 0] ![-1, 0, 0]) = 1 := by
    simp [dot, cross]
  unfold LargeFrameExact
  rw [hn, hc, hd]
  show ratSqrt 1 * ratSqrt 1 = 1 ∧ (1 : ℚ) ≠ 0 ∧ ratSqrt 1 * ratSqrt 1 = 1 ∧ (1 : ℚ) ≠ 0
  rw [ratSqrt_one]
  norm_num

theorem unit_turned_exact :
    ∀ c ∈ [(([0, 0, 0, 0] : List (Vec3 ℚ)), unitPositions.map quarterTurn.mulVec)],
      ∀ t, t < [unitTetrahedron].length →
        LargeFrameExact exampleHelper
          (vget c.2 ([unitTetrahedron].getD t (fun _ => 0) 1) -
            vget c.2 ([unitTetrahedron].getD t (fun _ => 0) 0))
          (vget c.2 ([unitTetrahedron].getD t (fun _ => 0) 2) -
            vget c.2 ([unitTetrahedron].getD t (fun _ => 0) 0)) := by
  intro c hc t ht
  have hc2 : c = ([0, 0, 0, 0], unitPositions.map quarterTurn.mulVec) := by
    simpa using hc
  have ht0 : t = 0 := by
    have : t < 1 := ht
    omega
  subst hc2 ht0
  have e0 : vget (unitPositions.map quarterTurn.mulVec)
      ([unitTetrahedron].getD 0 (fun _ => 0) 1) -
      vget (unitPositions.map quarterTurn.mulVec) ([unitTetrahedron].getD 0 (fun _ => 0) 0) =
      ![0, 1, 0] := by
    ext i
    fin_cases i <;>
      simp [vget, unitPositions, unitTetrahedron, quarterTurn, Matrix.mulVec,
        Matrix.dotProduct, Fin.sum_univ_three, Matrix.vecHead, Matrix.vecTail]
  have e1 : vget (unitPositions.map quarterTurn.mulVec)
      ([unitTetrahedron].getD 0 (fun _ => 0) 2) -
      vget (unitPositions.map quarterTurn.mulVec) ([unitTetrahedron].getD 0 (fun _ => 0) 0) =
      ![-1, 0, 0] := by
    ext i
    fin_cases i <;>
      simp [vget, unitPositions, unitTetrahedron, quarterTurn, Matrix.mulVec,
        Matrix.dotProduct, Fin.sum_univ_three, Matrix.vecHead, Matrix.vecTail]
  rw [e0, e1]
  exact unit_frame_exact

/-- In mode POLAR with incremental rotation, on the freshly precomputed unit
tetrahedron at its rest positions, `computeRotation` returns the identity. -/
theorem unit_polar_extracted :
    extractedRotation exampleHelper
      (computeStiffnessMatrix exampleHelper (unitField Corotational.POLAR true)).1
      unitPositions 0 = 1 := by
  have hv := unitField_valid Corotational.POLAR true
  obtain ⟨-, -, hX, hT, hM, hI⟩ := computeStiffnessMatrix_config exampleHelper
    (unitField Corotational.POLAR true)
  have hX2 : (computeStiffnessMatrix exampleHelper
      (unitField Corotational.POLAR true)).1.d_initial_positions = unitPositions := hX
  have hT2 : (computeStiffnessMatrix exampleHelper
      (unitField Corotational.POLAR true)).1.d_tetrahedrons = [unitTetrahedron] := hT
  have hM2 : (computeStiffnessMatrix exampleHelper
      (unitField Corotational.POLAR true)).1.d_corotational = Corotational.POLAR := hM
  have hI2 : (computeStiffnessMatrix exampleHelper
      (unitField Corotational.POLAR true)).1.d_incremental_rotation = true := hI
  have hR : (computeStiffnessMatrix exampleHelper
      (unitField Corotational.POLAR true)).1.m_element_rotations.getD 0 0 = 1 := by
    rw [precomputed_rotations exampleHelper _ hv]
    exact getD_resize_nil _ _ _ _ Nat.zero_lt_one
  unfold extractedRotation
  simp only [hI2, hM2, hX2, hT2, hR, if_true, if_false, reduceCtorEq, Matrix.one_mulVec,
    computeRotation_edges exampleHelper _ _ _ 0 (by rw [hM2]; decide)]
  show matFromRows _ _ _ = 1
  ext i j
  fin_cases i <;> fin_cases j <;>
    simp [matFromRows, vget, unitPositions, unitTetrahedron, Matrix.vecHead, Matrix.vecTail]

/-! ## The theorems at the example data -/

/-- C11 (as amended) at the inverted unit tetrahedron. -/
theorem computeStiffnessMatrix_no_volume_check_witness :
    ValidTopology invertedField ∧ signedVolume invertedField 0 ≠ 0 ∧
    (computeStiffnessMatrix exampleHelper invertedField).2 = Outcome.computed ∧
    (computeStiffnessMatrix exampleHelper invertedField).1.d_element_stiffness_matrices.getD 0 0
      = |signedVolume invertedField 0| •
        (getStrainDisplacement (storedShape exampleHelper invertedField 0)).transpose *
        materialMatrix invertedField.d_youngModulus invertedField.d_poissonRatio *
        getStrainDisplacement (storedShape exampleHelper invertedField 0) :=
  ⟨invertedField_valid, by rw [invertedField_signedVolume]; norm_num,
    (computeStiffnessMatrix_no_volume_check exampleHelper invertedField invertedField_valid).1,
    (computeStiffnessMatrix_no_volume_check exampleHelper invertedField
      invertedField_valid).2.2 0 Nat.zero_lt_one
      (by rw [invertedField_signedVolume]; norm_num)⟩

/-- C14 at the unit tetrahedron: a first call at the positions turned by a
quarter turn about z, then the call at the positions with node 1 moved. -/
theorem incremental_large_agrees_witness :
    (addForce exampleHelper
      (run exampleHelper
        (computeStiffnessMatrix exampleHelper
          (fresh 1000 (3 / 10) unitPositions [unitTetrahedron] Corotational.LARGE true)).1
        ([(([0, 0, 0, 0] : List (Vec3 ℚ)), unitPositions.map quarterTurn.mulVec)].map
          fun c => Operation.force c.1 c.2))
      [0, 0, 0, 0] stretchedPositions).2 =
    (addForce exampleHelper
      (run exampleHelper
        (computeStiffnessMatrix exampleHelper
          (fresh 1000 (3 / 10) unitPositions [unitTetrahedron] Corotational.LARGE false)).1
        (([] : List (List (Vec3 ℚ) × List (Vec3 ℚ))).map fun c => Operation.force c.1 c.2))
      [0, 0, 0, 0] stretchedPositions).2 :=
  (incremental_large_agrees exampleHelper 1000 (3 / 10) unitPositions [unitTetrahedron]
    (unitField_valid Corotational.LARGE true)
    [([0, 0, 0, 0], unitPositions.map quarterTurn.mulVec)] [] [0, 0, 0, 0] stretchedPositions
    unit_turned_exact).2.1

/-- C16 at the identity strain with `lambda = 2`, `mu = 3`, the shear entries
in the order xy, yz, xz. -/
theorem tensor_stress_eq_voigt_witness :
    (1 : Mat33 ℚ).transpose = 1 ∧
    voigtStress (fun i => shearPairs ((Equiv.refl (Fin 3)) i))
        (stressSpec ((2 : ℚ) • (1 : Mat33 ℚ)) 2 3) =
      (buildElasticityTensor (2 : ℚ) 3).mulVec
        (voigtStrain (fun i => shearPairs ((Equiv.refl (Fin 3)) i)) (1 : Mat33 ℚ)) :=
  ⟨Matrix.transpose_one,
    (tensor_stress_eq_voigt 2 3 (1 : Mat33 ℚ) Matrix.transpose_one (Equiv.refl (Fin 3))).1⟩

/-- C17 at the unit tetrahedron, `E = 1000`, `nu = 0.3`. -/
theorem lame_parameters_witness :
    ValidTopology (unitField Corotational.NONE false) ∧
    0 < lameMu (unitField Corotational.NONE false).d_youngModulus
      (unitField Corotational.NONE false).d_poissonRatio ∧
    0 < 3 * lameLambda (unitField Corotational.NONE false).d_youngModulus
        (unitField Corotational.NONE false).d_poissonRatio +
      2 * lameMu (unitField Corotational.NONE false).d_youngModulus
        (unitField Corotational.NONE false).d_poissonRatio :=
  ⟨unitField_valid Corotational.NONE false,
    (lame_parameters exampleHelper (unitField Corotational.NONE false)
      (unitField_valid Corotational.NONE false)
      (show (-1 : ℚ) < 3 / 10 by norm_num)
      (show (3 / 10 : ℚ) < 1 / 2 by norm_num)).2.2.2.2.2
      (show (0 : ℚ) < 1000 by norm_num)⟩

/-- C20 at the unit tetrahedron in mode POLAR with incremental rotation: a
call of each operation, `addForce` at the rest positions. -/
theorem stored_rotations_proper_witness :
    ProperRotation
      ((run exampleHelper
        (computeStiffnessMatrix exampleHelper (unitField Corotational.POLAR true)).1
        [Operation.force [0, 0, 0, 0] unitPositions,
          Operation.derivative [0, 0, 0, 0] [0, ![1, 0, 0], 0, 0],
          Operation.matrix (fun _ _ => 0) 1 0]).m_element_rotations.getD 0 0) :=
  (stored_rotations_proper exampleHelper (unitField Corotational.POLAR true)
    (unitField_valid Corotational.POLAR true) (fun _ hR => absurd hR (List.not_mem_nil _))
    [Operation.force [0, 0, 0, 0] unitPositions,
      Operation.derivative [0, 0, 0, 0] [0, ![1, 0, 0], 0, 0],
      Operation.matrix (fun _ _ => 0) 1 0]
    ⟨fun _ t ht => by
        have hT : (computeStiffnessMatrix exampleHelper
            (unitField Corotational.POLAR true)).1.d_tetrahedrons = [unitTetrahedron] :=
          (computeStiffnessMatrix_config exampleHelper _).2.2.2.1
        rw [hT] at ht
        have ht0 : t = 0 := by
          have : t < 1 := ht
          omega
        rw [ht0, unit_polar_extracted]
        exact properRotation_one,
      trivial, trivial, trivial⟩).2 0 Nat.zero_lt_one

end Caribou

namespace Caribou

section Equilibrium

variable {K : Type} [LinearOrderedField K]

/-! ## Every element's contribution sums to zero -/

/-- The modelled shape derivatives sum to zero, whatever the tetrahedron. -/
theorem getShapeDerivatives_sum (a b c d : Vec3 K) :
    ∑ j : Fin 4, getShapeDerivatives a b c d j = 0 := by
  simp only [Fin.sum_univ_four, getShapeDerivatives, Matrix.cons_val_zero,
    Matrix.cons_val_one, Matrix.head_cons, Matrix.cons_val_two, Matrix.tail_cons,
    Matrix.cons_val_three]
  abel

theorem storedShape_sum (h : Helper K) (s : FEMForcefield K) (t : Nat) :
    ∑ j : Fin 4, storedShape h s t j = 0 := by
  unfold storedShape
  split_ifs <;> exact getShapeDerivatives_sum _ _ _ _

/-- The vector subtracted at a node is additive in the shape derivative. -/
theorem nodalForce_sum (mode : Corotational) (volume : K) (R Rt S : Mat33 K)
    (g : Fin 4 → Vec3 K) :
    ∑ j : Fin 4, nodalForce mode volume R Rt S (g j) =
      nodalForce mode volume R Rt S (∑ j : Fin 4, g j) := by
  unfold nodalForce
  split_ifs <;> simp only [Fin.sum_univ_four, Matrix.mulVec_add]

theorem nodalForce_zero_right (mode : Corotational) (volume : K) (R Rt S : Mat33 K) :
    nodalForce mode volume R Rt S 0 = 0 := by
  unfold nodalForce
  split_ifs <;> exact Matrix.mulVec_zero _

theorem addForceElement_sum (h : Helper K) (s : FEMForcefield K) (x : List (Vec3 K)) (t : Nat)
    (hg : ∑ j : Fin 4, s.d_element_shape_derivatives.getD t (fun _ => 0) j = 0) :
    ∑ j : Fin 4, (addForceElement h s x t).2 j = 0 := by
  rw [addForceElement_snd]
  dsimp only
  rw [nodalForce_sum, hg, nodalForce_zero_right]

theorem addDForceElement_sum (s : FEMForcefield K) (dx : List (Vec3 K)) (t : Nat)
    (hg : ∑ j : Fin 4, s.d_element_shape_derivatives.getD t (fun _ => 0) j = 0) :
    ∑ j : Fin 4, addDForceElement s dx t j = 0 := by
  rw [addDForceElement_eq]
  dsimp only
  rw [nodalForce_sum, hg, nodalForce_zero_right]

/-- A scatter of vectors that sum to zero in every element, at nodes inside
the array, keeps the sum of the array. -/
theorem arraySum_scatter (tets : Nat → Tetrahedron) (w : Nat → Fin 4 → Vec3 K) (n : Nat)
    (f g : List (Vec3 K)) (hlen : g.length = f.length)
    (hg : ∀ p, vget g p = vget f p - ∑ t in Finset.range n, ∑ j : Fin 4,
      if tets t j = p ∧ p < f.length then w t j else 0)
    (hidx : ∀ t, t < n → ∀ j, tets t j < f.length)
    (hw : ∀ t, t < n → ∑ j : Fin 4, w t j = 0) :
    arraySum g = arraySum f := by
  unfold arraySum
  rw [hlen]
  simp only [hg, Finset.sum_sub_distrib]
  rw [sub_eq_self, Finset.sum_comm]
  refine Finset.sum_eq_zero fun t ht => ?_
  have e : ∀ j : Fin 4, (∑ p in Finset.range f.length,
      if tets t j = p ∧ p < f.length then w t j else 0) = w t j := by
    intro j
    have hj := hidx t (Finset.mem_range.mp ht) j
    rw [Finset.sum_eq_single (tets t j)]
    · rw [if_pos ⟨rfl, hj⟩]
    · intro p _ hp
      rw [if_neg]
      rintro ⟨e, -⟩
      exact hp e.symm
    · intro hh
      exact absurd (Finset.mem_range.mpr hj) hh
  rw [Finset.sum_comm, Finset.sum_congr rfl (fun j _ => e j), hw t (Finset.mem_range.mp ht)]

theorem outer_add_right (u g k : Vec3 K) : outer u (g + k) = outer u g + outer u k := by
  ext i j
  simp [outer, mul_add]

theorem outer_zero_right (u : Vec3 K) : outer u (0 : Vec3 K) = 0 := by
  ext i j
  simp [outer]

/-- Adding one vector to the four nodal vectors does not change the gradient
when the shape derivatives sum to zero. -/
theorem gradient_translate (u g : Fin 4 → Vec3 K) (c : Vec3 K)
    (hg : ∑ j : Fin 4, g j = 0) :
    gradient (fun k => u k + c) g = gradient u g := by
  have hc : outer c (g 0) + outer c (g 1) + outer c (g 2) + outer c (g 3) = 0 := by
    rw [← outer_add_right, ← outer_add_right, ← outer_add_right, ← Fin.sum_univ_four, hg,
      outer_zero_right]
  rw [gradient_eq_sum, gradient_eq_sum]
  simp only [Fin.sum_univ_four, outer_add_left]
  rw [← add_zero (outer (u 0) (g 0) + outer (u 1) (g 1) + outer (u 2) (g 2) +
    outer (u 3) (g 3)), ← hc]
  abel

theorem vget_translate (x : List (Vec3 K)) (c : Vec3 K) (i : Nat) (hi : i < x.length) :
    vget (translate x c) i = vget x i + c :=
  vget_map x (fun a => a + c) i hi

/-- In mode NONE, the four vectors of an element are the same at the
positions all moved by one vector. -/
theorem addForceElement_none_translate (h : Helper K) (s : FEMForcefield K)
    (hm : s.d_corotational = Corotational.NONE) (x : List (Vec3 K)) (c : Vec3 K) (t : Nat)
    (hg : ∑ j : Fin 4, s.d_element_shape_derivatives.getD t (fun _ => 0) j = 0)
    (hidx : ∀ j, s.d_tetrahedrons.getD t (fun _ => 0) j < x.length) :
    (addForceElement h s (translate x c) t).2 = (addForceElement h s x t).2 := by
  have hu : (elementDisplacement h s (translate x c) t).2 =
      fun k => (elementDisplacement h s x t).2 k + c := by
    rw [elementDisplacement_none h s _ t hm, elementDisplacement_none h s x t hm]
    funext k
    rw [vget_translate x c _ (hidx k)]
    exact add_sub_right_comm _ _ _
  have hR : (elementDisplacement h s (translate x c) t).1 = (elementDisplacement h s x t).1 := by
    unfold elementDisplacement
    simp only [hm, if_true]
  rw [addForceElement_snd, addForceElement_snd, hR, hu]
  unfold stress
  rw [gradient_translate _ _ c hg]

/-- C21: each element's contribution is self-equilibrated.  For every force
field (every mode, every stored rotation) and every input: if the four stored
shape derivatives of an element sum to zero, the four vectors that `addForce`
subtracts for it sum to zero, and so do the four of `addDForce`.  When this
holds for every element and the node ids are inside the array, the sum of the
force array is unchanged by either call; and in mode NONE, moving all current
positions by one vector does not change the force array. -/
theorem element_self_equilibrated (h : Helper K) (s : FEMForcefield K) :
    (∀ t, ∑ j : Fin 4, s.d_element_shape_derivatives.getD t (fun _ => 0) j = 0 →
      (∀ x : List (Vec3 K), ∑ j : Fin 4, (addForceElement h s x t).2 j = 0) ∧
      (∀ dx : List (Vec3 K), ∑ j : Fin 4, addDForceElement s dx t j = 0)) ∧
    ((∀ t, t < s.d_tetrahedrons.length →
        ∑ j : Fin 4, s.d_element_shape_derivatives.getD t (fun _ => 0) j = 0) →
      (∀ f x : List (Vec3 K),
        (∀ t, t < s.d_tetrahedrons.length →
          ∀ j, s.d_tetrahedrons.getD t (fun _ => 0) j < f.length) →
        arraySum (addForce h s f x).2 = arraySum f) ∧
      (∀ df dx : List (Vec3 K),
        (∀ t, t < s.d_tetrahedrons.length →
          ∀ j, s.d_tetrahedrons.getD t (fun _ => 0) j < df.length) →
        arraySum (addDForce s df dx).2 = arraySum df) ∧
      (s.d_corotational = Corotational.NONE →
        ∀ (f x : List (Vec3 K)) (c : Vec3 K),
          (∀ t, t < s.d_tetrahedrons.length →
            ∀ j, s.d_tetrahedrons.getD t (fun _ => 0) j < x.length) →
          (addForce h s f (translate x c)).2 = (addForce h s f x).2)) := by
  refine ⟨fun t hg => ⟨fun x => addForceElement_sum h s x t hg,
    fun dx => addDForceElement_sum s dx t hg⟩, fun hall => ⟨?_, ?_, ?_⟩⟩
  · intro f x hidx
    obtain ⟨hl, hv⟩ := addForce_closed h s f x
    exact arraySum_scatter (fun t => s.d_tetrahedrons.getD t (fun _ => 0))
      (fun t => (addForceElement h s x t).2) _ f _ hl hv hidx
      (fun t ht => addForceElement_sum h s x t (hall t ht))
  · intro df dx hidx
    obtain ⟨hl, hv⟩ := addDForce_closed s df dx
    exact arraySum_scatter (fun t => s.d_tetrahedrons.getD t (fun _ => 0))
      (fun t => addDForceElement s dx t) _ df _ hl hv hidx
      (fun t ht => addDForceElement_sum s dx t (hall t ht))
  · intro hm f x c hidx
    obtain ⟨hl1, hv1⟩ := addForce_closed h s f (translate x c)
    obtain ⟨hl2, hv2⟩ := addForce_closed h s f x
    refine list_eq_of_getD 0 _ _ (hl1.trans hl2.symm) ?_
    intro p _
    have e1 := hv1 p
    have e2 := hv2 p
    unfold vget at e1 e2
    rw [e1, e2]
    refine congrArg (fun z => List.getD f p 0 - z) (Finset.sum_congr rfl fun t ht => ?_)
    rw [addForceElement_none_translate h s hm x c t (hall t (Finset.mem_range.mp ht))
      (hidx t (Finset.mem_range.mp ht))]

end Equilibrium

end Caribou

namespace Caribou

section Energy

variable {K : Type} [LinearOrderedField K]

/-! ## The work of the force derivative -/

theorem dot_transpose_mulVec (A : Mat33 K) (d v : Vec3 K) :
    dot d (A.transpose.mulVec v) = dot (A.mulVec d) v := by
  simp only [dot, Matrix.mulVec, Matrix.dotProduct, Fin.sum_univ_three, Matrix.transpose_apply]
  ring

theorem dot_smul_right (a : K) (u v : Vec3 K) : dot u (a • v) = a * dot u v := by
  simp only [dot, Pi.smul_apply, smul_eq_mul]
  ring

theorem dot_zero_left (v : Vec3 K) : dot 0 v = 0 := by
  simp [dot]

theorem dot_neg_right (u v : Vec3 K) : dot u (-v) = -dot u v := by
  simp only [dot, Pi.neg_apply]
  ring

theorem dot_finset_sum {ι : Type} (S : Finset ι) (a : Vec3 K) (v : ι → Vec3 K) :
    dot a (∑ i in S, v i) = ∑ i in S, dot a (v i) := by
  simp only [dot, Finset.sum_apply, Finset.mul_sum, Finset.sum_add_distrib]

/-- The work of the four vectors `S g_j` against the four vectors `u_j` is the
double contraction of `S` with the gradient of `u`. -/
theorem work_gradient (S : Mat33 K) (u g : Fin 4 → Vec3 K) :
    ∑ j : Fin 4, dot (u j) (S.mulVec (g j)) = doubleContraction S (gradient u g) := by
  rw [gradient_eq_sum]
  simp only [doubleContraction, dot, outer, Matrix.mulVec, Matrix.dotProduct,
    Fin.sum_univ_three, Fin.sum_univ_four, Matrix.add_apply, Matrix.of_apply]
  ring

/-- The stress contracted with the gradient is the strain energy form of the
symmetric gradient. -/
theorem stress_contraction (lambda mu : K) (G : Mat33 K) :
    doubleContraction (stressSpec (G + G.transpose) lambda mu) G =
      strainEnergy lambda mu ((1 / 2 : K) • (G + G.transpose)) := by
  simp only [doubleContraction, strainEnergy, stressSpec_apply, trace, Fin.sum_univ_three,
    Matrix.add_apply, Matrix.transpose_apply, Matrix.smul_apply, smul_eq_mul, if_true,
    Fin.reduceEq, if_false]
  ring

theorem strainEnergy_nonneg (lambda mu : K) (hmu : 0 < mu) (hk : 0 < 3 * lambda + 2 * mu)
    (eps : Mat33 K) : 0 ≤ strainEnergy lambda mu eps := by
  simp only [strainEnergy, doubleContraction, trace, Fin.sum_univ_three]
  have e : 2 * mu * (eps 0 0 * eps 0 0 + eps 0 1 * eps 0 1 + eps 0 2 * eps 0 2 +
        (eps 1 0 * eps 1 0 + eps 1 1 * eps 1 1 + eps 1 2 * eps 1 2) +
        (eps 2 0 * eps 2 0 + eps 2 1 * eps 2 1 + eps 2 2 * eps 2 2)) +
      lambda * ((eps 0 0 + eps 1 1 + eps 2 2) * (eps 0 0 + eps 1 1 + eps 2 2)) =
      2 * mu * (eps 0 1 * eps 0 1 + eps 0 2 * eps 0 2 + eps 1 0 * eps 1 0 + eps 1 2 * eps 1 2 +
        eps 2 0 * eps 2 0 + eps 2 1 * eps 2 1) +
      2 * mu / 3 * ((eps 0 0 - eps 1 1) * (eps 0 0 - eps 1 1) +
        (eps 1 1 - eps 2 2) * (eps 1 1 - eps 2 2) + (eps 0 0 - eps 2 2) * (eps 0 0 - eps 2 2)) +
      (3 * lambda + 2 * mu) / 3 *
        ((eps 0 0 + eps 1 1 + eps 2 2) * (eps 0 0 + eps 1 1 + eps 2 2)) := by
    ring
  rw [e]
  have h3 : (0 : K) < 3 := by norm_num
  have m1 : 0 ≤ 2 * mu := by linarith
  have m2 : 0 ≤ 2 * mu / 3 := div_nonneg m1 h3.le
  have m3 : 0 ≤ (3 * lambda + 2 * mu) / 3 := div_nonneg hk.le h3.le
  have s1 : 0 ≤ eps 0 1 * eps 0 1 + eps 0 2 * eps 0 2 + eps 1 0 * eps 1 0 + eps 1 2 * eps 1 2 +
      eps 2 0 * eps 2 0 + eps 2 1 * eps 2 1 := by
    have a1 := mul_self_nonneg (eps 0 1)
    have a2 := mul_self_nonneg (eps 0 2)
    have a3 := mul_self_nonneg (eps 1 0)
    have a4 := mul_self_nonneg (eps 1 2)
    have a5 := mul_self_nonneg (eps 2 0)
    have a6 := mul_self_nonneg (eps 2 1)
    linarith
  have s2 : 0 ≤ (eps 0 0 - eps 1 1) * (eps 0 0 - eps 1 1) +
      (eps 1 1 - eps 2 2) * (eps 1 1 - eps 2 2) + (eps 0 0 - eps 2 2) * (eps 0 0 - eps 2 2) := by
    have a1 := mul_self_nonneg (eps 0 0 - eps 1 1)
    have a2 := mul_self_nonneg (eps 1 1 - eps 2 2)
    have a3 := mul_self_nonneg (eps 0 0 - eps 2 2)
    linarith
  have s3 := mul_self_nonneg (eps 0 0 + eps 1 1 + eps 2 2)
  have t1 := mul_nonneg m1 s1
  have t2 := mul_nonneg m2 s2
  have t3 := mul_nonneg m3 s3
  linarith

/-- The work of the vector subtracted at a node against the direction of the
node is the volume times the work of `S g` against the de-rotated direction. -/
theorem dot_nodalForce (s : FEMForcefield K) (dx : List (Vec3 K)) (t : Nat) (S : Mat33 K)
    (g : Vec3 K) (k : Fin 4) :
    dot (vget dx (s.d_tetrahedrons.getD t (fun _ => 0) k))
      (nodalForce s.d_corotational (restVolume s t) (s.m_element_rotations.getD t 0)
        (s.m_element_rotations.getD t 0).transpose S g) =
      restVolume s t * dot (derotatedDirection s dx t k) (S.mulVec g) := by
  unfold nodalForce derotatedDirection
  by_cases hn : s.d_corotational = Corotational.NONE
  · rw [if_pos hn, if_pos hn, Matrix.smul_mulVec_assoc, dot_smul_right]
  · rw [if_neg hn, if_neg hn]
    by_cases hg : s.d_corotational = Corotational.DEFORMATION_GRADIENT
    · rw [if_pos hg, if_pos hg, rot_smul_mulVec, Matrix.smul_mulVec_assoc,
        Matrix.mulVec_smul, dot_smul_right, ← dot_transpose_mulVec, Matrix.transpose_transpose]
    · rw [if_neg hg, if_neg hg, rot_smul_mulVec, Matrix.smul_mulVec_assoc,
        Matrix.mulVec_smul, dot_smul_right, dot_transpose_mulVec]

/-- The work of the four vectors of an element of `addDForce` against the
directions of its nodes. -/
theorem addDForceElement_work (s : FEMForcefield K) (dx : List (Vec3 K)) (t : Nat) :
    ∑ j : Fin 4, dot (vget dx (s.d_tetrahedrons.getD t (fun _ => 0) j))
        (addDForceElement s dx t j) =
      restVolume s t *
        strainEnergy (lameLambda s.d_youngModulus s.d_poissonRatio)
          (lameMu s.d_youngModulus s.d_poissonRatio)
          (symmetricGradient (derotatedDirection s dx t)
            (s.d_element_shape_derivatives.getD t (fun _ => 0))) := by
  have hu : (fun k =>
      if s.d_corotational = Corotational.NONE then
        vget dx (s.d_tetrahedrons.getD t (fun _ => 0) k)
      else if s.d_corotational = Corotational.DEFORMATION_GRADIENT then
        (s.m_element_rotations.getD t 0).transpose.mulVec
          (vget dx (s.d_tetrahedrons.getD t (fun _ => 0) k))
      else
        (s.m_element_rotations.getD t 0).mulVec
          (vget dx (s.d_tetrahedrons.getD t (fun _ => 0) k))) = derotatedDirection s dx t := rfl
  rw [addDForceElement_eq, hu]
  simp only [dot_nodalForce]
  rw [← Finset.mul_sum, work_gradient]
  unfold stress symmetricGradient
  rw [stressTensor_eq_spec, stress_contraction]

theorem dot_zero_right (v : Vec3 K) : dot v 0 = 0 := by
  simp [dot]

/-- The work of what `addDForce` adds to a zero array against the direction:
minus the sum over the elements of the volume times the strain energy form. -/
theorem addDForce_work (s : FEMForcefield K) (dx : List (Vec3 K)) :
    work dx (addDForce s (List.replicate dx.length 0) dx).2 =
      -∑ t in Finset.range s.d_tetrahedrons.length,
        restVolume s t *
          strainEnergy (lameLambda s.d_youngModulus s.d_poissonRatio)
            (lameMu s.d_youngModulus s.d_poissonRatio)
            (symmetricGradient (derotatedDirection s dx t)
              (s.d_element_shape_derivatives.getD t (fun _ => 0))) := by
  have hv := (addDForce_closed s (List.replicate dx.length 0) dx).2
  unfold work
  simp only [hv, vget_replicate_zero, zero_sub, List.length_replicate, dot_neg_right,
    dot_finset_sum, Finset.sum_neg_distrib]
  rw [neg_inj, Finset.sum_comm]
  refine Finset.sum_congr rfl fun t _ => ?_
  rw [← addDForceElement_work, Finset.sum_comm]
  refine Finset.sum_congr rfl fun j _ => ?_
  by_cases hj : s.d_tetrahedrons.getD t (fun _ => 0) j < dx.length
  · rw [Finset.sum_eq_single (s.d_tetrahedrons.getD t (fun _ => 0) j)]
    · rw [if_pos ⟨rfl, hj⟩]
    · intro p _ hp
      rw [if_neg, dot_zero_right]
      rintro ⟨e, -⟩
      exact hp e.symm
    · intro hh
      exact absurd (Finset.mem_range.mpr hj) hh
  · rw [vget_of_length_le dx _ (not_lt.mp hj), dot_zero_left]
    refine Finset.sum_eq_zero fun p hp => ?_
    rw [if_neg, dot_zero_right]
    rintro ⟨e, -⟩
    exact hj (e ▸ Finset.mem_range.mp hp)

/-- C22: the tangent operator is negative semidefinite.  For `E > 0` and
`-1 < nu < 1/2`, for every force field (every mode, every stored rotation,
orthogonal or not, every set of shape derivatives) and every direction array
`d`, the array `df` that `addDForce` leaves from a zero array satisfies
`sum_i d_i . df_i <= 0`; the sum is minus the sum over the elements of
`V (2 mu eps:eps + lambda trace(eps)^2)`, with `eps` the symmetric gradient of
the de-rotated direction. -/
theorem tangent_negative_semidefinite (s : FEMForcefield K) (hE : 0 < s.d_youngModulus)
    (h1 : -1 < s.d_poissonRatio) (h2 : s.d_poissonRatio < 1 / 2) (d : List (Vec3 K)) :
    work d (addDForce s (List.replicate d.length 0) d).2 =
      -∑ t in Finset.range s.d_tetrahedrons.length,
        restVolume s t *
          strainEnergy (lameLambda s.d_youngModulus s.d_poissonRatio)
            (lameMu s.d_youngModulus s.d_poissonRatio)
            (symmetricGradient (derotatedDirection s d t)
              (s.d_element_shape_derivatives.getD t (fun _ => 0))) ∧
    work d (addDForce s (List.replicate d.length 0) d).2 ≤ 0 := by
  refine ⟨addDForce_work s d, ?_⟩
  rw [addDForce_work, neg_nonpos]
  obtain ⟨hmu, hk⟩ := lame_positive _ _ hE h1 h2
  refine Finset.sum_nonneg fun t _ => mul_nonneg ?_ (strainEnergy_nonneg _ _ hmu hk _)
  unfold restVolume
  exact div_nonneg (abs_nonneg _) (by norm_num)

end Energy

end Caribou

namespace Caribou

section RestTangent

variable {K : Type} [LinearOrderedField K]

/-! ## Shape derivatives and stiffness blocks of a rotated tetrahedron -/

/-- The adjugate of an orthogonal matrix is its determinant times its transpose. -/
theorem adjugate_orthogonal (Q : Mat33 K) (hQ : Q.transpose * Q = 1) :
    Q.adjugate = Q.det • Q.transpose := by
  have h1 : Q.transpose * (Q * Q.adjugate) = Q.det • Q.transpose := by
    rw [Matrix.mul_adjugate, Matrix.mul_smul, mul_one]
  rw [← mul_assoc, hQ, one_mul] at h1
  exact h1

theorem det_orthogonal (Q : Mat33 K) (hQ : Q.transpose * Q = 1) : Q.det * Q.det = 1 := by
  have e := congrArg Matrix.det hQ
  rw [Matrix.det_mul, Matrix.det_transpose, Matrix.det_one] at e
  exact e

theorem orthogonal_mul_transpose (Q : Mat33 K) (hQ : Q.transpose * Q = 1) :
    Q * Q.transpose = 1 := Matrix.mul_eq_one_comm.mp hQ

/-- An orthogonal matrix carries the cross product to its determinant times
the cross product of the images. -/
theorem cross_mulVec_orthogonal (Q : Mat33 K) (hQ : Q.transpose * Q = 1) (a b : Vec3 K) :
    cross (Q.mulVec a) (Q.mulVec b) = Q.det • Q.mulVec (cross a b) := by
  have hadj := adjugate_orthogonal Q hQ
  have e : ∀ i j : Fin 3, Q.adjugate i j = Q.det * Q j i := by
    intro i j
    rw [hadj]
    rfl
  have e00 := e 0 0
  have e01 := e 0 1
  have e02 := e 0 2
  have e10 := e 1 0
  have e11 := e 1 1
  have e12 := e 1 2
  have e20 := e 2 0
  have e21 := e 2 1
  have e22 := e 2 2
  rw [Matrix.adjugate_fin_three] at e00 e01 e02 e10 e11 e12 e20 e21 e22
  simp only [Matrix.of_apply, Matrix.cons_val_zero, Matrix.cons_val_one, Matrix.head_cons,
    Matrix.cons_val_two, Matrix.tail_cons, Matrix.cons_val', Matrix.empty_val',
    Matrix.cons_val_fin_one, Matrix.vecHead] at e00 e01 e02 e10 e11 e12 e20 e21 e22
  generalize Q.det = dQ at e00 e01 e02 e10 e11 e12 e20 e21 e22 ⊢
  ext i
  fin_cases i
  · simp only [cross, Matrix.mulVec, Matrix.dotProduct, Fin.sum_univ_three,
      Matrix.cons_val_zero, Matrix.cons_val_one, Matrix.head_cons, Matrix.cons_val_two,
      Matrix.tail_cons, Fin.zero_eta, Pi.smul_apply, smul_eq_mul]
    linear_combination (a 1 * b 2 - a 2 * b 1) * e00 + (a 2 * b 0 - a 0 * b 2) * e10 +
      (a 0 * b 1 - a 1 * b 0) * e20
  · simp only [cross, Matrix.mulVec, Matrix.dotProduct, Fin.sum_univ_three,
      Matrix.cons_val_zero, Matrix.cons_val_one, Matrix.head_cons, Matrix.cons_val_two,
      Matrix.tail_cons, Fin.mk_one, Pi.smul_apply, smul_eq_mul]
    linear_combination (a 1 * b 2 - a 2 * b 1) * e01 + (a 2 * b 0 - a 0 * b 2) * e11 +
      (a 0 * b 1 - a 1 * b 0) * e21
  · simp only [cross, Matrix.mulVec, Matrix.dotProduct, Fin.sum_univ_three,
      Matrix.cons_val_zero, Matrix.cons_val_one, Matrix.head_cons, Matrix.cons_val_two,
      Matrix.tail_cons, Fin.reduceFinMk, Pi.smul_apply, smul_eq_mul]
    linear_combination (a 1 * b 2 - a 2 * b 1) * e02 + (a 2 * b 0 - a 0 * b 2) * e12 +
      (a 0 * b 1 - a 1 * b 0) * e22

/-- The shape derivatives of a tetrahedron whose edges are the edges of
`a b c d` turned by an orthogonal matrix are the shape derivatives of
`a b c d` turned by that matrix. -/
theorem getShapeDerivatives_rotated (Q : Mat33 K) (hQ : Q.transpose * Q = 1)
    (a b c d a2 b2 c2 d2 : Vec3 K) (hb : b2 - a2 = Q.mulVec (b - a))
    (hc : c2 - a2 = Q.mulVec (c - a)) (hd : d2 - a2 = Q.mulVec (d - a)) :
    getShapeDerivatives a2 b2 c2 d2 = fun j => Q.mulVec (getShapeDerivatives a b c d j) := by
  have hdd := det_orthogonal Q hQ
  have hd0 : Q.det ≠ 0 := by
    intro e0
    rw [e0, mul_zero] at hdd
    exact zero_ne_one hdd
  have hdet : dot (Q.mulVec (b - a)) (cross (Q.mulVec (c - a)) (Q.mulVec (d - a))) =
      Q.det * dot (b - a) (cross (c - a) (d - a)) := by
    rw [cross_mulVec_orthogonal Q hQ, dot_smul_right, dot_mulVec Q hQ]
  have hscale : ∀ v : Vec3 K,
      (Q.det * dot (b - a) (cross (c - a) (d - a)))⁻¹ • Q.det • Q.mulVec v =
        Q.mulVec ((dot (b - a) (cross (c - a) (d - a)))⁻¹ • v) := by
    intro v
    rw [smul_smul, mul_inv, mul_comm (Q.det)⁻¹, mul_assoc, inv_mul_cancel₀ hd0, mul_one,
      Matrix.mulVec_smul]
  have hg1 : (dot (b2 - a2) (cross (c2 - a2) (d2 - a2)))⁻¹ • cross (c2 - a2) (d2 - a2) =
      Q.mulVec ((dot (b - a) (cross (c - a) (d - a)))⁻¹ • cross (c - a) (d - a)) := by
    rw [hb, hc, hd, hdet, cross_mulVec_orthogonal Q hQ, hscale]
  have hg2 : (dot (b2 - a2) (cross (c2 - a2) (d2 - a2)))⁻¹ • cross (d2 - a2) (b2 - a2) =
      Q.mulVec ((dot (b - a) (cross (c - a) (d - a)))⁻¹ • cross (d - a) (b - a)) := by
    rw [hb, hc, hd, hdet, cross_mulVec_orthogonal Q hQ, hscale]
  have hg3 : (dot (b2 - a2) (cross (c2 - a2) (d2 - a2)))⁻¹ • cross (b2 - a2) (c2 - a2) =
      Q.mulVec ((dot (b - a) (cross (c - a) (d - a)))⁻¹ • cross (b - a) (c - a)) := by
    rw [hb, hc, hd, hdet, cross_mulVec_orthogonal Q hQ, hscale]
  unfold getShapeDerivatives
  dsimp only
  rw [hg1, hg2, hg3]
  funext j
  fin_cases j
  · simp only [Fin.zero_eta, Matrix.cons_val_zero, Matrix.mulVec_neg, Matrix.mulVec_add]
  · rfl
  · rfl
  · rfl

theorem outer_mulVec_right (M : Mat33 K) (p g : Vec3 K) :
    outer p (M.mulVec g) = outer p g * M.transpose := by
  ext i j
  simp only [outer, Matrix.mul_apply, Matrix.mulVec, Matrix.dotProduct, Matrix.transpose_apply,
    Matrix.of_apply, Finset.mul_sum]
  exact Finset.sum_congr rfl fun x _ => by ring

theorem trace_eq (M : Mat33 K) : trace M = Matrix.trace M := by
  simp [trace, Matrix.trace, Fin.sum_univ_three]

/-- The material law is isotropic: the stress of a gradient conjugated by an
orthogonal matrix is the stress conjugated. -/
theorem stressTensor_conj (E nu : K) (Q : Mat33 K) (hQ : Q.transpose * Q = 1) (G : Mat33 K) :
    stressTensor E nu (Q * G * Q.transpose) = Q * stressTensor E nu G * Q.transpose := by
  have hQQ := orthogonal_mul_transpose Q hQ
  have hE2 : Q * G * Q.transpose + (Q * G * Q.transpose).transpose =
      Q * (G + G.transpose) * Q.transpose := by
    rw [Matrix.transpose_mul, Matrix.transpose_mul, Matrix.transpose_transpose, Matrix.mul_add,
      Matrix.add_mul, Matrix.mul_assoc Q G.transpose]
  have htr : trace (Q * (G + G.transpose) * Q.transpose) = trace (G + G.transpose) := by
    rw [trace_eq, trace_eq, Matrix.trace_mul_comm, ← Matrix.mul_assoc, hQ, one_mul]
  unfold stressTensor
  dsimp only
  rw [hE2, htr]
  simp only [Matrix.mul_add, Matrix.add_mul, Matrix.mul_smul, Matrix.smul_mul, Matrix.mul_one,
    hQQ]

/-- A stiffness block built on shape derivatives turned by an orthogonal
matrix, conjugated back, is the block built on the shape derivatives. -/
theorem block_conj (E nu : K) (Q : Mat33 K) (hQ : Q.transpose * Q = 1) (gj gk : Vec3 K) :
    Q.transpose * ((strainBlock (Q.mulVec gj)).transpose * materialMatrix E nu *
        strainBlock (Q.mulVec gk)) * Q =
      (strainBlock gj).transpose * materialMatrix E nu * strainBlock gk := by
  apply matrix_eq_of_mulVec
  intro u
  rw [← Matrix.mulVec_mulVec, ← Matrix.mulVec_mulVec, block_mulVec, block_mulVec,
    outer_mulVec_left, outer_mulVec_right, ← Matrix.mul_assoc, stressTensor_conj E nu Q hQ,
    Matrix.mulVec_mulVec, Matrix.mulVec_mulVec, ← Matrix.mul_assoc, ← Matrix.mul_assoc, hQ,
    one_mul, Matrix.mul_assoc, hQ, mul_one]

/-- In modes LARGE and POLAR the initial rotation that precomputation stores
does not depend on what the array held before. -/
theorem storedInitialRotation_corotational (h : Helper K) (s : FEMForcefield K) (t : Nat)
    (hmode : s.d_corotational = Corotational.LARGE ∨ s.d_corotational = Corotational.POLAR)
    (old : Mat33 K) :
    storedInitialRotation h s t old = storedInitialRotation h s t 0 := by
  unfold storedInitialRotation
  rcases hmode with hm | hm <;> simp only [hm, reduceCtorEq, or_self, if_false]

/-- In modes LARGE and POLAR, with an orthogonal initial rotation `R0`, the
shape derivatives that precomputation stores are `R0` applied to the shape
derivatives of the rest tetrahedron. -/
theorem storedShape_corotational (h : Helper K) (s : FEMForcefield K) (t : Nat)
    (hmode : s.d_corotational = Corotational.LARGE ∨ s.d_corotational = Corotational.POLAR)
    (hQ : (storedInitialRotation h s t 0).transpose * storedInitialRotation h s t 0 = 1) :
    storedShape h s t = fun j => (storedInitialRotation h s t 0).mulVec
      (getShapeDerivatives (restNode s t 0) (restNode s t 1) (restNode s t 2)
        (restNode s t 3) j) := by
  unfold storedShape
  dsimp only
  rcases hmode with hm | hm
  · rw [if_neg (by rw [hm]; decide), if_pos hm]
    exact getShapeDerivatives_rotated _ hQ _ _ _ _ _ _ _ _ (sub_zero _) (sub_zero _)
      (sub_zero _)
  · rw [if_neg (by rw [hm]; decide), if_neg (by rw [hm]; decide)]
    exact getShapeDerivatives_rotated _ hQ _ _ _ _ _ _ _ _ (Matrix.mulVec_sub _ _ _).symm
      (Matrix.mulVec_sub _ _ _).symm (Matrix.mulVec_sub _ _ _).symm

/-- In modes LARGE and POLAR, with an orthogonal initial rotation `R0`, a
block of the stored stiffness conjugated by `R0` is the block built on the
shape derivatives of the rest tetrahedron. -/
theorem storedStiffness_conj (h : Helper K) (s : FEMForcefield K) (t : Nat)
    (hmode : s.d_corotational = Corotational.LARGE ∨ s.d_corotational = Corotational.POLAR)
    (hQ : (storedInitialRotation h s t 0).transpose * storedInitialRotation h s t 0 = 1)
    (a : K) (j k : Fin 4) :
    a • (storedInitialRotation h s t 0).transpose * getsub (storedStiffness h s t) j k *
        storedInitialRotation h s t 0 =
      a • getsub (restVolume s t •
        (getStrainDisplacement (getShapeDerivatives (restNode s t 0) (restNode s t 1)
          (restNode s t 2) (restNode s t 3))).transpose *
        materialMatrix s.d_youngModulus s.d_poissonRatio *
        getStrainDisplacement (getShapeDerivatives (restNode s t 0) (restNode s t 1)
          (restNode s t 2) (restNode s t 3))) j k := by
  unfold storedStiffness
  dsimp only
  rw [getsub_stiffness, getsub_stiffness, storedShape_corotational h s t hmode hQ]
  dsimp only
  have hb := block_conj s.d_youngModulus s.d_poissonRatio _ hQ
    (getShapeDerivatives (restNode s t 0) (restNode s t 1) (restNode s t 2)
      (restNode s t 3) j)
    (getShapeDerivatives (restNode s t 0) (restNode s t 1) (restNode s t 2)
      (restNode s t 3) k)
  simp only [Matrix.smul_mul, Matrix.mul_smul]
  rw [hb]
  exact smul_comm _ _ _

end RestTangent

end Caribou

namespace Caribou

section RestTangentClaim

variable {K : Type} [LinearOrderedField K]

/-! ## The tangent matrix at the rest configuration -/

/-- In modes LARGE and POLAR, for an element whose stored rotation is its
orthogonal initial rotation, the block added to the tangent matrix is the
block added in mode NONE. -/
theorem tangentBlock_rest (h : Helper K) (E nu : K) (X : List (Vec3 K))
    (T : List Tetrahedron) (mode : Corotational) (inc incN : Bool)
    (hmode : mode = Corotational.LARGE ∨ mode = Corotational.POLAR)
    (hv : ValidTopology (fresh E nu X T mode inc)) (rots : List (Mat33 K)) (t : Nat)
    (ht : t < T.length)
    (hQ : ((computeStiffnessMatrix h
        (fresh E nu X T mode inc)).1.m_element_initial_rotations.getD t 0).transpose *
      (computeStiffnessMatrix h
        (fresh E nu X T mode inc)).1.m_element_initial_rotations.getD t 0 = 1)
    (hrot : rots.getD t 0 =
      (computeStiffnessMatrix h (fresh E nu X T mode inc)).1.m_element_initial_rotations.getD t 0)
    (kFact : K) (j k : Fin 4) :
    tangentBlock (withRotations (computeStiffnessMatrix h (fresh E nu X T mode inc)).1 rots)
        kFact t j k =
      tangentBlock (computeStiffnessMatrix h (fresh E nu X T Corotational.NONE incN)).1
        kFact t j k := by
  have hvN : ValidTopology (fresh E nu X T Corotational.NONE incN) := hv
  have hms0 : (fresh E nu X T mode inc).d_corotational = Corotational.LARGE ∨
      (fresh E nu X T mode inc).d_corotational = Corotational.POLAR := hmode
  have htC : t < (fresh E nu X T mode inc).d_tetrahedrons.length := ht
  have htN : t < (fresh E nu X T Corotational.NONE incN).d_tetrahedrons.length := ht
  have hR0eq : (computeStiffnessMatrix h
      (fresh E nu X T mode inc)).1.m_element_initial_rotations.getD t 0 =
      storedInitialRotation h (fresh E nu X T mode inc) t 0 := by
    rw [precomputed_initial_rotation h _ hv t htC, storedInitialRotation_corotational h _ t hms0]
  rw [hR0eq] at hQ hrot
  have hmC : (withRotations (computeStiffnessMatrix h (fresh E nu X T mode inc)).1
      rots).d_corotational = mode := (computeStiffnessMatrix_config h _).2.2.2.2.1
  have hmN : (computeStiffnessMatrix h
      (fresh E nu X T Corotational.NONE incN)).1.d_corotational = Corotational.NONE :=
    (computeStiffnessMatrix_config h _).2.2.2.2.1
  have hne : (withRotations (computeStiffnessMatrix h (fresh E nu X T mode inc)).1
      rots).d_corotational ≠ Corotational.NONE := by
    rw [hmC]
    rcases hmode with e | e <;> rw [e] <;> decide
  have hndg : (withRotations (computeStiffnessMatrix h (fresh E nu X T mode inc)).1
      rots).d_corotational ≠ Corotational.DEFORMATION_GRADIENT := by
    rw [hmC]
    rcases hmode with e | e <;> rw [e] <;> decide
  unfold tangentBlock
  dsimp only
  rw [if_neg hne, if_neg hndg, if_pos hmN]
  show (-kFact) • (rots.getD t 0).transpose *
      getsub ((computeStiffnessMatrix h
        (fresh E nu X T mode inc)).1.d_element_stiffness_matrices.getD t 0) j k *
      rots.getD t 0 = _
  rw [hrot, precomputed_stiffness h _ hv t htC, precomputed_stiffness h _ hvN t htN,
    storedStiffness_conj h _ t hms0 hQ]
  have hshape : storedShape h (fresh E nu X T Corotational.NONE incN) t =
      getShapeDerivatives (restNode (fresh E nu X T Corotational.NONE incN) t 0)
        (restNode (fresh E nu X T Corotational.NONE incN) t 1)
        (restNode (fresh E nu X T Corotational.NONE incN) t 2)
        (restNode (fresh E nu X T Corotational.NONE incN) t 3) := by
    unfold storedShape
    exact if_pos (Or.inl rfl)
  unfold storedStiffness
  rw [hshape]
  rfl

/-- After a non-incremental `addForce` at the rest positions, in modes LARGE
and POLAR, the rotation stored for an element is its initial rotation. -/
theorem rest_rotation_stored (h : Helper K) (E nu : K) (X : List (Vec3 K))
    (T : List Tetrahedron) (mode : Corotational)
    (hmode : mode = Corotational.LARGE ∨ mode = Corotational.POLAR)
    (hv : ValidTopology (fresh E nu X T mode false)) (f : List (Vec3 K)) (t : Nat)
    (ht : t < T.length) :
    (addForce h (computeStiffnessMatrix h (fresh E nu X T mode false)).1 f
        X).1.m_element_rotations.getD t 0 =
      (computeStiffnessMatrix h
        (fresh E nu X T mode false)).1.m_element_initial_rotations.getD t 0 := by
  have hms0 : (fresh E nu X T mode false).d_corotational = Corotational.LARGE ∨
      (fresh E nu X T mode false).d_corotational = Corotational.POLAR := hmode
  have htC : t < (fresh E nu X T mode false).d_tetrahedrons.length := ht
  obtain ⟨-, -, -, hT, hM, hI⟩ := computeStiffnessMatrix_config h (fresh E nu X T mode false)
  have hT2 : (computeStiffnessMatrix h (fresh E nu X T mode false)).1.d_tetrahedrons = T := hT
  have hM2 : (computeStiffnessMatrix h (fresh E nu X T mode false)).1.d_corotational = mode :=
    hM
  have hI2 : (computeStiffnessMatrix h (fresh E nu X T mode false)).1.d_incremental_rotation =
      false := hI
  have hne : (computeStiffnessMatrix h (fresh E nu X T mode false)).1.d_corotational ≠
      Corotational.NONE := by
    rw [hM2]
    rcases hmode with e | e <;> rw [e] <;> decide
  have hndg : (computeStiffnessMatrix h (fresh E nu X T mode false)).1.d_corotational ≠
      Corotational.DEFORMATION_GRADIENT := by
    rw [hM2]
    rcases hmode with e | e <;> rw [e] <;> decide
  have hlen : (computeStiffnessMatrix h (fresh E nu X T mode false)).1.m_element_rotations.length
      = T.length := by
    rw [precomputed_rotations h _ hv, length_resize]
    rfl
  rw [(addForce_rotations h _ f X).2 t, if_pos ⟨hne, by rw [hT2]; exact ht, by rw [hlen]; exact ht⟩,
    addForceElement_fst, elementDisplacement_fst h _ X t hne, hI2, if_neg (by decide),
    precomputed_initial_rotation h _ hv t htC, storedInitialRotation_corotational h _ t hms0]
  unfold extractedRotation
  dsimp only
  rw [hI2, if_neg (by decide), computeRotation_edges h _ _ _ t hndg, hM2, hT2]
  unfold storedInitialRotation restEdges restNode
  rcases hmode with e | e <;> subst e <;> simp only [reduceCtorEq, or_self, if_false, if_true] <;>
    rfl

/-- C23: at the rest configuration the corotational tangent matrix coincides
with the linear one.  For modes LARGE and POLAR, on a mesh with a valid
topology whose extracted initial rotations `R0` are orthogonal, for every
matrix, scale factor and offset: when the rotation stored for every element is
its `R0`, `addKToMatrix` on the store precomputed in that mode (blocks
`Rt K_block R`, `K_e` built on the shape derivatives of the `R0`-rotated rest
tetrahedron) gives the matrix that it gives on the store precomputed in mode
NONE; and the rotations are these after a non-incremental `addForce` at the
rest positions. -/
theorem rest_tangent_matrix_linear (h : Helper K) (E nu : K) (X : List (Vec3 K))
    (T : List Tetrahedron) (mode : Corotational) (inc incN : Bool)
    (hmode : mode = Corotational.LARGE ∨ mode = Corotational.POLAR)
    (hv : ValidTopology (fresh E nu X T mode inc))
    (hR0 : ∀ t, t < T.length →
      ((computeStiffnessMatrix h
          (fresh E nu X T mode inc)).1.m_element_initial_rotations.getD t 0).transpose *
        (computeStiffnessMatrix h
          (fresh E nu X T mode inc)).1.m_element_initial_rotations.getD t 0 = 1)
    (M : BaseMatrix K) (kFact : K) (offset : Nat) :
    (∀ rots : List (Mat33 K),
      (∀ t, t < T.length → rots.getD t 0 =
        (computeStiffnessMatrix h
          (fresh E nu X T mode inc)).1.m_element_initial_rotations.getD t 0) →
      (addKToMatrix (withRotations (computeStiffnessMatrix h (fresh E nu X T mode inc)).1 rots)
          M kFact offset).2 =
        (addKToMatrix (computeStiffnessMatrix h (fresh E nu X T Corotational.NONE incN)).1
          M kFact offset).2) ∧
    (inc = false → ∀ f : List (Vec3 K),
      (addKToMatrix (addForce h (computeStiffnessMatrix h (fresh E nu X T mode inc)).1 f X).1
          M kFact offset).2 =
        (addKToMatrix (computeStiffnessMatrix h (fresh E nu X T Corotational.NONE incN)).1
          M kFact offset).2) := by
  have hTC : (computeStiffnessMatrix h (fresh E nu X T mode inc)).1.d_tetrahedrons = T :=
    (computeStiffnessMatrix_config h _).2.2.2.1
  have hTN : (computeStiffnessMatrix h
      (fresh E nu X T Corotational.NONE incN)).1.d_tetrahedrons = T :=
    (computeStiffnessMatrix_config h _).2.2.2.1
  have key : ∀ rots : List (Mat33 K),
      (∀ t, t < T.length → rots.getD t 0 =
        (computeStiffnessMatrix h
          (fresh E nu X T mode inc)).1.m_element_initial_rotations.getD t 0) →
      (addKToMatrix (withRotations (computeStiffnessMatrix h (fresh E nu X T mode inc)).1 rots)
          M kFact offset).2 =
        (addKToMatrix (computeStiffnessMatrix h (fresh E nu X T Corotational.NONE incN)).1
          M kFact offset).2 := by
    intro rots hrots
    have hTW : (withRotations (computeStiffnessMatrix h (fresh E nu X T mode inc)).1
        rots).d_tetrahedrons = T := hTC
    funext r c
    rw [addKToMatrix_apply, addKToMatrix_apply, hTW, hTN]
    refine congrArg (fun z => M r c + z) (Finset.sum_congr rfl fun t ht => ?_)
    have htl := Finset.mem_range.mp ht
    refine Finset.sum_congr rfl fun j _ => Finset.sum_congr rfl fun k _ => ?_
    rw [tangentBlock_rest h E nu X T mode inc incN hmode hv rots t htl (hR0 t htl)
      (hrots t htl) kFact j k]
  refine ⟨key, fun hinc f => ?_⟩
  subst hinc
  have hfr := (addForce_fold_frame h X (List.range
    (computeStiffnessMatrix h (fresh E nu X T mode false)).1.d_tetrahedrons.length)
    ((computeStiffnessMatrix h (fresh E nu X T mode false)).1, f)).1
  have hfr2 : (addForce h (computeStiffnessMatrix h (fresh E nu X T mode false)).1 f X).1 =
      withRotations (computeStiffnessMatrix h (fresh E nu X T mode false)).1
        (addForce h (computeStiffnessMatrix h (fresh E nu X T mode false)).1 f
          X).1.m_element_rotations := hfr
  rw [hfr2]
  exact key _ (fun t ht => rest_rotation_stored h E nu X T mode hmode hv f t ht)

end RestTangentClaim

end Caribou

namespace Caribou

/-! ## The precomputed unit tetrahedron in any mode -/

theorem unit_store_tetrahedrons (mode : Corotational) (incremental : Bool) :
    (computeStiffnessMatrix exampleHelper (unitField mode incremental)).1.d_tetrahedrons =
      [unitTetrahedron] :=
  (computeStiffnessMatrix_config exampleHelper _).2.2.2.1

theorem unit_store_shape_sum (mode : Corotational) (incremental : Bool) (t : Nat)
    (ht : t < (computeStiffnessMatrix exampleHelper
      (unitField mode incremental)).1.d_tetrahedrons.length) :
    ∑ j : Fin 4, (computeStiffnessMatrix exampleHelper
      (unitField mode incremental)).1.d_element_shape_derivatives.getD t (fun _ => 0) j = 0 := by
  rw [unit_store_tetrahedrons] at ht
  rw [precomputed_shape exampleHelper _ (unitField_valid mode incremental) t ht]
  exact storedShape_sum _ _ _

theorem unit_store_index (mode : Corotational) (incremental : Bool) (t : Nat)
    (ht : t < (computeStiffnessMatrix exampleHelper
      (unitField mode incremental)).1.d_tetrahedrons.length) (j : Fin 4) :
    (computeStiffnessMatrix exampleHelper
      (unitField mode incremental)).1.d_tetrahedrons.getD t (fun _ => 0) j < 4 := by
  rw [unit_store_tetrahedrons] at ht ⊢
  have ht0 : t = 0 := by
    have : t < 1 := ht
    omega
  subst ht0
  show unitTetrahedron j < 4
  rw [unitTetrahedron_val]
  exact j.isLt

/-- In mode POLAR the initial rotation stored for the unit tetrahedron is the
identity, the matrix of its rest edges. -/
theorem unit_polar_initial (incremental : Bool) :
    (computeStiffnessMatrix exampleHelper
      (unitField Corotational.POLAR incremental)).1.m_element_initial_rotations.getD 0 0 = 1 := by
  have hm : (unitField Corotational.POLAR incremental).d_corotational = Corotational.POLAR := rfl
  rw [precomputed_initial_rotation exampleHelper _ (unitField_valid _ _) 0 Nat.zero_lt_one,
    storedInitialRotation_corotational exampleHelper _ 0 (Or.inr hm)]
  unfold storedInitialRotation
  rw [if_neg (by rw [hm]; decide), if_neg (by rw [hm]; decide)]
  show restEdges (unitField Corotational.POLAR incremental) 0 = 1
  unfold restEdges
  rw [unitField_restNode]
  ext i j
  fin_cases i <;> fin_cases j <;> simp [matFromRows, Matrix.vecHead, Matrix.vecTail]

/-! ## The last theorems at the unit tetrahedron -/

/-- C21 at the unit tetrahedron in mode NONE with node 1 moved: the sum of the
force array is kept, and moving all positions by `(1, 2, 3)` gives the same
force array. -/
theorem element_self_equilibrated_witness :
    arraySum (addForce exampleHelper
      (computeStiffnessMatrix exampleHelper (unitField Corotational.NONE false)).1
      [0, 0, 0, 0] stretchedPositions).2 = arraySum [0, 0, 0, 0] ∧
    (addForce exampleHelper
      (computeStiffnessMatrix exampleHelper (unitField Corotational.NONE false)).1
      [0, 0, 0, 0] (translate stretchedPositions ![1, 2, 3])).2 =
    (addForce exampleHelper
      (computeStiffnessMatrix exampleHelper (unitField Corotational.NONE false)).1
      [0, 0, 0, 0] stretchedPositions).2 :=
  ⟨((element_self_equilibrated exampleHelper
      (computeStiffnessMatrix exampleHelper (unitField Corotational.NONE false)).1).2
      (unit_store_shape_sum Corotational.NONE false)).1 [0, 0, 0, 0] stretchedPositions
      (unit_store_index Corotational.NONE false),
    ((element_self_equilibrated exampleHelper
      (computeStiffnessMatrix exampleHelper (unitField Corotational.NONE false)).1).2
      (unit_store_shape_sum Corotational.NONE false)).2.2 (unit_none_mode false)
      [0, 0, 0, 0] stretchedPositions ![1, 2, 3] (unit_store_index Corotational.NONE false)⟩

/-- C22 at the unit tetrahedron in mode LARGE, its element holding a quarter
turn, for the direction `(1, 0, 0)` at node 1. -/
theorem tangent_negative_semidefinite_witness :
    work [0, ![1, 0, 0], 0, 0]
      (addDForce (withRotations (computeStiffnessMatrix exampleHelper
        (unitField Corotational.LARGE false)).1 [quarterTurn])
        (List.replicate ([0, ![1, 0, 0], 0, 0] : List (Vec3 ℚ)).length 0)
        [0, ![1, 0, 0], 0, 0]).2 ≤ 0 :=
  (tangent_negative_semidefinite
    (withRotations (computeStiffnessMatrix exampleHelper
      (unitField Corotational.LARGE false)).1 [quarterTurn])
    (by
      have e : (withRotations (computeStiffnessMatrix exampleHelper
          (unitField Corotational.LARGE false)).1 [quarterTurn]).d_youngModulus = 1000 :=
        (computeStiffnessMatrix_config exampleHelper _).1
      rw [e]
      norm_num)
    (by
      have e : (withRotations (computeStiffnessMatrix exampleHelper
          (unitField Corotational.LARGE false)).1 [quarterTurn]).d_poissonRatio = 3 / 10 :=
        (computeStiffnessMatrix_config exampleHelper _).2.1
      rw [e]
      norm_num)
    (by
      have e : (withRotations (computeStiffnessMatrix exampleHelper
          (unitField Corotational.LARGE false)).1 [quarterTurn]).d_poissonRatio = 3 / 10 :=
        (computeStiffnessMatrix_config exampleHelper _).2.1
      rw [e]
      norm_num)
    [0, ![1, 0, 0], 0, 0]).2

/-- C23 at the unit tetrahedron in mode POLAR, after a non-incremental
`addForce` at the rest positions. -/
theorem rest_tangent_matrix_linear_witness :
    (addKToMatrix (addForce exampleHelper
        (computeStiffnessMatrix exampleHelper
          (fresh 1000 (3 / 10) unitPositions [unitTetrahedron] Corotational.POLAR false)).1
        [0, 0, 0, 0] unitPositions).1 (fun _ _ => 0) 1 0).2 =
      (addKToMatrix (computeStiffnessMatrix exampleHelper
        (fresh 1000 (3 / 10) unitPositions [unitTetrahedron] Corotational.NONE false)).1
        (fun _ _ => 0) 1 0).2 :=
  (rest_tangent_matrix_linear exampleHelper 1000 (3 / 10) unitPositions [unitTetrahedron]
    Corotational.POLAR false false (Or.inr rfl) (unitField_valid Corotational.POLAR false)
    (fun t ht => by
      have ht0 : t = 0 := by
        have : t < 1 := ht
        omega
      have e := unit_polar_initial false
      unfold unitField at e
      rw [ht0, e, Matrix.transpose_one, one_mul])
    (fun _ _ => 0) 1 0).2 rfl [0, 0, 0, 0]

end Caribou

